import Mathlib

/-!
dts2obj: the Torque shape (DTS) to Wavefront OBJ converter.

A shallow embedding of `source/main.cpp` (function `TorqueMain`) and theorems about it.

Modelling conventions.

* `S32`/`U32` counters, offsets and index values are natural numbers, and the
  fields of a face record are the exact sums `idx + vertOffset`.  The source adds
  in `U32` and writes with `%d`: the number written for a field `x` is
  `printedIndex x`, the sum modulo `2^32` read as a signed 32-bit number.  The
  theorems on the numbers written state that `vertOffset` stays below `2^31`.
* `Vector<T>::operator[]` outside the vector is a failed precondition: the
  embedding stops with a `Fault` that names the vector and the position.
* A stream is the list of the records written to it, one record for each call of
  `writeFormattedBuffer`.
* `F32` is IEEE-754 binary32 with round-to-nearest-even; only the operation the
  exporter performs itself (`1.0f - y`) is defined.
* Engine code outside `main.cpp` (the `TSDrawPrimitive` bit constants, the node
  world transform, `MatrixF::mulP`, `GBitmap::sFindFile`) is taken as a
  parameter, collected in `Engine`; paths, string tests and the opening of the
  streams are collected in `Platform`.
-/

namespace Dts2Obj

/-! ## Binary32 numbers -/

/-- A binary32 value.  A finite value is a sign and a magnitude counted in units of
`2^-149` (the smallest subnormal), so `1.0f` is `finite false (2^149)`. -/
inductive F32 where
  | finite (neg : Bool) (mag : Nat)
  | inf (neg : Bool)
  | nan
  deriving DecidableEq

namespace F32

/-- The constant `0.0f`. -/
def zero : F32 := .finite false 0

/-- The constant `1.0f`. -/
def one : F32 := .finite false (2 ^ 149)

/-- Search upwards from `s` for the least shift at which `a` is below `2^(24+s)`. -/
def excessBitsFrom (a : Nat) : Nat → Nat → Nat
  | 0, s => s
  | fuel + 1, s => if a < 2 ^ (24 + s) then s else excessBitsFrom a fuel (s + 1)

/-- The number of low-order bits of a magnitude that do not fit in a 24-bit
significand: the least `s` with `a < 2^(24+s)`. -/
def excessBits (a : Nat) : Nat := excessBitsFrom a a 0

/-- A magnitude is representable when it has no bit below its 24 leading bits and
is below `2^128` (that is `2^128 * 2^149` units). -/
def Representable (a : Nat) : Prop := a % 2 ^ excessBits a = 0 ∧ a < 2 ^ 128 * 2 ^ 149

instance (a : Nat) : Decidable (Representable a) := by
  unfold Representable; infer_instance

/-- The values a binary32 variable can hold. -/
def Valid : F32 → Prop
  | .finite _ m => Representable m
  | .inf _ => True
  | .nan => True

instance (x : F32) : Decidable (Valid x) := by
  cases x <;> unfold Valid <;> infer_instance

/-- Round a magnitude to 24 significant bits, to nearest, ties to even. -/
def roundMag (a : Nat) : Nat :=
  let s := excessBits a
  let q := a / 2 ^ s
  let r := a % 2 ^ s
  if 2 * r < 2 ^ s then q * 2 ^ s
  else if 2 ^ s < 2 * r then (q + 1) * 2 ^ s
  else if q % 2 = 0 then q * 2 ^ s
  else (q + 1) * 2 ^ s

/-- The binary32 result for an exact nonzero value of the given sign and magnitude:
rounded, and infinite when the rounded magnitude reaches `2^128`. -/
def ofExact (neg : Bool) (a : Nat) : F32 :=
  if roundMag a < 2 ^ 128 * 2 ^ 149 then .finite neg (roundMag a) else .inf neg

/-- The expression `1.0f - y`. -/
def oneMinus : F32 → F32
  | .nan => .nan
  | .inf neg => .inf (!neg)
  | .finite neg m =>
    if neg then ofExact false (2 ^ 149 + m)
    else if m = 2 ^ 149 then .finite false 0
    else if m < 2 ^ 149 then ofExact false (2 ^ 149 - m)
    else ofExact true (m - 2 ^ 149)

/-- The comparison `a == b` of C++: a NaN equals nothing, the two zeros are equal. -/
def ceq : F32 → F32 → Bool
  | .finite s m, .finite t n => decide (m = n) && (decide (s = t) || decide (m = 0))
  | .inf s, .inf t => decide (s = t)
  | _, _ => false

end F32

/-! ## Data model -/

/-- A `Point3F`. -/
structure Point3F where
  x : F32
  y : F32
  z : F32
  deriving DecidableEq

/-- A `Point2F`. -/
structure Point2F where
  x : F32
  y : F32
  deriving DecidableEq

/-- A `TSDrawPrimitive`: a run of the index buffer with the packed material and type word. -/
structure TSDrawPrimitive where
  start : Nat
  numElements : Nat
  matIndex : Nat
  deriving DecidableEq

/-- A `TSMesh`, with the members `TorqueMain` reads. -/
structure TSMesh where
  verts : List Point3F
  tverts : List Point2F
  norms : List Point3F
  indices : List Nat
  primitives : List TSDrawPrimitive
  deriving DecidableEq

/-- A `TSShape::Object`. -/
structure Object where
  nameIndex : Nat
  nodeIndex : Nat
  startMeshIndex : Nat
  numMeshes : Nat
  deriving DecidableEq

/-- A `TSShape`, with the members `TorqueMain` reads; a mesh slot holding `NULL` is `none`. -/
structure TSShape where
  objects : List Object
  names : List String
  meshes : List (Option TSMesh)
  materialNames : List String
  deriving DecidableEq

/-- A record of the geometry stream `destStream`, one for each format string of `TorqueMain`. -/
inductive Line where
  | mtllib (file : String)
  | g (name : String)
  | v (x y z : F32)
  | vt (u v : F32)
  | vn (x y z : F32)
  | usemtl (name : String)
  | f (v0 t0 n0 v1 t1 n1 v2 t2 n2 : Nat)
  deriving DecidableEq

/-- An out-of-range `operator[]` access, with the vector and the position. -/
inductive Fault where
  | indices (pos : Nat)
  | materialNames (k : Nat)
  | names (k : Nat)
  | meshes (j : Nat)
  deriving DecidableEq

instance instDecidableEqExcept {ε α : Type} [DecidableEq ε] [DecidableEq α] :
    DecidableEq (Except ε α)
  | .ok a, .ok b =>
    if h : a = b then isTrue (congrArg Except.ok h)
    else isFalse (fun h2 => h (Except.ok.inj h2))
  | .error a, .error b =>
    if h : a = b then isTrue (congrArg Except.error h)
    else isFalse (fun h2 => h (Except.error.inj h2))
  | .ok _, .error _ => isFalse (fun h => Except.noConfusion h)
  | .error _, .ok _ => isFalse (fun h => Except.noConfusion h)

/-- The engine code that `main.cpp` uses and does not define. -/
structure Engine where
  /-- The matrix type `MatrixF`. -/
  MatrixF : Type
  /-- The flag `TSDrawPrimitive::NoMaterial`. -/
  NoMaterial : Nat
  /-- The mask `TSDrawPrimitive::MaterialMask`. -/
  MaterialMask : Nat
  /-- The mask `TSDrawPrimitive::TypeMask`. -/
  TypeMask : Nat
  /-- The tag `TSDrawPrimitive::Triangles`. -/
  Triangles : Nat
  /-- The call `tss.getNodeWorldTransform(nodeIndex, &mat)`. -/
  getNodeWorldTransform : TSShape → Nat → MatrixF
  /-- The call `mat.mulP(vert)`. -/
  mulP : MatrixF → Point3F → Point3F
  /-- The call `GBitmap::sFindFile(materialName, &path)` followed by
  `path.getFullFileName()`: the file name when the image is found. -/
  sFindFile : String → Option String

/-! ## The primitive loops (lines 207 to 254) -/

/-- The access `mesh->indices[pos]`. -/
def readIndex (indices : List Nat) (pos : Nat) : Except Fault Nat :=
  match indices[pos]? with
  | some idx => .ok idx
  | none => .error (.indices pos)

/-- The face record written for the three slots `idx0`, `idx1`, `idx2`: its fields are
the exact sums, and `printedIndex` gives the number that `%d` writes for a field. -/
def faceRecord (vertOffset idx0 idx1 idx2 : Nat) : Line :=
  .f (idx0 + vertOffset) (idx0 + vertOffset) (idx0 + vertOffset)
     (idx1 + vertOffset) (idx1 + vertOffset) (idx1 + vertOffset)
     (idx2 + vertOffset) (idx2 + vertOffset) (idx2 + vertOffset)

/-- The loop of lines 222 to 232, entered with the loop variable `l`;
`stop` is `primitive.start + primitive.numElements`. -/
@[semireducible] def triangleLoop (indices : List Nat) (vertOffset stop : Nat) (l : Nat) :
    Except Fault (List Line) :=
  if l < stop then do
    let idx0 ← readIndex indices (l + 0)
    let idx1 ← readIndex indices (l + 1)
    let idx2 ← readIndex indices (l + 2)
    let rest ← triangleLoop indices vertOffset stop (l + 3)
    pure (faceRecord vertOffset idx0 idx1 idx2 :: rest)
  else pure []
termination_by stop - l

/-- The face records of a triangle-list primitive (lines 220 to 233). -/
def triangleFaces (indices : List Nat) (vertOffset : Nat) (primitive : TSDrawPrimitive) :
    Except Fault (List Line) :=
  triangleLoop indices vertOffset (primitive.start + primitive.numElements) primitive.start

/-- The slot that the pointer `nextIdx` addresses: `&idx0` or `&idx1`. -/
inductive SlotPtr where
  | toIdx0
  | toIdx1
  deriving DecidableEq

/-- The pointer `nextIdx ^ &idx0 ^ &idx1`: the other one of the two slots. -/
def SlotPtr.swap : SlotPtr → SlotPtr
  | .toIdx0 => .toIdx1
  | .toIdx1 => .toIdx0

/-- The local variables of the strip branch (lines 236 to 239). -/
structure StripState where
  idx0 : Nat
  idx1 : Nat
  idx2 : Nat
  nextIdx : SlotPtr
  deriving DecidableEq

/-- Lines 242 to 244, given the value read from the index buffer:
`*nextIdx = idx2`, the pointer swap, and `idx2 = mesh->indices[primitive.start + l]`. -/
def stripStep (st : StripState) (read : Nat) : StripState :=
  match st.nextIdx with
  | .toIdx0 => { idx0 := st.idx2, idx1 := st.idx1, idx2 := read, nextIdx := st.nextIdx.swap }
  | .toIdx1 => { idx0 := st.idx0, idx1 := st.idx2, idx2 := read, nextIdx := st.nextIdx.swap }

/-- The test of line 245. -/
def degenerate (idx0 idx1 idx2 : Nat) : Bool :=
  idx0 == idx1 || idx1 == idx2 || idx2 == idx0

/-- The loop of lines 240 to 252 over the remaining values of the loop variable `l`. -/
def stripLoop (indices : List Nat) (vertOffset start : Nat) :
    List Nat → StripState → Except Fault (List Line)
  | [], _ => pure []
  | l :: ls, st => do
    let read ← readIndex indices (start + l)
    let st2 := stripStep st read
    let rest ← stripLoop indices vertOffset start ls st2
    if degenerate st2.idx0 st2.idx1 st2.idx2 then pure rest
    else pure (faceRecord vertOffset st2.idx0 st2.idx1 st2.idx2 :: rest)

/-- The slots `(idx0, idx1, idx2)` at line 245 of each iteration of the loop of
lines 240 to 252: the candidate triangles, before the test. -/
def stripCandidatesLoop (indices : List Nat) (start : Nat) :
    List Nat → StripState → Except Fault (List (Nat × Nat × Nat))
  | [], _ => pure []
  | l :: ls, st => do
    let read ← readIndex indices (start + l)
    let st2 := stripStep st read
    let rest ← stripCandidatesLoop indices start ls st2
    pure ((st2.idx0, st2.idx1, st2.idx2) :: rest)

/-- The values of `l` in `for (S32 l = 2; l < primitive.numElements; l++)`. -/
def stripRange (numElements : Nat) : List Nat := List.range' 2 (numElements - 2)

/-- The slots on entry to the loop; `idx1` is not initialised by the source and is
assigned through `nextIdx` before it is read. -/
def stripInit (idx0 idx2 : Nat) : StripState :=
  { idx0 := idx0, idx1 := 0, idx2 := idx2, nextIdx := .toIdx1 }

/-- The face records of a strip/fan primitive (lines 235 to 253). -/
def stripFaces (indices : List Nat) (vertOffset : Nat) (primitive : TSDrawPrimitive) :
    Except Fault (List Line) := do
  let idx0 ← readIndex indices (primitive.start + 0)
  let idx2 ← readIndex indices (primitive.start + 1)
  stripLoop indices vertOffset primitive.start (stripRange primitive.numElements)
    (stripInit idx0 idx2)

/-- The candidate triangles of a strip/fan primitive, in loop order. -/
def stripCandidates (indices : List Nat) (primitive : TSDrawPrimitive) :
    Except Fault (List (Nat × Nat × Nat)) := do
  let idx0 ← readIndex indices (primitive.start + 0)
  let idx2 ← readIndex indices (primitive.start + 1)
  stripCandidatesLoop indices primitive.start (stripRange primitive.numElements)
    (stripInit idx0 idx2)

/-- The access `materialNames[material]`. -/
def readMaterialName (materialNames : List String) (material : Nat) : Except Fault String :=
  match materialNames[material]? with
  | some name => .ok name
  | none => .error (.materialNames material)

/-- Lines 212 to 218: the material switch of one primitive. -/
def materialLines (e : Engine) (materialNames : List String) (primitive : TSDrawPrimitive) :
    Except Fault (List Line) :=
  if primitive.matIndex &&& e.NoMaterial = 0 then do
    let materialName ← readMaterialName materialNames (primitive.matIndex &&& e.MaterialMask)
    pure [Line.usemtl materialName]
  else pure []

/-- Lines 220 to 253: the face records of one primitive. -/
def primitiveFaces (e : Engine) (indices : List Nat) (vertOffset : Nat)
    (primitive : TSDrawPrimitive) : Except Fault (List Line) :=
  if primitive.matIndex &&& e.TypeMask = e.Triangles then
    triangleFaces indices vertOffset primitive
  else stripFaces indices vertOffset primitive

/-- The body of the primitive loop (lines 210 to 253). -/
def exportPrimitive (e : Engine) (materialNames : List String) (indices : List Nat)
    (vertOffset : Nat) (primitive : TSDrawPrimitive) : Except Fault (List Line) := do
  let material ← materialLines e materialNames primitive
  let faces ← primitiveFaces e indices vertOffset primitive
  pure (material ++ faces)

/-- The primitive loop (lines 207 to 254). -/
def primitiveLoop (e : Engine) (materialNames : List String) (indices : List Nat)
    (vertOffset : Nat) : List TSDrawPrimitive → Except Fault (List Line)
  | [] => pure []
  | primitive :: rest => do
    let here ← exportPrimitive e materialNames indices vertOffset primitive
    let later ← primitiveLoop e materialNames indices vertOffset rest
    pure (here ++ later)

/-! ## Meshes, objects and the whole export (lines 126 to 260) -/

/-- Lines 185 to 188: the record of one vertex position. -/
def vertLine (e : Engine) (mat : e.MatrixF) (vert : Point3F) : Line :=
  .v (e.mulP mat vert).x (e.mulP mat vert).y (e.mulP mat vert).z

/-- Lines 194 to 197: the record of one texture coordinate. -/
def tvertLine (tvert : Point2F) : Line :=
  .vt tvert.x (F32.oneMinus tvert.y)

/-- Lines 203 to 204: the record of one normal. -/
def normLine (norm : Point3F) : Line :=
  .vn norm.x norm.y norm.z

/-- Lines 182 to 254: everything written for a mesh that is not `NULL`. -/
def exportMesh (e : Engine) (materialNames : List String) (mat : e.MatrixF)
    (vertOffset : Nat) (mesh : TSMesh) : Except Fault (List Line) := do
  let faces ← primitiveLoop e materialNames mesh.indices vertOffset mesh.primitives
  pure (mesh.verts.map (vertLine e mat) ++ mesh.tverts.map tvertLine
    ++ mesh.norms.map normLine ++ faces)

/-- The access `tss.meshes[j]`. -/
def readMesh (meshes : List (Option TSMesh)) (j : Nat) : Except Fault (Option TSMesh) :=
  match meshes[j]? with
  | some mesh => .ok mesh
  | none => .error (.meshes j)

/-- The mesh loop (lines 174 to 257) over the remaining values of `j`, entered with
the given `vertOffset`; the result is the records written and the final `vertOffset`. -/
def meshLoop (e : Engine) (tss : TSShape) (mat : e.MatrixF) :
    Nat → List Nat → Except Fault (List Line × Nat)
  | vertOffset, [] => pure ([], vertOffset)
  | vertOffset, j :: js => do
    let slot ← readMesh tss.meshes j
    match slot with
    | none => meshLoop e tss mat vertOffset js
    | some mesh => do
      let here ← exportMesh e tss.materialNames mat vertOffset mesh
      let later ← meshLoop e tss mat (vertOffset + mesh.verts.length) js
      pure (here ++ later.1, later.2)

/-- The values of `j` in the loop header of line 174. -/
def meshRange (object : Object) : List Nat :=
  List.range' object.startMeshIndex object.numMeshes

/-- The access `tss.names[object.nameIndex]`. -/
def readName (names : List String) (k : Nat) : Except Fault String :=
  match names[k]? with
  | some name => .ok name
  | none => .error (.names k)

/-- The object loop (lines 164 to 258) over the remaining objects. -/
def objectLoop (e : Engine) (tss : TSShape) :
    Nat → List Object → Except Fault (List Line × Nat)
  | vertOffset, [] => pure ([], vertOffset)
  | vertOffset, object :: rest => do
    let name ← readName tss.names object.nameIndex
    let here ← meshLoop e tss (e.getNodeWorldTransform tss object.nodeIndex) vertOffset
      (meshRange object)
    let later ← objectLoop e tss here.2 rest
    pure (Line.g name :: here.1 ++ later.1, later.2)

/-- Lines 162 to 258: `S32 vertOffset = 1;` and the object loop over `tss.objects`.
The result is the records written and the final `vertOffset`. -/
def exportGeometry (e : Engine) (tss : TSShape) : Except Fault (List Line × Nat) :=
  objectLoop e tss 1 tss.objects

/-- The records of one material (lines 143 to 155). -/
def materialRecord (e : Engine) (materialName : String) : List String :=
  match e.sFindFile materialName with
  | some materialFileName =>
    ["newmtl " ++ materialName ++ "\r\n",
     "Ka 1.000 1.000 1.000\r\n",
     "Kd 1.000 1.000 1.000\r\n",
     "map_Ka " ++ materialFileName ++ "\r\n",
     "map_Kd " ++ materialFileName ++ "\r\n"]
  | none => []

/-- The material loop (lines 140 to 156): the contents of `mtlStream`. -/
def writeMaterials (e : Engine) : List String → List String
  | [] => []
  | materialName :: rest => materialRecord e materialName ++ writeMaterials e rest

/-- What lines 126 to 260 leave behind: the variable `failed`, the geometry stream,
and the material stream when it was opened. -/
structure Exported where
  failed : Int
  dest : List Line
  mtl : Option (List String)
  deriving DecidableEq

/-- Lines 126 to 260, entered with `failed = 0` after `destStream` was opened.
`mtlOpens` says whether `mtlStream` opens and `mtlFileName` is
`mtlPath.getFullFileName()`. -/
def exportShape (e : Engine) (tss : TSShape) (mtlOpens : Bool) (mtlFileName : String) :
    Except Fault Exported :=
  let failed : Int := if mtlOpens then 0 else 1
  let mtl := if mtlOpens then some (writeMaterials e tss.materialNames) else none
  let header := if mtlOpens then [Line.mtllib mtlFileName] else []
  do
    let geometry ← exportGeometry e tss
    pure { failed := failed, dest := header ++ geometry.1, mtl := mtl }

/-! ## The command line and the files (lines 60 to 125 and 264 to 271) -/

/-- The platform code that `TorqueMain` uses and `main.cpp` does not define: paths,
string tests and the opening of the three streams. -/
structure Platform where
  /-- The type `Torque::Path`. -/
  Path : Type
  /-- A default-constructed `Torque::Path`, the value of `destPath` before the scan. -/
  emptyPath : Path
  /-- The function `makeFullPath` (lines 53 to 58), a wrapper of
  `Platform::makeFullPathName`. -/
  makeFullPath : String → Path
  /-- The method `isEmpty`. -/
  isEmpty : Path → Bool
  /-- The method `setExtension`, as a function of the path and the extension. -/
  setExtension : Path → String → Path
  /-- The method `getFullFileName`. -/
  getFullFileName : Path → String
  /-- The function `dStrEqual`. -/
  dStrEqual : String → String → Bool
  /-- The function `dStrEndsWith`. -/
  dStrEndsWith : String → String → Bool
  /-- The calls `srcStream.open(srcPath, Read)` and `tss.read(&srcStream)`: the shape
  read when the status of the stream is `Ok`. -/
  srcStreamRead : Path → Option TSShape
  /-- The call `destStream.open(destPath, Write)`: whether the status is `Ok`. -/
  destStreamOpens : Path → Bool
  /-- The call `mtlStream.open(mtlPath, Write)`: whether the status is `Ok`. -/
  mtlStreamOpens : Path → Bool

/-- The argument loop of lines 77 to 81, entered with the loop variable `i` and the
current `destPath`; the result is the final `i` and `destPath`.  The test
`i < argc - 1` is written `i + 1 < argc`. -/
@[semireducible] def argLoop (P : Platform) (argv : List String) (i : Nat) (destPath : P.Path) :
    Nat × P.Path :=
  if i + 1 < argv.length then
    if P.dStrEqual (argv.getD i "") "--output" then
      argLoop P argv (i + 1 + 1) (P.makeFullPath (argv.getD (i + 1) ""))
    else argLoop P argv (i + 1) destPath
  else (i, destPath)
termination_by argv.length - i

/-- What a run of `TorqueMain` leaves behind: the value returned, whether `printUsage`
was called, the paths given to `FileStream::open` in order, and the records written to
`destStream` and to `mtlStream` when they opened. -/
structure MainOutcome (Path : Type) where
  status : Int
  usagePrinted : Bool
  opened : List Path
  dest : Option (List Line)
  mtl : Option (List String)
  deriving DecidableEq

/-- The result of the argument loop entered as in line 77, with `i = 1` and a
default-constructed `destPath`. -/
def scanArgs (P : Platform) (argv : List String) : Nat × P.Path :=
  argLoop P argv 1 P.emptyPath

/-- The test of line 83: `(i >= argc) || (!dStrEndsWith(argv[i], ".dts"))`. -/
def usageError (P : Platform) (argv : List String) : Prop :=
  argv.length ≤ (scanArgs P argv).1 ∨
    P.dStrEndsWith (argv.getD (scanArgs P argv).1 "") ".dts" = false

instance (P : Platform) (argv : List String) : Decidable (usageError P argv) := by
  unfold usageError; infer_instance

/-- The variable `srcPath` after line 94. -/
def srcPath (P : Platform) (argv : List String) : P.Path :=
  P.makeFullPath (argv.getD (scanArgs P argv).1 "")

/-- The variable `destPath` after lines 95 to 99. -/
def destPath (P : Platform) (argv : List String) : P.Path :=
  if P.isEmpty (scanArgs P argv).2 then P.setExtension (srcPath P argv) "obj"
  else (scanArgs P argv).2

/-- The variable `mtlPath` after lines 128 and 129. -/
def mtlPath (P : Platform) (argv : List String) : P.Path :=
  P.setExtension (destPath P argv) "mtl"

/-- The function `TorqueMain`; `argc` is the length of `argv`. -/
def TorqueMain (P : Platform) (e : Engine) (argv : List String) :
    Except Fault (MainOutcome P.Path) :=
  if usageError P argv then
    pure { status := -1, usagePrinted := true, opened := [], dest := none, mtl := none }
  else
    match P.srcStreamRead (srcPath P argv) with
    | none =>
      pure { status := 1, usagePrinted := false, opened := [srcPath P argv],
             dest := none, mtl := none }
    | some tss =>
      if P.destStreamOpens (destPath P argv) then do
        let out ← exportShape e tss (P.mtlStreamOpens (mtlPath P argv))
          (P.getFullFileName (mtlPath P argv))
        pure { status := out.failed, usagePrinted := false,
               opened := [srcPath P argv, destPath P argv, mtlPath P argv],
               dest := some out.dest, mtl := out.mtl }
      else
        pure { status := 1, usagePrinted := false,
               opened := [srcPath P argv, destPath P argv], dest := none, mtl := none }

/-! ## Definitions used to state the theorems -/

/-- The buffer positions that the loop of lines 222 to 232 reads, in order. -/
@[semireducible] def triangleReads (stop : Nat) (l : Nat) : List Nat :=
  if l < stop then (l + 0) :: (l + 1) :: (l + 2) :: triangleReads stop (l + 3) else []
termination_by stop - l

/-- The buffer positions that lines 220 to 253 read for one primitive, in order. -/
def primitiveReads (e : Engine) (primitive : TSDrawPrimitive) : List Nat :=
  if primitive.matIndex &&& e.TypeMask = e.Triangles then
    triangleReads (primitive.start + primitive.numElements) primitive.start
  else
    (primitive.start + 0) :: (primitive.start + 1) ::
      (stripRange primitive.numElements).map (fun l => primitive.start + l)

/-- The number that `%d` writes for the `U32` sum `x`: the sum modulo `2^32`, read as a
signed 32-bit number. -/
def printedIndex (x : Nat) : Int :=
  if x % 4294967296 < 2147483648 then ((x % 4294967296 : Nat) : Int)
  else ((x % 4294967296 : Nat) : Int) - 4294967296

/-- Every index-buffer value in the run `[start, start + numElements)` of a primitive of
the mesh is less than the vertex count of the mesh. -/
def RunIndicesInRange (mesh : TSMesh) : Prop :=
  ∀ primitive ∈ mesh.primitives, ∀ pos, primitive.start ≤ pos →
    pos < primitive.start + primitive.numElements → ∀ idx,
    mesh.indices[pos]? = some idx → idx < mesh.verts.length

/-- Every triangle-list primitive of the mesh has a count that is a multiple of 3. -/
def TriangleListsWhole (e : Engine) (mesh : TSMesh) : Prop :=
  ∀ primitive ∈ mesh.primitives, primitive.matIndex &&& e.TypeMask = e.Triangles →
    3 ∣ primitive.numElements

/-- The meshes that are not `NULL` in the range of one object, in range order, each
with the world transform of the object. -/
def objectMeshes (e : Engine) (tss : TSShape) (object : Object) : List (e.MatrixF × TSMesh) :=
  (meshRange object).filterMap (fun j =>
    (tss.meshes.getD j none).map (fun mesh => (e.getNodeWorldTransform tss object.nodeIndex, mesh)))

/-- The meshes that are not `NULL`, in object order and then in mesh-range order. -/
def processedMeshes (e : Engine) (tss : TSShape) (objects : List Object) :
    List (e.MatrixF × TSMesh) :=
  objects.flatMap (objectMeshes e tss)

/-- The sum of the vertex counts of a list of meshes. -/
def numVertsSum (e : Engine) (meshes : List (e.MatrixF × TSMesh)) : Nat :=
  (meshes.map (fun m => m.2.verts.length)).sum

/-- One plus the sum of the vertex counts of the meshes before position `i`. -/
def offsetBefore (e : Engine) (meshes : List (e.MatrixF × TSMesh)) (i : Nat) : Nat :=
  1 + numVertsSum e (meshes.take i)

/-- The document made of groups: for each group its `g` record and then its blocks. -/
def renderGroups (groups : List (String × List (List Line))) : List Line :=
  groups.flatMap (fun group => Line.g group.1 :: group.2.flatten)

/-- The blocks are what `exportMesh` writes for the meshes, one after the other, when
`vertOffset` starts at the given value and grows by the vertex count of each mesh. -/
def BlocksFrom (e : Engine) (materialNames : List String) :
    Nat → List (e.MatrixF × TSMesh) → List (List Line) → Prop
  | _, [], [] => True
  | vertOffset, m :: ms, block :: blocks =>
    exportMesh e materialNames m.1 vertOffset m.2 = .ok block ∧
      BlocksFrom e materialNames (vertOffset + m.2.verts.length) ms blocks
  | _, _, _ => False

/-- The values of `j` of an object whose mesh slot is not `NULL`, in range order. -/
def meshRangeSkippingNull (tss : TSShape) (object : Object) : List Nat :=
  (meshRange object).filter (fun j => decide (tss.meshes[j]? ≠ some none))

/-- The object loop made to traverse each range with the `NULL` slots removed. -/
def objectLoopSkippingNull (e : Engine) (tss : TSShape) :
    Nat → List Object → Except Fault (List Line × Nat)
  | vertOffset, [] => pure ([], vertOffset)
  | vertOffset, object :: rest => do
    let name ← readName tss.names object.nameIndex
    let here ← meshLoop e tss (e.getNodeWorldTransform tss object.nodeIndex) vertOffset
      (meshRangeSkippingNull tss object)
    let later ← objectLoopSkippingNull e tss here.2 rest
    pure (Line.g name :: here.1 ++ later.1, later.2)

/-- The geometry and the final `vertOffset` when the `NULL` slots are removed from the
ranges. -/
def exportGeometrySkippingNull (e : Engine) (tss : TSShape) : Except Fault (List Line × Nat) :=
  objectLoopSkippingNull e tss 1 tss.objects

/-- The candidate triangle of step `l` of a strip, read off the index buffer: the
values at `start + l - 2`, `start + l - 1`, `start + l`, the first two exchanged when
`l` is odd. -/
def candidateAt (indices : List Nat) (start l : Nat) : Nat × Nat × Nat :=
  if l % 2 = 0 then
    (indices.getD (start + l - 2) 0, indices.getD (start + l - 1) 0, indices.getD (start + l) 0)
  else
    (indices.getD (start + l - 1) 0, indices.getD (start + l - 2) 0, indices.getD (start + l) 0)

/-- The exact difference `1 - y` is a binary32 value, so `1.0f - y` is computed
without rounding; the infinities count, a NaN does not. -/
def F32.ExactOneMinus : F32 → Prop
  | .finite neg m =>
    if neg then F32.Representable (2 ^ 149 + m)
    else if m ≤ 2 ^ 149 then F32.Representable (2 ^ 149 - m)
    else F32.Representable (m - 2 ^ 149)
  | .inf _ => True
  | .nan => False

instance (x : F32) : Decidable (F32.ExactOneMinus x) := by
  cases x <;> unfold F32.ExactOneMinus <;> infer_instance

/-- The record is a `mtllib` record. -/
def Line.isMtllib : Line → Bool
  | .mtllib _ => true
  | _ => false

/-- The five lines of the record of a material with a resolved image file name. -/
def fiveLines (materialName materialFileName : String) : List String :=
  ["newmtl " ++ materialName ++ "\r\n",
   "Ka 1.000 1.000 1.000\r\n",
   "Kd 1.000 1.000 1.000\r\n",
   "map_Ka " ++ materialFileName ++ "\r\n",
   "map_Kd " ++ materialFileName ++ "\r\n"]

/-- The material names whose image lookup succeeds, in list order, each with the
resolved file name. -/
def foundMaterials (e : Engine) (materialNames : List String) : List (String × String) :=
  materialNames.filterMap (fun name => (e.sFindFile name).map (fun file => (name, file)))

/-- The reference candidates of a strip with the given start and count: for
`l = 2, ..., numElements - 1` in increasing order, the triangle `candidateAt` of step `l`. -/
def referenceCandidates (indices : List Nat) (start numElements : Nat) :
    List (Nat × Nat × Nat) :=
  (List.range' 2 (numElements - 2)).map (candidateAt indices start)

/-- The reference face records of a strip: those of the reference candidates with
pairwise distinct indices, in step order. -/
def referenceStrip (indices : List Nat) (vertOffset start numElements : Nat) : List Line :=
  ((referenceCandidates indices start numElements).filter
      (fun t => decide (t.1 ≠ t.2.1 ∧ t.2.1 ≠ t.2.2 ∧ t.2.2 ≠ t.1))).map
    (fun t => faceRecord vertOffset t.1 t.2.1 t.2.2)

/-- The record is a `v` record. -/
def Line.isV : Line → Bool
  | .v _ _ _ => true
  | _ => false

/-- The record is a `vt` record. -/
def Line.isVt : Line → Bool
  | .vt _ _ => true
  | _ => false

/-- The record is a `vn` record. -/
def Line.isVn : Line → Bool
  | .vn _ _ _ => true
  | _ => false

/-- The face records of the candidates whose three indices are pairwise distinct, in order. -/
def facesOfCandidates (vertOffset : Nat) (candidates : List (Nat × Nat × Nat)) : List Line :=
  (candidates.filter (fun t => decide (t.1 ≠ t.2.1 ∧ t.2.1 ≠ t.2.2 ∧ t.2.2 ≠ t.1))).map
    (fun t => faceRecord vertOffset t.1 t.2.1 t.2.2)

/-! ## Concrete inputs -/

/-- An engine for concrete runs: bit 28 is the `NoMaterial` flag, bits 30 and 31 are
the type field with `0` for triangle lists, the low 28 bits are the material index;
matrices are trivial and every image is found under the material name with `.png`. -/
def sampleEngine : Engine where
  MatrixF := Unit
  NoMaterial := 0x10000000
  MaterialMask := 0x0FFFFFFF
  TypeMask := 0xC0000000
  Triangles := 0
  getNodeWorldTransform := fun _ _ => ()
  mulP := fun _ p => p
  sFindFile := fun name => some (name ++ ".png")

/-- The characters of a file name without its extension (the part after the last dot). -/
def stemChars (cs : List Char) : List Char :=
  if cs.contains '.' then ((cs.reverse.dropWhile (fun c => c != '.')).drop 1).reverse else cs

/-- A platform for concrete runs: a path is its text, an extension replaces the part
after the last dot, every source path holds `shape`, and the three streams open as the
three flags say. -/
def samplePlatform (shape : TSShape) (srcOpens destOpens mtlOpens : Bool) : Platform where
  Path := String
  emptyPath := ""
  makeFullPath := fun s => s
  isEmpty := fun p => p == ""
  setExtension := fun p ext => String.mk (stemChars p.data) ++ "." ++ ext
  getFullFileName := fun p => p
  dStrEqual := fun a b => a == b
  dStrEndsWith := fun a b => b.data.isSuffixOf a.data
  srcStreamRead := fun _ => if srcOpens then some shape else none
  destStreamOpens := fun _ => destOpens
  mtlStreamOpens := fun _ => mtlOpens

instance (shape : TSShape) (srcOpens destOpens mtlOpens : Bool) :
    DecidableEq (samplePlatform shape srcOpens destOpens mtlOpens).Path :=
  inferInstanceAs (DecidableEq String)

/-- An engine like `sampleEngine` that finds the image of `stone` only. -/
def pickyEngine : Engine where
  MatrixF := Unit
  NoMaterial := 0x10000000
  MaterialMask := 0x0FFFFFFF
  TypeMask := 0xC0000000
  Triangles := 0
  getNodeWorldTransform := fun _ _ => ()
  mulP := fun _ p => p
  sFindFile := fun name => if name == "stone" then some "stone.png" else none

/-- The binary32 value of `k` units of `2^-149`. -/
def tiny (k : Nat) : F32 := .finite false k

/-- A mesh of three vertices with as many texture coordinates and normals, one
triangle-list primitive and no material. -/
def alignedMeshA : TSMesh where
  verts := [⟨tiny 1, tiny 0, tiny 0⟩, ⟨tiny 2, tiny 0, tiny 0⟩, ⟨tiny 3, tiny 0, tiny 0⟩]
  tverts := [⟨tiny 1, F32.zero⟩, ⟨tiny 2, F32.one⟩, ⟨tiny 3, F32.zero⟩]
  norms := [⟨tiny 0, tiny 0, tiny 1⟩, ⟨tiny 0, tiny 0, tiny 2⟩, ⟨tiny 0, tiny 0, tiny 3⟩]
  indices := [0, 1, 2]
  primitives := [⟨0, 3, 0x10000000⟩]

/-- A second mesh of the same kind, with two vertices and a degenerate triangle list. -/
def alignedMeshB : TSMesh where
  verts := [⟨tiny 4, tiny 0, tiny 0⟩, ⟨tiny 5, tiny 0, tiny 0⟩]
  tverts := [⟨tiny 4, F32.one⟩, ⟨tiny 5, F32.zero⟩]
  norms := [⟨tiny 0, tiny 0, tiny 4⟩, ⟨tiny 0, tiny 0, tiny 5⟩]
  indices := [1, 0, 1]
  primitives := [⟨0, 3, 0x10000000⟩]

/-- A shape of one object with the two aligned meshes. -/
def alignedShape : TSShape where
  objects := [⟨0, 0, 0, 2⟩]
  names := ["both"]
  meshes := [some alignedMeshA, some alignedMeshB]
  materialNames := []

/-- The processed meshes of `alignedShape`. -/
def alignedMeshes : List (sampleEngine.MatrixF × TSMesh) :=
  processedMeshes sampleEngine alignedShape alignedShape.objects

/-- The geometry records of `alignedShape`. -/
def alignedDoc : List Line :=
  [Line.g "both",
   Line.v (tiny 1) (tiny 0) (tiny 0), Line.v (tiny 2) (tiny 0) (tiny 0),
   Line.v (tiny 3) (tiny 0) (tiny 0),
   Line.vt (tiny 1) F32.one, Line.vt (tiny 2) F32.zero, Line.vt (tiny 3) F32.one,
   Line.vn (tiny 0) (tiny 0) (tiny 1), Line.vn (tiny 0) (tiny 0) (tiny 2),
   Line.vn (tiny 0) (tiny 0) (tiny 3),
   Line.f 1 1 1 2 2 2 3 3 3,
   Line.v (tiny 4) (tiny 0) (tiny 0), Line.v (tiny 5) (tiny 0) (tiny 0),
   Line.vt (tiny 4) F32.zero, Line.vt (tiny 5) F32.one,
   Line.vn (tiny 0) (tiny 0) (tiny 4), Line.vn (tiny 0) (tiny 0) (tiny 5),
   Line.f 5 5 5 4 4 4 5 5 5]

/-- A vertex at the origin. -/
def originVert : Point3F := ⟨F32.zero, F32.zero, F32.zero⟩

/-- A mesh of 10 vertices with one triangle-list primitive without material. -/
def sampleMesh10 : TSMesh where
  verts := List.replicate 10 originVert
  tverts := []
  norms := []
  indices := [0, 9, 5]
  primitives := [⟨0, 3, 0x10000000⟩]

/-- A mesh of 7 vertices with one strip primitive without material. -/
def sampleMesh7 : TSMesh where
  verts := List.replicate 7 originVert
  tverts := []
  norms := []
  indices := [0, 6, 3, 2]
  primitives := [⟨0, 4, 0x50000000⟩]

/-- A shape of two objects: the first with the 10-vertex mesh and a `NULL` slot, the
second with the 7-vertex mesh. -/
def sampleShape : TSShape where
  objects := [⟨0, 0, 0, 2⟩, ⟨1, 0, 2, 1⟩]
  names := ["first", "second"]
  meshes := [some sampleMesh10, none, some sampleMesh7]
  materialNames := []

/-- The processed meshes of `sampleShape`. -/
def sampleMeshes : List (sampleEngine.MatrixF × TSMesh) :=
  processedMeshes sampleEngine sampleShape sampleShape.objects

/-- The shape `sampleShape` with the material names `stone`, `wood`, `stone`. -/
def materialShape : TSShape :=
  { sampleShape with materialNames := ["stone", "wood", "stone"] }

/-- A mesh of 4 vertices whose one triangle list has count 4 over a buffer of 6 values:
the run `[0,4)` holds `0,1,2,3`, the two values behind it are 99. -/
def overrunMesh : TSMesh where
  verts := List.replicate 4 originVert
  tverts := []
  norms := []
  indices := [0, 1, 2, 3, 99, 99]
  primitives := [⟨0, 4, 0x10000000⟩]

/-- A shape of one object with `overrunMesh`. -/
def overrunShape : TSShape where
  objects := [⟨0, 0, 0, 1⟩]
  names := ["overrun"]
  meshes := [some overrunMesh]
  materialNames := []

/-- The geometry records of `overrunShape`. -/
def overrunDoc : List Line :=
  [Line.g "overrun"] ++ List.replicate 4 (Line.v F32.zero F32.zero F32.zero) ++
  [Line.f 1 1 1 2 2 2 3 3 3, Line.f 4 4 4 100 100 100 100 100 100]

/-- A list of `2^31 - 2` vertex positions. -/
@[irreducible] def hugeVerts : List Point3F := List.replicate 2147483646 originVert

/-- A list of `2^31 - 2` texture coordinates. -/
@[irreducible] def hugeTVerts : List Point2F := List.replicate 2147483646 ⟨F32.zero, F32.zero⟩

/-- A mesh of `2^31 - 2` vertices, with as many texture coordinates and normals, and no
primitive. -/
def hugeMesh : TSMesh where
  verts := hugeVerts
  tverts := hugeTVerts
  norms := hugeVerts
  indices := []
  primitives := []

/-- A mesh of 2 vertices, with as many texture coordinates and normals, and the triangle
`(0, 1, 0)`. -/
def lastMesh : TSMesh where
  verts := [originVert, originVert]
  tverts := [⟨F32.zero, F32.zero⟩, ⟨F32.zero, F32.zero⟩]
  norms := [originVert, originVert]
  indices := [0, 1, 0]
  primitives := [⟨0, 3, 0x10000000⟩]

/-- A shape of one object with `hugeMesh` and then `lastMesh`: the second mesh is
processed with `vertOffset = 2147483647`. -/
def hugeShape : TSShape where
  objects := [⟨0, 0, 0, 2⟩]
  names := ["huge"]
  meshes := [some hugeMesh, some lastMesh]
  materialNames := []

/-- The records of `lastMesh` written with `vertOffset = 2147483647`. -/
def lastBlock : List Line :=
  [Line.v F32.zero F32.zero F32.zero, Line.v F32.zero F32.zero F32.zero,
   Line.vt F32.zero F32.one, Line.vt F32.zero F32.one,
   Line.vn F32.zero F32.zero F32.zero, Line.vn F32.zero F32.zero F32.zero,
   Line.f 2147483647 2147483647 2147483647 2147483648 2147483648 2147483648
     2147483647 2147483647 2147483647]

/-- The geometry records of `hugeShape`. -/
def hugeDoc : List Line :=
  Line.g "huge" :: (hugeMesh.verts.map (vertLine sampleEngine ())
    ++ (hugeMesh.tverts.map tvertLine ++ (hugeMesh.norms.map normLine ++ lastBlock)))

/-- The geometry records of `sampleShape`. -/
def sampleDoc : List Line :=
  [Line.g "first"] ++ List.replicate 10 (Line.v F32.zero F32.zero F32.zero) ++
  [Line.f 1 1 1 10 10 10 6 6 6] ++
  [Line.g "second"] ++ List.replicate 7 (Line.v F32.zero F32.zero F32.zero) ++
  [Line.f 11 11 11 17 17 17 14 14 14, Line.f 14 14 14 17 17 17 13 13 13]

/-! ## Reading the index buffer -/

theorem readIndex_of_lt (indices : List Nat) (pos : Nat) (h : pos < indices.length) :
    readIndex indices pos = .ok (indices.getD pos 0) := by
  simp [readIndex, List.getElem?_eq_getElem h, List.getD_eq_getElem _ _ h]

theorem readIndex_of_le (indices : List Nat) (pos : Nat) (h : indices.length ≤ pos) :
    readIndex indices pos = .error (.indices pos) := by
  simp [readIndex, List.getElem?_eq_none h]

theorem readIndex_ok_iff (indices : List Nat) (pos idx : Nat) :
    readIndex indices pos = .ok idx ↔ indices[pos]? = some idx := by
  unfold readIndex
  cases h : indices[pos]? <;> simp

/-! ## Triangle lists -/

/-- The triangle loop on a run of `3 * m` in-range elements. -/
theorem triangleLoop_multiple (indices : List Nat) (vertOffset : Nat) :
    ∀ (m l : Nat), l + 3 * m ≤ indices.length →
      triangleLoop indices vertOffset (l + 3 * m) l
        = .ok ((List.range m).map (fun k => faceRecord vertOffset
            (indices.getD (l + 3 * k) 0) (indices.getD (l + 3 * k + 1) 0)
            (indices.getD (l + 3 * k + 2) 0))) := by
  intro m
  induction m with
  | zero =>
    intro l _
    rw [triangleLoop]
    simp [pure, Except.pure]
  | succ m ih =>
    intro l hl
    rw [triangleLoop]
    have h0 : l < indices.length := by omega
    have h1 : l + 1 < indices.length := by omega
    have h2 : l + 2 < indices.length := by omega
    have hstop : l + 3 * (m + 1) = (l + 3) + 3 * m := by omega
    have hrec := ih (l + 3) (by omega)
    rw [if_pos (by omega)]
    simp only [Nat.add_zero, readIndex_of_lt _ _ h0, readIndex_of_lt _ _ h1,
      readIndex_of_lt _ _ h2, hstop, hrec, bind, Except.bind, pure, Except.pure]
    rw [List.range_succ_eq_map]
    simp only [List.map_cons, List.map_map, Nat.mul_zero, Nat.add_zero]
    congr 2
    apply List.map_congr_left
    intro k _
    simp only [Function.comp, Nat.succ_eq_add_one]
    have e0 : l + 3 + 3 * k = l + 3 * (k + 1) := by omega
    rw [e0]

theorem getElem?_eq_some_getD (indices : List Nat) (pos : Nat) (h : pos < indices.length) :
    indices[pos]? = some (indices.getD pos 0) := by
  rw [List.getElem?_eq_getElem h, List.getD_eq_getElem _ _ h]

/-- C1. A triangle-list primitive with start `s`, a count `n` that is a multiple of 3
and `s + n` within the index buffer is written as exactly `n / 3` face records, and
record `k` is the one of the three buffer values at `s + 3k`, `s + 3k + 1`,
`s + 3k + 2`; nothing is filtered. -/
theorem triangle_list_decoding (e : Engine) (indices : List Nat) (vertOffset : Nat)
    (primitive : TSDrawPrimitive)
    (htag : primitive.matIndex &&& e.TypeMask = e.Triangles)
    (hmul : 3 ∣ primitive.numElements)
    (hlen : primitive.start + primitive.numElements ≤ indices.length) :
    ∃ faces, primitiveFaces e indices vertOffset primitive = .ok faces ∧
      faces.length = primitive.numElements / 3 ∧
      ∀ k, k < primitive.numElements / 3 → ∃ a b c,
        indices[primitive.start + 3 * k]? = some a ∧
        indices[primitive.start + 3 * k + 1]? = some b ∧
        indices[primitive.start + 3 * k + 2]? = some c ∧
        faces[k]? = some (faceRecord vertOffset a b c) := by
  obtain ⟨m, hm⟩ := hmul
  have hdiv : primitive.numElements / 3 = m := by omega
  refine ⟨(List.range m).map (fun k => faceRecord vertOffset
    (indices.getD (primitive.start + 3 * k) 0) (indices.getD (primitive.start + 3 * k + 1) 0)
    (indices.getD (primitive.start + 3 * k + 2) 0)), ?_, ?_, ?_⟩
  · unfold primitiveFaces triangleFaces
    rw [if_pos htag, hm]
    exact triangleLoop_multiple indices vertOffset m primitive.start (by omega)
  · simp [hdiv]
  · intro k hk
    rw [hdiv] at hk
    refine ⟨_, _, _, getElem?_eq_some_getD indices _ (by omega),
      getElem?_eq_some_getD indices _ (by omega),
      getElem?_eq_some_getD indices _ (by omega), ?_⟩
    simp [List.getElem?_map, List.getElem?_range hk]

/-- C1 at the buffer `[0,1,2,3,4,5]` with start 0 and count 6: the records of
`(0,1,2)` and `(3,4,5)`, in that order. -/
theorem triangle_list_decoding_witness :
    primitiveFaces sampleEngine [0, 1, 2, 3, 4, 5] 1 ⟨0, 6, 0⟩
        = .ok [faceRecord 1 0 1 2, faceRecord 1 3 4 5] ∧
    ∃ faces, primitiveFaces sampleEngine [0, 1, 2, 3, 4, 5] 1 ⟨0, 6, 0⟩ = .ok faces ∧
      faces.length = 6 / 3 ∧
      ∀ k, k < 6 / 3 → ∃ a b c,
        [0, 1, 2, 3, 4, 5][0 + 3 * k]? = some a ∧
        [0, 1, 2, 3, 4, 5][0 + 3 * k + 1]? = some b ∧
        [0, 1, 2, 3, 4, 5][0 + 3 * k + 2]? = some c ∧
        faces[k]? = some (faceRecord 1 a b c) :=
  ⟨by decide,
   triangle_list_decoding sampleEngine [0, 1, 2, 3, 4, 5] 1 ⟨0, 6, 0⟩
     (by decide) (by decide) (by decide)⟩

/-! ## Strips -/

theorem degenerate_eq_false_iff (a b c : Nat) :
    degenerate a b c = false ↔ a ≠ b ∧ b ≠ c ∧ c ≠ a := by
  simp [degenerate, and_assoc]

theorem degenerate_eq_true_iff (a b c : Nat) :
    degenerate a b c = true ↔ a = b ∨ b = c ∨ c = a := by
  simp [degenerate, or_assoc]

/-- The strip loop writes the non-degenerate candidates of the same run of the slots. -/
theorem stripLoop_eq_candidates (indices : List Nat) (vertOffset start : Nat) :
    ∀ (ls : List Nat) (st : StripState),
      stripLoop indices vertOffset start ls st
        = (stripCandidatesLoop indices start ls st).map (facesOfCandidates vertOffset) := by
  intro ls
  induction ls with
  | nil => intro st; rfl
  | cons l ls ih =>
    intro st
    simp only [stripLoop, stripCandidatesLoop]
    cases hr : readIndex indices (start + l) with
    | error err => rfl
    | ok read =>
      simp only [bind, Except.bind]
      rw [ih]
      cases stripCandidatesLoop indices start ls (stripStep st read) with
      | error err => rfl
      | ok cs =>
        cases hd : degenerate (stripStep st read).idx0 (stripStep st read).idx1
            (stripStep st read).idx2 with
        | true =>
          have hd2 := (degenerate_eq_true_iff _ _ _).1 hd
          have : ¬ ((stripStep st read).idx0 ≠ (stripStep st read).idx1 ∧
              (stripStep st read).idx1 ≠ (stripStep st read).idx2 ∧
              (stripStep st read).idx2 ≠ (stripStep st read).idx0) := by
            intro h; rcases hd2 with h2 | h2 | h2
            · exact h.1 h2
            · exact h.2.1 h2
            · exact h.2.2 h2
          simp [Except.map, facesOfCandidates, pure, Except.pure, List.filter_cons, this]
        | false =>
          have hd2 := (degenerate_eq_false_iff _ _ _).1 hd
          simp [Except.map, facesOfCandidates, pure, Except.pure, List.filter_cons, hd2]

theorem stripFaces_eq_candidates (indices : List Nat) (vertOffset : Nat)
    (primitive : TSDrawPrimitive) :
    stripFaces indices vertOffset primitive
      = (stripCandidates indices primitive).map (facesOfCandidates vertOffset) := by
  unfold stripFaces stripCandidates
  cases readIndex indices (primitive.start + 0) with
  | error err => rfl
  | ok idx0 =>
    cases readIndex indices (primitive.start + 1) with
    | error err => rfl
    | ok idx2 =>
      simp only [bind, Except.bind]
      exact stripLoop_eq_candidates _ _ _ _ _

theorem mem_facesOfCandidates (vertOffset : Nat) (candidates : List (Nat × Nat × Nat))
    (line : Line) (h : line ∈ facesOfCandidates vertOffset candidates) :
    ∃ a b c, (a, b, c) ∈ candidates ∧ a ≠ b ∧ b ≠ c ∧ c ≠ a ∧
      line = faceRecord vertOffset a b c := by
  unfold facesOfCandidates at h
  rw [List.mem_map] at h
  obtain ⟨⟨a, b, c⟩, hmem, rfl⟩ := h
  rw [List.mem_filter] at hmem
  have hk := of_decide_eq_true hmem.2
  exact ⟨a, b, c, hmem.1, hk.1, hk.2.1, hk.2.2, rfl⟩

/-- C2. Whatever the index buffer, the records a strip/fan primitive writes are those of
its candidate triangles with three pairwise distinct indices, in order (a candidate is
dropped exactly when two of its indices are equal), so every record written has three
pairwise distinct vertex indices. -/
theorem strip_never_degenerate (e : Engine) (indices : List Nat) (vertOffset : Nat)
    (primitive : TSDrawPrimitive) (faces : List Line)
    (htag : primitive.matIndex &&& e.TypeMask ≠ e.Triangles)
    (hrun : primitiveFaces e indices vertOffset primitive = .ok faces) :
    ∃ candidates, stripCandidates indices primitive = .ok candidates ∧
      faces = (candidates.filter
          (fun t => decide (¬ (t.1 = t.2.1 ∨ t.2.1 = t.2.2 ∨ t.2.2 = t.1)))).map
          (fun t => faceRecord vertOffset t.1 t.2.1 t.2.2) ∧
      ∀ line ∈ faces, ∃ v0 v1 v2, line = Line.f v0 v0 v0 v1 v1 v1 v2 v2 v2 ∧
        v0 ≠ v1 ∧ v1 ≠ v2 ∧ v2 ≠ v0 := by
  unfold primitiveFaces at hrun
  rw [if_neg htag, stripFaces_eq_candidates] at hrun
  cases hc : stripCandidates indices primitive with
  | error err => rw [hc] at hrun; cases hrun
  | ok candidates =>
    rw [hc] at hrun
    have hf : faces = facesOfCandidates vertOffset candidates := by
      cases hrun; rfl
    refine ⟨candidates, rfl, ?_, ?_⟩
    · rw [hf]; unfold facesOfCandidates
      congr 1
      apply List.filter_congr
      intro t _
      simp only [not_or, ne_eq]
    · intro line hline
      rw [hf] at hline
      obtain ⟨a, b, c, _, hab, hbc, hca, rfl⟩ := mem_facesOfCandidates _ _ _ hline
      refine ⟨a + vertOffset, b + vertOffset, c + vertOffset, rfl, ?_, ?_, ?_⟩ <;> omega

/-- C2 at the strip `[0,1,2,2,3]` with count 5: the candidates are `(0,1,2)`,
`(2,1,2)`, `(2,2,3)`; the two that repeat index 2 are skipped. -/
theorem strip_never_degenerate_witness :
    stripCandidates [0, 1, 2, 2, 3] ⟨0, 5, 0x40000000⟩ = .ok [(0, 1, 2), (2, 1, 2), (2, 2, 3)] ∧
    primitiveFaces sampleEngine [0, 1, 2, 2, 3] 1 ⟨0, 5, 0x40000000⟩
      = .ok [faceRecord 1 0 1 2] ∧
    ∃ candidates, stripCandidates [0, 1, 2, 2, 3] ⟨0, 5, 0x40000000⟩ = .ok candidates ∧
      [faceRecord 1 0 1 2] = (candidates.filter
          (fun t => decide (¬ (t.1 = t.2.1 ∨ t.2.1 = t.2.2 ∨ t.2.2 = t.1)))).map
          (fun t => faceRecord 1 t.1 t.2.1 t.2.2) ∧
      ∀ line ∈ [faceRecord 1 0 1 2], ∃ v0 v1 v2, line = Line.f v0 v0 v0 v1 v1 v1 v2 v2 v2 ∧
        v0 ≠ v1 ∧ v1 ≠ v2 ∧ v2 ≠ v0 :=
  ⟨by decide, by decide,
   strip_never_degenerate sampleEngine [0, 1, 2, 2, 3] 1 ⟨0, 5, 0x40000000⟩
     [faceRecord 1 0 1 2] (by decide) (by decide)⟩

/-! ## The range of the indices written for one mesh -/

theorem bind_ok {α β : Type} {x : Except Fault α} {f : α → Except Fault β} {b : β}
    (h : (x >>= f) = .ok b) : ∃ a, x = .ok a ∧ f a = .ok b := by
  cases x with
  | error err => cases h
  | ok a => exact ⟨a, rfl, h⟩

theorem pure_ok {α : Type} {a b : α} (h : (pure a : Except Fault α) = .ok b) : a = b := by
  cases h; rfl

/-- The records of the triangle loop carry the buffer values at the positions it reads. -/
theorem triangleLoop_values (indices : List Nat) (vertOffset stop : Nat) (P : Nat → Prop) :
    ∀ (n l : Nat), stop - l ≤ n → ∀ faces,
      triangleLoop indices vertOffset stop l = .ok faces →
      (∀ pos ∈ triangleReads stop l, ∀ idx, indices[pos]? = some idx → P idx) →
      ∀ line ∈ faces, ∃ a b c, line = faceRecord vertOffset a b c ∧
        P a ∧ P b ∧ P c := by
  intro n
  induction n with
  | zero =>
    intro l hn faces hrun _ line hline
    rw [triangleLoop, if_neg (by omega)] at hrun
    rw [← pure_ok hrun] at hline
    cases hline
  | succ n ih =>
    intro l hn faces hrun hreads line hline
    by_cases hl : l < stop
    · rw [triangleLoop, if_pos hl] at hrun
      rw [triangleReads, if_pos hl] at hreads
      obtain ⟨idx0, h0, hrun⟩ := bind_ok hrun
      obtain ⟨idx1, h1, hrun⟩ := bind_ok hrun
      obtain ⟨idx2, h2, hrun⟩ := bind_ok hrun
      obtain ⟨rest, hrest, hrun⟩ := bind_ok hrun
      rw [← pure_ok hrun] at hline
      rcases List.mem_cons.1 hline with hhead | htail
      · refine ⟨idx0, idx1, idx2, hhead, ?_, ?_, ?_⟩
        · exact hreads (l + 0) (by simp) idx0 ((readIndex_ok_iff _ _ _).1 h0)
        · exact hreads (l + 1) (by simp) idx1 ((readIndex_ok_iff _ _ _).1 h1)
        · exact hreads (l + 2) (by simp) idx2 ((readIndex_ok_iff _ _ _).1 h2)
      · refine ih (l + 3) (by omega) rest hrest ?_ line htail
        intro pos hpos
        exact hreads pos (by simp [hpos])
    · rw [triangleLoop, if_neg hl] at hrun
      rw [← pure_ok hrun] at hline
      cases hline

/-- The records of the strip loop carry values that were read from the buffer, once
the slot that `nextIdx` does not cover holds such a value. -/
theorem stripLoop_values (indices : List Nat) (vertOffset start : Nat) (P : Nat → Prop) :
    ∀ (ls : List Nat) (st : StripState) (faces : List Line),
      stripLoop indices vertOffset start ls st = .ok faces →
      (∀ l ∈ ls, ∀ idx, indices[start + l]? = some idx → P idx) →
      P st.idx2 →
      (st.nextIdx = .toIdx1 → P st.idx0) →
      (st.nextIdx = .toIdx0 → P st.idx1) →
      ∀ line ∈ faces, ∃ a b c, line = faceRecord vertOffset a b c ∧
        P a ∧ P b ∧ P c := by
  intro ls
  induction ls with
  | nil =>
    intro st faces hrun _ _ _ _ line hline
    rw [stripLoop] at hrun
    rw [← pure_ok hrun] at hline
    cases hline
  | cons l ls ih =>
    intro st faces hrun hreads h2 h0 h1 line hline
    rw [stripLoop] at hrun
    obtain ⟨read, hread, hrun⟩ := bind_ok hrun
    obtain ⟨rest, hrest, hrun⟩ := bind_ok hrun
    have hr : P read :=
      hreads l (by simp) read ((readIndex_ok_iff _ _ _).1 hread)
    have hs : P (stripStep st read).idx0 ∧ P (stripStep st read).idx1 ∧
        P (stripStep st read).idx2 := by
      unfold stripStep
      cases hn : st.nextIdx with
      | toIdx0 => exact ⟨h2, h1 hn, hr⟩
      | toIdx1 => exact ⟨h0 hn, h2, hr⟩
    have htail : ∀ line ∈ rest, ∃ a b c, line = faceRecord vertOffset a b c ∧
        P a ∧ P b ∧ P c :=
      ih (stripStep st read) rest hrest (fun l2 hl2 => hreads l2 (by simp [hl2]))
        hs.2.2 (fun _ => hs.1) (fun _ => hs.2.1)
    by_cases hd : degenerate (stripStep st read).idx0 (stripStep st read).idx1
        (stripStep st read).idx2 = true
    · rw [if_pos hd] at hrun
      rw [← pure_ok hrun] at hline
      exact htail line hline
    · rw [if_neg hd] at hrun
      rw [← pure_ok hrun] at hline
      rcases List.mem_cons.1 hline with hhead | hmem
      · exact ⟨_, _, _, hhead, hs.1, hs.2.1, hs.2.2⟩
      · exact htail line hmem

/-- The records of one primitive carry the buffer values at the positions it reads. -/
theorem primitiveFaces_values (e : Engine) (indices : List Nat) (vertOffset : Nat) (P : Nat → Prop)
    (primitive : TSDrawPrimitive) (faces : List Line)
    (hrun : primitiveFaces e indices vertOffset primitive = .ok faces)
    (hreads : ∀ pos ∈ primitiveReads e primitive, ∀ idx,
      indices[pos]? = some idx → P idx) :
    ∀ line ∈ faces, ∃ a b c, line = faceRecord vertOffset a b c ∧
      P a ∧ P b ∧ P c := by
  unfold primitiveFaces at hrun
  unfold primitiveReads at hreads
  by_cases htag : primitive.matIndex &&& e.TypeMask = e.Triangles
  · rw [if_pos htag] at hrun hreads
    exact triangleLoop_values indices vertOffset _ P _ _ (Nat.le_refl _) faces hrun hreads
  · rw [if_neg htag] at hrun hreads
    unfold stripFaces at hrun
    obtain ⟨idx0, h0, hrun⟩ := bind_ok hrun
    obtain ⟨idx2, h2, hrun⟩ := bind_ok hrun
    refine stripLoop_values indices vertOffset primitive.start P _ _ faces hrun ?_ ?_ ?_ ?_
    · intro l hl idx hidx
      exact hreads (primitive.start + l) (by simp [hl]) idx hidx
    · exact hreads _ (by simp) idx2 ((readIndex_ok_iff _ _ _).1 h2)
    · intro _
      exact hreads _ (by simp) idx0 ((readIndex_ok_iff _ _ _).1 h0)
    · intro h; cases h

theorem materialLines_mem (e : Engine) (materialNames : List String)
    (primitive : TSDrawPrimitive) (lines : List Line)
    (hrun : materialLines e materialNames primitive = .ok lines) :
    ∀ line ∈ lines, ∃ name, line = Line.usemtl name := by
  unfold materialLines at hrun
  intro line hline
  by_cases hflag : primitive.matIndex &&& e.NoMaterial = 0
  · rw [if_pos hflag] at hrun
    obtain ⟨name, _, hrun⟩ := bind_ok hrun
    rw [← pure_ok hrun] at hline
    exact ⟨name, List.mem_singleton.1 hline⟩
  · rw [if_neg hflag] at hrun
    rw [← pure_ok hrun] at hline
    cases hline

/-- The records of the primitive loop are material switches and face records of buffer
values at the positions the primitives read. -/
theorem primitiveLoop_mem (e : Engine) (materialNames : List String) (indices : List Nat)
    (vertOffset : Nat) (P : Nat → Prop) :
    ∀ (primitives : List TSDrawPrimitive) (lines : List Line),
      primitiveLoop e materialNames indices vertOffset primitives = .ok lines →
      (∀ primitive ∈ primitives, ∀ pos ∈ primitiveReads e primitive, ∀ idx,
        indices[pos]? = some idx → P idx) →
      ∀ line ∈ lines, (∃ name, line = Line.usemtl name) ∨
        ∃ a b c, line = faceRecord vertOffset a b c ∧ P a ∧ P b ∧ P c := by
  intro primitives
  induction primitives with
  | nil =>
    intro lines hrun _ line hline
    rw [primitiveLoop] at hrun
    rw [← pure_ok hrun] at hline
    cases hline
  | cons primitive rest ih =>
    intro lines hrun hreads line hline
    rw [primitiveLoop] at hrun
    obtain ⟨here, hhere, hrun⟩ := bind_ok hrun
    obtain ⟨later, hlater, hrun⟩ := bind_ok hrun
    rw [← pure_ok hrun] at hline
    rcases List.mem_append.1 hline with h | h
    · unfold exportPrimitive at hhere
      obtain ⟨material, hmat, hhere⟩ := bind_ok hhere
      obtain ⟨faces, hfaces, hhere⟩ := bind_ok hhere
      rw [← pure_ok hhere] at h
      rcases List.mem_append.1 h with h | h
      · exact Or.inl (materialLines_mem e materialNames primitive material hmat line h)
      · exact Or.inr (primitiveFaces_values e indices vertOffset P primitive faces hfaces
          (hreads primitive (by simp)) line h)
    · exact ih later hlater (fun q hq => hreads q (by simp [hq])) line h

/-! ## The layout of the geometry document -/

theorem numVertsSum_nil (e : Engine) : numVertsSum e [] = 0 := rfl

theorem numVertsSum_cons (e : Engine) (m : e.MatrixF × TSMesh)
    (ms : List (e.MatrixF × TSMesh)) :
    numVertsSum e (m :: ms) = m.2.verts.length + numVertsSum e ms := by
  simp [numVertsSum]

theorem numVertsSum_append (e : Engine) (ms ms2 : List (e.MatrixF × TSMesh)) :
    numVertsSum e (ms ++ ms2) = numVertsSum e ms + numVertsSum e ms2 := by
  simp [numVertsSum]

theorem BlocksFrom_append (e : Engine) (materialNames : List String) :
    ∀ (ms : List (e.MatrixF × TSMesh)) (blocks : List (List Line)) (vertOffset : Nat)
      (ms2 : List (e.MatrixF × TSMesh)) (blocks2 : List (List Line)),
      BlocksFrom e materialNames vertOffset ms blocks →
      BlocksFrom e materialNames (vertOffset + numVertsSum e ms) ms2 blocks2 →
      BlocksFrom e materialNames vertOffset (ms ++ ms2) (blocks ++ blocks2) := by
  intro ms
  induction ms with
  | nil =>
    intro blocks vertOffset ms2 blocks2 h1 h2
    cases blocks with
    | nil => simpa [numVertsSum_nil] using h2
    | cons b bs => simp [BlocksFrom] at h1
  | cons m ms ih =>
    intro blocks vertOffset ms2 blocks2 h1 h2
    cases blocks with
    | nil => simp [BlocksFrom] at h1
    | cons b bs =>
      simp only [BlocksFrom] at h1
      simp only [List.cons_append, BlocksFrom]
      refine ⟨h1.1, ih bs _ ms2 blocks2 h1.2 ?_⟩
      rw [numVertsSum_cons] at h2
      rw [Nat.add_assoc]
      exact h2

theorem BlocksFrom_length (e : Engine) (materialNames : List String) :
    ∀ (ms : List (e.MatrixF × TSMesh)) (blocks : List (List Line)) (vertOffset : Nat),
      BlocksFrom e materialNames vertOffset ms blocks → blocks.length = ms.length := by
  intro ms
  induction ms with
  | nil =>
    intro blocks vertOffset h
    cases blocks with
    | nil => rfl
    | cons b bs => simp [BlocksFrom] at h
  | cons m ms ih =>
    intro blocks vertOffset h
    cases blocks with
    | nil => simp [BlocksFrom] at h
    | cons b bs =>
      simp only [BlocksFrom] at h
      simp [ih bs _ h.2]

/-- Block `i` is what `exportMesh` writes for mesh `i` at the start offset plus the
vertex counts of the meshes before it. -/
theorem BlocksFrom_get (e : Engine) (materialNames : List String) :
    ∀ (ms : List (e.MatrixF × TSMesh)) (blocks : List (List Line)) (vertOffset : Nat),
      BlocksFrom e materialNames vertOffset ms blocks →
      ∀ (i : Nat) (m : e.MatrixF × TSMesh), ms[i]? = some m →
        ∃ block, blocks[i]? = some block ∧
          exportMesh e materialNames m.1 (vertOffset + numVertsSum e (ms.take i)) m.2
            = .ok block := by
  intro ms
  induction ms with
  | nil => intro blocks vertOffset _ i m hm; simp at hm
  | cons m0 ms ih =>
    intro blocks vertOffset h i m hm
    cases blocks with
    | nil => simp [BlocksFrom] at h
    | cons b bs =>
      simp only [BlocksFrom] at h
      cases i with
      | zero =>
        simp only [List.getElem?_cons_zero, Option.some.injEq] at hm
        subst hm
        exact ⟨b, by simp, by simpa [numVertsSum_nil] using h.1⟩
      | succ i =>
        simp only [List.getElem?_cons_succ] at hm
        obtain ⟨block, hb, hrun⟩ := ih bs _ h.2 i m hm
        refine ⟨block, by simpa using hb, ?_⟩
        simp only [List.take_succ_cons, numVertsSum_cons]
        rw [← Nat.add_assoc]
        exact hrun

/-- The mesh loop writes one block for each mesh of its range that is not `NULL`. -/
theorem meshLoop_blocks (e : Engine) (tss : TSShape) (mat : e.MatrixF) :
    ∀ (js : List Nat) (vertOffset : Nat) (lines : List Line) (final : Nat),
      meshLoop e tss mat vertOffset js = .ok (lines, final) →
      ∃ blocks,
        BlocksFrom e tss.materialNames vertOffset
          (js.filterMap (fun j => (tss.meshes.getD j none).map (fun mesh => (mat, mesh))))
          blocks ∧
        lines = blocks.flatten ∧
        final = vertOffset + numVertsSum e
          (js.filterMap (fun j => (tss.meshes.getD j none).map (fun mesh => (mat, mesh)))) := by
  intro js
  induction js with
  | nil =>
    intro vertOffset lines final hrun
    rw [meshLoop] at hrun
    have h := pure_ok hrun
    simp only [Prod.mk.injEq] at h
    exact ⟨[], by simp [BlocksFrom], by simp [h.1], by simp [numVertsSum_nil, h.2]⟩
  | cons j js ih =>
    intro vertOffset lines final hrun
    rw [meshLoop] at hrun
    obtain ⟨slot, hslot, hrun⟩ := bind_ok hrun
    have hget : tss.meshes.getD j none = slot := by
      unfold readMesh at hslot
      cases hj : tss.meshes[j]? with
      | none => rw [hj] at hslot; cases hslot
      | some s =>
        rw [hj] at hslot
        cases hslot
        simp [List.getD_eq_getElem?_getD, hj]
    cases slot with
    | none =>
      obtain ⟨blocks, hb, hl, hf⟩ := ih vertOffset lines final hrun
      have hF : (fun j => (tss.meshes.getD j none).map (fun mesh => (mat, mesh))) j = none := by
        simp only [hget, Option.map_none']
      rw [@List.filterMap_cons_none _ _
        (fun j => (tss.meshes.getD j none).map (fun mesh => (mat, mesh))) j js hF]
      exact ⟨blocks, hb, hl, hf⟩
    | some mesh =>
      obtain ⟨here, hhere, hrun⟩ := bind_ok hrun
      obtain ⟨later, hlater, hrun⟩ := bind_ok hrun
      have h := pure_ok hrun
      simp only [Prod.mk.injEq] at h
      obtain ⟨blocks, hb, hl, hf⟩ := ih _ later.1 later.2 hlater
      have hF : (fun j => (tss.meshes.getD j none).map (fun mesh => (mat, mesh))) j
          = some (mat, mesh) := by
        simp only [hget, Option.map_some']
      rw [@List.filterMap_cons_some _ _
        (fun j => (tss.meshes.getD j none).map (fun mesh => (mat, mesh))) j js (mat, mesh) hF]
      refine ⟨here :: blocks, ?_, ?_, ?_⟩
      · simp only [BlocksFrom]
        exact ⟨hhere, hb⟩
      · rw [← h.1, hl]; simp
      · rw [← h.2, hf, numVertsSum_cons]
        simp only
        omega

/-- The object loop writes, for each object in order, its `g` record and then the
blocks of its meshes; `vertOffset` runs through all the blocks. -/
theorem objectLoop_layout (e : Engine) (tss : TSShape) :
    ∀ (objects : List Object) (vertOffset : Nat) (doc : List Line) (final : Nat),
      objectLoop e tss vertOffset objects = .ok (doc, final) →
      ∃ groups : List (String × List (List Line)),
        doc = renderGroups groups ∧
        List.Forall₂ (fun object group => tss.names[object.nameIndex]? = some group.1 ∧
          group.2.length = (objectMeshes e tss object).length) objects groups ∧
        BlocksFrom e tss.materialNames vertOffset (processedMeshes e tss objects)
          (groups.flatMap (fun group => group.2)) ∧
        final = vertOffset + numVertsSum e (processedMeshes e tss objects) := by
  intro objects
  induction objects with
  | nil =>
    intro vertOffset doc final hrun
    rw [objectLoop] at hrun
    have h := pure_ok hrun
    simp only [Prod.mk.injEq] at h
    exact ⟨[], by simp [renderGroups, h.1], List.Forall₂.nil,
      by simp [processedMeshes, BlocksFrom],
      by simp [processedMeshes, numVertsSum_nil, h.2]⟩
  | cons object rest ih =>
    intro vertOffset doc final hrun
    rw [objectLoop] at hrun
    obtain ⟨name, hname, hrun⟩ := bind_ok hrun
    obtain ⟨here, hhere, hrun⟩ := bind_ok hrun
    obtain ⟨later, hlater, hrun⟩ := bind_ok hrun
    have h := pure_ok hrun
    simp only [Prod.mk.injEq] at h
    obtain ⟨blocks, hb, hl, hf⟩ := meshLoop_blocks e tss _ _ _ here.1 here.2 hhere
    obtain ⟨groups, hdoc, hall, hbs, hfin⟩ := ih here.2 later.1 later.2 hlater
    have hnm : tss.names[object.nameIndex]? = some name := by
      unfold readName at hname
      cases hk : tss.names[object.nameIndex]? with
      | none => rw [hk] at hname; cases hname
      | some s => rw [hk] at hname; cases hname; rfl
    refine ⟨(name, blocks) :: groups, ?_, ?_, ?_, ?_⟩
    · rw [← h.1, hl, hdoc]
      simp [renderGroups]
    · refine List.Forall₂.cons ⟨hnm, ?_⟩ hall
      exact BlocksFrom_length e _ _ _ _ hb
    · simp only [processedMeshes, List.flatMap_cons]
      refine BlocksFrom_append e _ _ _ _ _ _ hb ?_
      rw [hf] at hbs
      exact hbs
    · rw [← h.2, hfin, hf]
      simp only [processedMeshes, List.flatMap_cons, numVertsSum_append]
      unfold objectMeshes
      omega

/-! ## Alignment of the face indices with the attribute records -/

/-- Element `t` of image `i` of a `flatMap` sits after the images before it. -/
theorem getElem?_flatMap_offset {α β : Type} (f : α → List β) :
    ∀ (ms : List α) (i : Nat) (m : α) (t : Nat) (x : β),
      ms[i]? = some m → (f m)[t]? = some x →
      (ms.flatMap f)[((ms.take i).map (fun a => (f a).length)).sum + t]? = some x := by
  intro ms
  induction ms with
  | nil => intro i m t x hm; simp at hm
  | cons a ms ih =>
    intro i m t x hm hx
    cases i with
    | zero =>
      simp only [List.getElem?_cons_zero, Option.some.injEq] at hm
      subst hm
      have ht : t < (f a).length := by
        rcases Nat.lt_or_ge t (f a).length with h | h
        · exact h
        · rw [List.getElem?_eq_none h] at hx; cases hx
      simp only [List.take_zero, List.map_nil, List.sum_nil, Nat.zero_add, List.flatMap_cons]
      rw [List.getElem?_append_left ht]
      exact hx
    | succ i =>
      simp only [List.getElem?_cons_succ] at hm
      have h := ih i m t x hm hx
      simp only [List.take_succ_cons, List.map_cons, List.sum_cons, List.flatMap_cons]
      rw [List.getElem?_append_right (by omega)]
      have e1 : (f a).length + ((ms.take i).map (fun a => (f a).length)).sum + t
          - (f a).length = ((ms.take i).map (fun a => (f a).length)).sum + t := by omega
      rw [e1]
      exact h

/-- The faces part of a mesh block holds material switches and face records only. -/
theorem primitiveLoop_kinds (e : Engine) (materialNames : List String) (indices : List Nat)
    (vertOffset : Nat) (primitives : List TSDrawPrimitive) (lines : List Line)
    (hrun : primitiveLoop e materialNames indices vertOffset primitives = .ok lines) :
    ∀ line ∈ lines, (∃ name, line = Line.usemtl name) ∨
      ∃ a b c, line = faceRecord vertOffset a b c := by
  intro line hline
  rcases primitiveLoop_mem e materialNames indices vertOffset (fun _ => True) primitives lines
      hrun (fun _ _ _ _ _ _ => trivial) line hline with h | ⟨a, b, c, h, _⟩
  · exact Or.inl h
  · exact Or.inr ⟨a, b, c, h⟩

theorem filter_eq_nil_of_kinds (vertOffset : Nat) (lines : List Line) (p : Line → Bool)
    (hp1 : ∀ name, p (Line.usemtl name) = false)
    (hp2 : ∀ a b c, p (faceRecord vertOffset a b c) = false)
    (h : ∀ line ∈ lines, (∃ name, line = Line.usemtl name) ∨
      ∃ a b c, line = faceRecord vertOffset a b c) :
    lines.filter p = [] := by
  rw [List.filter_eq_nil_iff]
  intro line hline
  rcases h line hline with ⟨name, rfl⟩ | ⟨a, b, c, rfl⟩
  · simp [hp1]
  · simp [hp2]

theorem filter_map_all {α : Type} (f : α → Line) (p : Line → Bool) (xs : List α)
    (h : ∀ x, p (f x) = true) : (xs.map f).filter p = xs.map f := by
  rw [List.filter_eq_self]
  intro line hline
  obtain ⟨x, _, rfl⟩ := List.mem_map.1 hline
  exact h x

theorem filter_map_none {α : Type} (f : α → Line) (p : Line → Bool) (xs : List α)
    (h : ∀ x, p (f x) = false) : (xs.map f).filter p = [] := by
  rw [List.filter_eq_nil_iff]
  intro line hline
  obtain ⟨x, _, rfl⟩ := List.mem_map.1 hline
  simp [h x]

/-- The `v`, `vt` and `vn` records of a mesh block are those of its positions, texture
coordinates and normals, in order. -/
theorem exportMesh_attributes (e : Engine) (materialNames : List String) (mat : e.MatrixF)
    (vertOffset : Nat) (mesh : TSMesh) (block : List Line)
    (hrun : exportMesh e materialNames mat vertOffset mesh = .ok block) :
    block.filter Line.isV = mesh.verts.map (vertLine e mat) ∧
    block.filter Line.isVt = mesh.tverts.map tvertLine ∧
    block.filter Line.isVn = mesh.norms.map normLine := by
  unfold exportMesh at hrun
  obtain ⟨faces, hfaces, hrun⟩ := bind_ok hrun
  rw [← pure_ok hrun]
  have hk := primitiveLoop_kinds e materialNames mesh.indices vertOffset mesh.primitives
    faces hfaces
  simp only [List.filter_append]
  refine ⟨?_, ?_, ?_⟩
  · rw [filter_eq_nil_of_kinds vertOffset faces Line.isV (fun _ => rfl) (fun _ _ _ => rfl) hk,
      filter_map_all _ _ _ (fun _ => rfl), filter_map_none _ _ _ (fun _ => rfl),
      filter_map_none _ _ _ (fun _ => rfl)]
    simp
  · rw [filter_eq_nil_of_kinds vertOffset faces Line.isVt (fun _ => rfl) (fun _ _ _ => rfl) hk,
      filter_map_none _ _ _ (fun _ => rfl), filter_map_all _ _ _ (fun _ => rfl),
      filter_map_none _ _ _ (fun _ => rfl)]
    simp
  · rw [filter_eq_nil_of_kinds vertOffset faces Line.isVn (fun _ => rfl) (fun _ _ _ => rfl) hk,
      filter_map_none _ _ _ (fun _ => rfl), filter_map_none _ _ _ (fun _ => rfl),
      filter_map_all _ _ _ (fun _ => rfl)]
    simp

/-- The records of one kind in a run of blocks are those of the meshes, in order. -/
theorem BlocksFrom_filter (e : Engine) (materialNames : List String) (p : Line → Bool)
    (part : e.MatrixF × TSMesh → List Line)
    (hpart : ∀ mat vertOffset mesh block,
      exportMesh e materialNames mat vertOffset mesh = .ok block →
      block.filter p = part (mat, mesh)) :
    ∀ (ms : List (e.MatrixF × TSMesh)) (blocks : List (List Line)) (vertOffset : Nat),
      BlocksFrom e materialNames vertOffset ms blocks →
      blocks.flatten.filter p = ms.flatMap part := by
  intro ms
  induction ms with
  | nil =>
    intro blocks vertOffset h
    cases blocks with
    | nil => rfl
    | cons b bs => simp [BlocksFrom] at h
  | cons m ms ih =>
    intro blocks vertOffset h
    cases blocks with
    | nil => simp [BlocksFrom] at h
    | cons b bs =>
      simp only [BlocksFrom] at h
      simp only [List.flatten_cons, List.filter_append, List.flatMap_cons]
      rw [ih bs _ h.2, hpart m.1 vertOffset m.2 b h.1]

theorem renderGroups_filter (p : Line → Bool) (hp : ∀ name, p (Line.g name) = false) :
    ∀ (groups : List (String × List (List Line))),
      (renderGroups groups).filter p
        = (groups.flatMap (fun group => group.2)).flatten.filter p := by
  intro groups
  induction groups with
  | nil => rfl
  | cons g gs ih =>
    unfold renderGroups at ih ⊢
    simp only [List.flatMap_cons, List.filter_append, List.flatten_append]
    rw [ih]
    simp [List.filter_cons, hp]

/-! ## Material switches -/

/-- The face records of a primitive contain no material switch. -/
theorem primitiveFaces_no_usemtl (e : Engine) (indices : List Nat) (vertOffset : Nat)
    (primitive : TSDrawPrimitive) (faces : List Line)
    (hrun : primitiveFaces e indices vertOffset primitive = .ok faces) :
    ∀ name, Line.usemtl name ∉ faces := by
  intro name hmem
  obtain ⟨a, b, c, h, _⟩ := primitiveFaces_values e indices vertOffset (fun _ => True) primitive
    faces hrun (fun _ _ _ _ => trivial) _ hmem
  cases h

/-- C5. For one primitive: with the `NoMaterial` bit set in `matIndex` only its face
records are written, whatever the masked index is; with the bit clear and
`k = matIndex & MaterialMask` inside the material-name list, the record `usemtl` of
entry `k` is written once, in front of the face records; with the bit clear and `k`
at or beyond the end of the list the access `materialNames[k]` faults and nothing is
produced.  The face records never contain a `usemtl` record. -/
theorem material_masking (e : Engine) (materialNames : List String) (indices : List Nat)
    (vertOffset : Nat) (primitive : TSDrawPrimitive) :
    (primitive.matIndex &&& e.NoMaterial ≠ 0 →
      exportPrimitive e materialNames indices vertOffset primitive
        = primitiveFaces e indices vertOffset primitive) ∧
    (primitive.matIndex &&& e.NoMaterial = 0 →
      ∀ name, materialNames[primitive.matIndex &&& e.MaterialMask]? = some name →
        exportPrimitive e materialNames indices vertOffset primitive
          = (primitiveFaces e indices vertOffset primitive).map
              (fun faces => Line.usemtl name :: faces)) ∧
    (primitive.matIndex &&& e.NoMaterial = 0 →
      materialNames.length ≤ primitive.matIndex &&& e.MaterialMask →
        exportPrimitive e materialNames indices vertOffset primitive
          = .error (.materialNames (primitive.matIndex &&& e.MaterialMask))) ∧
    (∀ faces, primitiveFaces e indices vertOffset primitive = .ok faces →
      ∀ name, Line.usemtl name ∉ faces) := by
  refine ⟨?_, ?_, ?_, ?_⟩
  · intro hflag
    unfold exportPrimitive materialLines
    rw [if_neg hflag]
    cases primitiveFaces e indices vertOffset primitive <;> rfl
  · intro hflag name hname
    unfold exportPrimitive materialLines readMaterialName
    rw [if_pos hflag, hname]
    cases primitiveFaces e indices vertOffset primitive <;> rfl
  · intro hflag hlen
    unfold exportPrimitive materialLines readMaterialName
    rw [if_pos hflag, List.getElem?_eq_none hlen]
    rfl
  · intro faces hrun
    exact primitiveFaces_no_usemtl e indices vertOffset primitive faces hrun

/-- C5 on the material list `["stone", "wood"]`: index 1 with the flag set writes no
switch, index 1 with the flag clear writes `usemtl wood` first, index 2 faults. -/
theorem material_masking_witness :
    exportPrimitive sampleEngine ["stone", "wood"] [0, 1, 2] 1 ⟨0, 3, 0x10000001⟩
      = .ok [faceRecord 1 0 1 2] ∧
    exportPrimitive sampleEngine ["stone", "wood"] [0, 1, 2] 1 ⟨0, 3, 1⟩
      = .ok [Line.usemtl "wood", faceRecord 1 0 1 2] ∧
    exportPrimitive sampleEngine ["stone", "wood"] [0, 1, 2] 1 ⟨0, 3, 2⟩
      = .error (.materialNames 2) ∧
    exportPrimitive sampleEngine ["stone", "wood"] [0, 1, 2] 1 ⟨0, 3, 0x10000001⟩
      = primitiveFaces sampleEngine [0, 1, 2] 1 ⟨0, 3, 0x10000001⟩ :=
  ⟨by decide, by decide, by decide,
   (material_masking sampleEngine ["stone", "wood"] [0, 1, 2] 1 ⟨0, 3, 0x10000001⟩).1
     (by decide)⟩

/-! ## Mesh slots that are `NULL` -/

theorem meshLoop_null (e : Engine) (tss : TSShape) (mat : e.MatrixF) (vertOffset j : Nat)
    (js : List Nat) (hj : tss.meshes[j]? = some none) :
    meshLoop e tss mat vertOffset (j :: js) = meshLoop e tss mat vertOffset js := by
  rw [meshLoop]
  unfold readMesh
  rw [hj]
  rfl

theorem meshLoop_filter (e : Engine) (tss : TSShape) (mat : e.MatrixF) :
    ∀ (js : List Nat) (vertOffset : Nat),
      meshLoop e tss mat vertOffset js
        = meshLoop e tss mat vertOffset
            (js.filter (fun j => decide (tss.meshes[j]? ≠ some none))) := by
  intro js
  induction js with
  | nil => intro vertOffset; rfl
  | cons j js ih =>
    intro vertOffset
    by_cases hj : tss.meshes[j]? = some none
    · rw [meshLoop_null e tss mat vertOffset j js hj, List.filter_cons_of_neg (by simp [hj])]
      exact ih vertOffset
    · rw [List.filter_cons_of_pos (by simp [hj])]
      rw [meshLoop, meshLoop]
      cases readMesh tss.meshes j with
      | error err => rfl
      | ok slot =>
        cases slot with
        | none => exact ih vertOffset
        | some mesh =>
          simp only [bind, Except.bind]
          rw [ih]

theorem objectLoop_skippingNull (e : Engine) (tss : TSShape) :
    ∀ (objects : List Object) (vertOffset : Nat),
      objectLoop e tss vertOffset objects = objectLoopSkippingNull e tss vertOffset objects := by
  intro objects
  induction objects with
  | nil => intro vertOffset; rfl
  | cons object rest ih =>
    intro vertOffset
    rw [objectLoop, objectLoopSkippingNull]
    unfold meshRangeSkippingNull
    rw [← meshLoop_filter]
    cases readName tss.names object.nameIndex with
    | error err => rfl
    | ok name =>
      simp only [bind, Except.bind]
      cases meshLoop e tss (e.getNodeWorldTransform tss object.nodeIndex) vertOffset
          (meshRange object) with
      | error err => rfl
      | ok here =>
        simp only
        rw [ih]

/-- C6. A mesh slot that is `NULL` writes nothing and leaves `vertOffset` as it is: the
mesh loop continues as if the slot were not in the range.  So the records, the final
`vertOffset` and the fault status of the whole traversal are those of the traversal of
the ranges without their `NULL` slots, and an export whose streams open ends with
`failed = 0`. -/
theorem null_mesh_skip (e : Engine) (tss : TSShape) :
    (∀ (mat : e.MatrixF) (vertOffset j : Nat) (js : List Nat), tss.meshes[j]? = some none →
      meshLoop e tss mat vertOffset (j :: js) = meshLoop e tss mat vertOffset js) ∧
    (∀ (object : Object) (mat : e.MatrixF) (vertOffset : Nat),
      meshLoop e tss mat vertOffset (meshRange object)
        = meshLoop e tss mat vertOffset (meshRangeSkippingNull tss object)) ∧
    exportGeometry e tss = exportGeometrySkippingNull e tss ∧
    (∀ (mtlFileName : String) (out : Exported),
      exportShape e tss true mtlFileName = .ok out → out.failed = 0) := by
  refine ⟨?_, ?_, ?_, ?_⟩
  · intro mat vertOffset j js hj
    exact meshLoop_null e tss mat vertOffset j js hj
  · intro object mat vertOffset
    exact meshLoop_filter e tss mat _ vertOffset
  · exact objectLoop_skippingNull e tss _ _
  · intro mtlFileName out hrun
    unfold exportShape at hrun
    obtain ⟨geometry, _, hrun⟩ := bind_ok hrun
    rw [← pure_ok hrun]
    rfl

/-- C6 on `sampleShape`, whose first object has a `NULL` slot after its mesh: the
export succeeds with `failed = 0` and the records of the two meshes alone. -/
theorem null_mesh_skip_witness :
    sampleShape.meshes[1]? = some none ∧
    exportShape sampleEngine sampleShape true "sample.mtl"
      = .ok { failed := 0, dest := Line.mtllib "sample.mtl" :: sampleDoc, mtl := some [] } ∧
    exportGeometry sampleEngine sampleShape = .ok (sampleDoc, 18) ∧
    exportGeometry sampleEngine sampleShape = exportGeometrySkippingNull sampleEngine sampleShape :=
  ⟨by decide, by decide, by decide, (null_mesh_skip sampleEngine sampleShape).2.2.1⟩

/-! ## The slots of a strip -/

/-- The candidates of the strip loop from step `l` on are those read off the buffer. -/
theorem stripCandidatesLoop_closed (indices : List Nat) (start : Nat) :
    ∀ (k l : Nat) (st : StripState), 2 ≤ l → start + l + k ≤ indices.length →
      st.idx2 = indices.getD (start + l - 1) 0 →
      (l % 2 = 0 → st.nextIdx = .toIdx1 ∧ st.idx0 = indices.getD (start + l - 2) 0) →
      (l % 2 = 1 → st.nextIdx = .toIdx0 ∧ st.idx1 = indices.getD (start + l - 2) 0) →
      stripCandidatesLoop indices start (List.range' l k) st
        = .ok ((List.range' l k).map (candidateAt indices start)) := by
  intro k
  induction k with
  | zero => intro l st _ _ _ _ _; rfl
  | succ k ih =>
    intro l st hl hlen h2 heven hodd
    rw [List.range'_succ, stripCandidatesLoop, readIndex_of_lt indices (start + l) (by omega)]
    simp only [bind, Except.bind, List.map_cons]
    rcases Nat.mod_two_eq_zero_or_one l with hpar | hpar
    · obtain ⟨hn, h0⟩ := heven hpar
      have hstep : stripStep st (indices.getD (start + l) 0)
          = { idx0 := st.idx0, idx1 := st.idx2, idx2 := indices.getD (start + l) 0,
              nextIdx := .toIdx0 } := by
        unfold stripStep; rw [hn]; rfl
      rw [hstep]
      rw [ih (l + 1) _ (by omega) (by omega) (by simp) (by intro h; omega)
        (by intro _; exact ⟨rfl, by show st.idx2 = _; rw [h2]; congr 1⟩)]
      simp only [pure, Except.pure, candidateAt, if_pos hpar, h0, h2]
    · obtain ⟨hn, h1⟩ := hodd hpar
      have hstep : stripStep st (indices.getD (start + l) 0)
          = { idx0 := st.idx2, idx1 := st.idx1, idx2 := indices.getD (start + l) 0,
              nextIdx := .toIdx1 } := by
        unfold stripStep; rw [hn]; rfl
      rw [hstep]
      rw [ih (l + 1) _ (by omega) (by omega) (by simp)
        (by intro _; exact ⟨rfl, by show st.idx2 = _; rw [h2]; congr 1⟩) (by intro h; omega)]
      have hne : ¬ l % 2 = 0 := by omega
      simp only [pure, Except.pure, candidateAt, if_neg hne, h1, h2]

/-- The candidates of a strip whose run lies in the buffer, read off the buffer. -/
theorem stripCandidates_closed (indices : List Nat) (primitive : TSDrawPrimitive)
    (hlen : primitive.start + primitive.numElements ≤ indices.length)
    (hn : 2 ≤ primitive.numElements) :
    stripCandidates indices primitive
      = .ok ((stripRange primitive.numElements).map (candidateAt indices primitive.start)) := by
  unfold stripCandidates stripRange
  rw [readIndex_of_lt indices (primitive.start + 0) (by omega),
    readIndex_of_lt indices (primitive.start + 1) (by omega)]
  simp only [bind, Except.bind]
  exact stripCandidatesLoop_closed indices primitive.start _ 2 _ (Nat.le_refl 2) (by omega)
    (by simp [stripInit]) (by intro _; exact ⟨rfl, by simp [stripInit]⟩)
    (by intro h; omega)

/-- C8 as stated fails on the strip `[10,11,12,13]`: the candidate after `(10,11,12)`
is `(12,11,13)`, which keeps the second-oldest index 11 and not the oldest index 10. -/
theorem strip_slot_replacement_counterexample :
    stripCandidates [10, 11, 12, 13] ⟨0, 4, 0x40000000⟩ = .ok [(10, 11, 12), (12, 11, 13)] ∧
    ¬ (∀ c c2, stripCandidates [10, 11, 12, 13] ⟨0, 4, 0x40000000⟩ = .ok [c, c2] →
        10 ∈ [c2.1, c2.2.1, c2.2.2] ∧ 11 ∉ [c2.1, c2.2.1, c2.2.2]) := by
  refine ⟨by decide, ?_⟩
  intro h
  have h2 := (h (10, 11, 12) (12, 11, 13) (by decide)).1
  revert h2
  decide

/-- C8, amended.  In a strip whose run lies in the index buffer, the candidate of step
`l` holds the buffer values read at the steps `l - 2` (the oldest), `l - 1` and `l`
(the newest); at step `l + 1` the slot of the oldest value takes the newest value and
`idx2` takes the value read.  So the next candidate keeps the second-oldest and the
newest index, an edge of the current triangle, and the new index replaces the oldest. -/
theorem strip_slot_replacement (indices : List Nat) (primitive : TSDrawPrimitive) (l : Nat)
    (hlen : primitive.start + primitive.numElements ≤ indices.length)
    (hl : 2 ≤ l) (hn : l + 1 < primitive.numElements) :
    ∃ candidates oldest second newest new c c2,
      stripCandidates indices primitive = .ok candidates ∧
      indices[primitive.start + l - 2]? = some oldest ∧
      indices[primitive.start + l - 1]? = some second ∧
      indices[primitive.start + l]? = some newest ∧
      indices[primitive.start + l + 1]? = some new ∧
      candidates[l - 2]? = some c ∧ candidates[l - 1]? = some c2 ∧
      (l % 2 = 0 → c = (oldest, second, newest) ∧ c2 = (newest, second, new)) ∧
      (l % 2 = 1 → c = (second, oldest, newest) ∧ c2 = (second, newest, new)) := by
  refine ⟨_, _, _, _, _, candidateAt indices primitive.start l,
    candidateAt indices primitive.start (l + 1),
    stripCandidates_closed indices primitive hlen (by omega),
    getElem?_eq_some_getD indices _ (by omega), getElem?_eq_some_getD indices _ (by omega),
    getElem?_eq_some_getD indices _ (by omega), getElem?_eq_some_getD indices _ (by omega),
    ?_, ?_, ?_, ?_⟩
  · have hk : l - 2 < primitive.numElements - 2 := by omega
    have e1 : 2 + (l - 2) = l := by omega
    simp [stripRange, List.getElem?_map, List.getElem?_range' _ _ hk, e1]
  · have hk : l - 1 < primitive.numElements - 2 := by omega
    have e1 : 2 + (l - 1) = l + 1 := by omega
    simp [stripRange, List.getElem?_map, List.getElem?_range' _ _ hk, e1]
  · intro hpar
    have hne : ¬ (l + 1) % 2 = 0 := by omega
    have e1 : primitive.start + (l + 1) - 1 = primitive.start + l := by omega
    have e2 : primitive.start + (l + 1) - 2 = primitive.start + l - 1 := by omega
    simp only [candidateAt, if_pos hpar, if_neg hne, e1, e2, Nat.add_assoc, and_self]
  · intro hpar
    have hne : ¬ l % 2 = 0 := by omega
    have hev : (l + 1) % 2 = 0 := by omega
    have e1 : primitive.start + (l + 1) - 1 = primitive.start + l := by omega
    have e2 : primitive.start + (l + 1) - 2 = primitive.start + l - 1 := by omega
    simp only [candidateAt, if_neg hne, if_pos hev, e1, e2, Nat.add_assoc, and_self]

/-- C8, amended, on the strip `[10,11,12,13,14]` at step 2. -/
theorem strip_slot_replacement_witness :
    stripCandidates [10, 11, 12, 13, 14] ⟨0, 5, 0x40000000⟩
      = .ok [(10, 11, 12), (12, 11, 13), (12, 13, 14)] ∧
    ∃ candidates oldest second newest new c c2,
      stripCandidates [10, 11, 12, 13, 14] ⟨0, 5, 0x40000000⟩ = .ok candidates ∧
      [10, 11, 12, 13, 14][0 + 2 - 2]? = some oldest ∧
      [10, 11, 12, 13, 14][0 + 2 - 1]? = some second ∧
      [10, 11, 12, 13, 14][0 + 2]? = some newest ∧
      [10, 11, 12, 13, 14][0 + 2 + 1]? = some new ∧
      candidates[2 - 2]? = some c ∧ candidates[2 - 1]? = some c2 ∧
      (2 % 2 = 0 → c = (oldest, second, newest) ∧ c2 = (newest, second, new)) ∧
      (2 % 2 = 1 → c = (second, oldest, newest) ∧ c2 = (second, newest, new)) :=
  ⟨by decide,
   strip_slot_replacement [10, 11, 12, 13, 14] ⟨0, 5, 0x40000000⟩ 2
     (by decide) (by decide) (by decide)⟩

/-! ## The flip of the texture coordinate V -/

theorem F32.roundMag_of_representable (a : Nat) (h : F32.Representable a) :
    F32.roundMag a = a := by
  have hr : a % 2 ^ F32.excessBits a = 0 := h.1
  have hpos : 2 * 0 < 2 ^ F32.excessBits a := by
    have := Nat.pos_pow_of_pos (F32.excessBits a) (by decide : 0 < 2)
    omega
  simp only [F32.roundMag, hr]
  rw [if_pos hpos]
  exact Nat.div_mul_cancel (Nat.dvd_of_mod_eq_zero hr)

theorem F32.ofExact_of_representable (neg : Bool) (a : Nat) (h : F32.Representable a) :
    F32.ofExact neg a = .finite neg a := by
  unfold F32.ofExact
  rw [F32.roundMag_of_representable a h, if_pos h.2]

theorem F32.representable_one : F32.Representable (2 ^ 149) := by decide

/-- Twice `1.0f - y` gives back a value equal to `y` when the first difference is exact. -/
theorem F32.oneMinus_oneMinus (v : F32) (hv : F32.Valid v) (hexact : F32.ExactOneMinus v) :
    F32.ceq (F32.oneMinus (F32.oneMinus v)) v = true := by
  cases v with
  | nan => simp [F32.ExactOneMinus] at hexact
  | inf neg => cases neg <;> rfl
  | finite neg m =>
    have hm : F32.Representable m := hv
    cases neg with
    | true =>
      have h1 : F32.Representable (2 ^ 149 + m) := by
        have h := hexact
        simp only [F32.ExactOneMinus, if_true] at h
        exact h
      have e1 : F32.oneMinus (.finite true m) = .finite false (2 ^ 149 + m) := by
        simp only [F32.oneMinus, if_true]
        exact F32.ofExact_of_representable false _ h1
      rw [e1]
      by_cases hz : m = 0
      · subst hz
        simp [F32.oneMinus, F32.ceq]
      · have hne : ¬ (2 ^ 149 + m = 2 ^ 149) := by omega
        have hlt : ¬ (2 ^ 149 + m < 2 ^ 149) := by omega
        have hsub : 2 ^ 149 + m - 2 ^ 149 = m := by omega
        simp only [F32.oneMinus, Bool.false_eq_true, if_false, if_neg hne, if_neg hlt, hsub]
        rw [F32.ofExact_of_representable true m hm]
        simp [F32.ceq]
    | false =>
      by_cases heq : m = 2 ^ 149
      · subst heq
        have e1 : F32.oneMinus (.finite false (2 ^ 149)) = .finite false 0 := by
          simp [F32.oneMinus]
        rw [e1]
        have e2 : F32.oneMinus (.finite false 0) = .finite false (2 ^ 149) := by
          simp only [F32.oneMinus, Bool.false_eq_true, if_false]
          rw [if_neg (by decide), if_pos (by decide)]
          exact F32.ofExact_of_representable false _ F32.representable_one
        rw [e2]
        simp [F32.ceq]
      · by_cases hlt : m < 2 ^ 149
        · have h1 : F32.Representable (2 ^ 149 - m) := by
            have hle : m ≤ 2 ^ 149 := by omega
            have h := hexact
            simp only [F32.ExactOneMinus, Bool.false_eq_true, if_false] at h
            rw [if_pos hle] at h
            exact h
          have e1 : F32.oneMinus (.finite false m) = .finite false (2 ^ 149 - m) := by
            simp only [F32.oneMinus, Bool.false_eq_true, if_false, if_neg heq, if_pos hlt]
            exact F32.ofExact_of_representable false _ h1
          rw [e1]
          by_cases hz : m = 0
          · subst hz
            simp [F32.oneMinus, F32.ceq]
          · have hne : ¬ (2 ^ 149 - m = 2 ^ 149) := by omega
            have hlt2 : 2 ^ 149 - m < 2 ^ 149 := by omega
            have hsub : 2 ^ 149 - (2 ^ 149 - m) = m := by omega
            simp only [F32.oneMinus, Bool.false_eq_true, if_false, if_neg hne, if_pos hlt2, hsub]
            rw [F32.ofExact_of_representable false m hm]
            simp [F32.ceq]
        · have hgt : ¬ (m ≤ 2 ^ 149) := by omega
          have h1 : F32.Representable (m - 2 ^ 149) := by
            have h := hexact
            simp only [F32.ExactOneMinus, Bool.false_eq_true, if_false] at h
            rw [if_neg hgt] at h
            exact h
          have e1 : F32.oneMinus (.finite false m) = .finite true (m - 2 ^ 149) := by
            simp only [F32.oneMinus, Bool.false_eq_true, if_false, if_neg heq, if_neg hlt]
            exact F32.ofExact_of_representable true _ h1
          rw [e1]
          have hsub : 2 ^ 149 + (m - 2 ^ 149) = m := by omega
          simp only [F32.oneMinus, if_true, hsub]
          rw [F32.ofExact_of_representable false m hm]
          simp [F32.ceq]

/-- C9 as stated fails at `v = 2^-30` (that is `2^119` units): `1.0f - v` rounds to
`1.0f`, so the second flip gives `0.0f`, which is not equal to `v`; and at a NaN. -/
theorem texcoord_flip_counterexample :
    F32.Valid (.finite false (2 ^ 119)) ∧
    F32.oneMinus (.finite false (2 ^ 119)) = F32.one ∧
    F32.oneMinus (F32.oneMinus (.finite false (2 ^ 119))) = F32.zero ∧
    F32.ceq (F32.oneMinus (F32.oneMinus (.finite false (2 ^ 119)))) (.finite false (2 ^ 119))
      = false ∧
    F32.ceq (F32.oneMinus (F32.oneMinus .nan)) .nan = false := by
  decide

/-- C9, amended.  A texture coordinate `(u, v)` is written as `(u, 1.0f - v)` with `u`
unchanged; `0.0` is written as `1.0` and `1.0` as `0.0`; and `flip (flip v) == v` holds
for every binary32 value `v` whose difference `1 - v` is exactly representable. -/
theorem texcoord_flip :
    (∀ tvert : Point2F, tvertLine tvert = Line.vt tvert.x (F32.oneMinus tvert.y)) ∧
    F32.oneMinus F32.zero = F32.one ∧
    F32.oneMinus F32.one = F32.zero ∧
    (∀ v : F32, F32.Valid v → F32.ExactOneMinus v →
      F32.ceq (F32.oneMinus (F32.oneMinus v)) v = true) := by
  refine ⟨fun _ => rfl, by decide, by decide, ?_⟩
  intro v hv hexact
  exact F32.oneMinus_oneMinus v hv hexact

/-- C9, amended, at `v = 0.25` (that is `2^147` units), written as `0.75`. -/
theorem texcoord_flip_witness :
    F32.Valid (.finite false (2 ^ 147)) ∧
    F32.ExactOneMinus (.finite false (2 ^ 147)) ∧
    F32.oneMinus (.finite false (2 ^ 147)) = .finite false (3 * 2 ^ 147) ∧
    F32.ceq (F32.oneMinus (F32.oneMinus (.finite false (2 ^ 147)))) (.finite false (2 ^ 147))
      = true :=
  ⟨by decide, by decide, by decide,
   texcoord_flip.2.2.2 (.finite false (2 ^ 147)) (by decide) (by decide)⟩

/-- Known binary32 results: `1.0f - 0.1f` is `0.9f` (`0x3F666666`, rounded down), and
`1.0f - 2^-25` is the tie that rounds to the even neighbour `1.0f`. -/
theorem F32.oneMinus_samples :
    F32.oneMinus (.finite false (13421773 * 2 ^ 122)) = .finite false (15099494 * 2 ^ 125) ∧
    F32.oneMinus (.finite false (2 ^ 124)) = F32.one ∧
    F32.oneMinus (.finite false (3 * 2 ^ 124)) = .finite false ((2 ^ 24 - 2) * 2 ^ 125) := by
  decide

/-! ## The material-library reference -/

/-- A mesh block has no record of a kind other than `v`, `vt`, `vn`, `usemtl`, `f`. -/
theorem exportMesh_filter_nil (e : Engine) (materialNames : List String) (mat : e.MatrixF)
    (vertOffset : Nat) (mesh : TSMesh) (block : List Line) (p : Line → Bool)
    (hv : ∀ x y z, p (Line.v x y z) = false) (hvt : ∀ u v, p (Line.vt u v) = false)
    (hvn : ∀ x y z, p (Line.vn x y z) = false) (hu : ∀ name, p (Line.usemtl name) = false)
    (hf : ∀ a b c, p (faceRecord vertOffset a b c) = false)
    (hrun : exportMesh e materialNames mat vertOffset mesh = .ok block) :
    block.filter p = [] := by
  unfold exportMesh at hrun
  obtain ⟨faces, hfaces, hrun⟩ := bind_ok hrun
  rw [← pure_ok hrun]
  have hk := primitiveLoop_kinds e materialNames mesh.indices vertOffset mesh.primitives
    faces hfaces
  simp only [List.filter_append]
  rw [filter_eq_nil_of_kinds vertOffset faces p hu hf hk,
    filter_map_none (vertLine e mat) p _ (fun _ => hv _ _ _),
    filter_map_none tvertLine p _ (fun _ => hvt _ _),
    filter_map_none normLine p _ (fun _ => hvn _ _ _)]
  rfl

/-- The object loop writes no `mtllib` record. -/
theorem exportGeometry_no_mtllib (e : Engine) (tss : TSShape) (doc : List Line) (final : Nat)
    (hrun : exportGeometry e tss = .ok (doc, final)) :
    ∀ file, Line.mtllib file ∉ doc := by
  unfold exportGeometry at hrun
  obtain ⟨groups, hdoc, _, hblocks, _⟩ := objectLoop_layout e tss _ _ _ _ hrun
  have hnil : doc.filter Line.isMtllib = [] := by
    rw [hdoc, renderGroups_filter Line.isMtllib (fun _ => rfl)]
    rw [BlocksFrom_filter e _ Line.isMtllib (fun _ => [])
      (fun mat vo mesh blk h => exportMesh_filter_nil e _ mat vo mesh blk Line.isMtllib
        (fun _ _ _ => rfl) (fun _ _ => rfl) (fun _ _ _ => rfl) (fun _ => rfl)
        (fun _ _ _ => rfl) h) _ _ _ hblocks]
    simp
  intro file hmem
  have : Line.mtllib file ∈ doc.filter Line.isMtllib :=
    List.mem_filter.2 ⟨hmem, rfl⟩
  rw [hnil] at this
  cases this

/-- C10 as stated fails in both directions: with no material at all and a material
stream that opens, the `mtllib` record is written although the library has no record;
with a material whose image is found and a material stream that fails to open, no
`mtllib` record is written. -/
theorem mtllib_reference_counterexample :
    (∃ out, exportShape sampleEngine sampleShape true "sample.mtl" = .ok out ∧
      out.mtl = some [] ∧ Line.mtllib "sample.mtl" ∈ out.dest) ∧
    (sampleEngine.sFindFile "stone" = some "stone.png" ∧
     ∃ out, exportShape sampleEngine { sampleShape with materialNames := ["stone"] } false
        "sample.mtl" = .ok out ∧
      ∀ file, Line.mtllib file ∉ out.dest) := by
  refine ⟨⟨_, rfl, by decide, by decide⟩, by decide, ⟨_, rfl, ?_⟩⟩
  intro file hmem
  have h : exportGeometry sampleEngine { sampleShape with materialNames := ["stone"] }
      = .ok (sampleDoc, 18) := by decide
  exact exportGeometry_no_mtllib _ _ _ _ h file hmem

/-- C10, amended.  The geometry document contains a `mtllib` record exactly when the
material stream opened, whether or not any material record was written; the record is
then the first of the document and the only `mtllib` record, so it precedes every `g`,
`v`, `vt`, `vn`, `usemtl` and `f` record. -/
theorem mtllib_reference (e : Engine) (tss : TSShape) (mtlOpens : Bool) (mtlFileName : String)
    (out : Exported) (hrun : exportShape e tss mtlOpens mtlFileName = .ok out) :
    ((∃ file, Line.mtllib file ∈ out.dest) ↔ mtlOpens = true) ∧
    (mtlOpens = true → ∃ geometry, out.dest = Line.mtllib mtlFileName :: geometry ∧
      ∀ file, Line.mtllib file ∉ geometry) := by
  unfold exportShape at hrun
  obtain ⟨geometry, hgeo, hrun⟩ := bind_ok hrun
  have hno := exportGeometry_no_mtllib e tss geometry.1 geometry.2 hgeo
  have hout := pure_ok hrun
  cases mtlOpens with
  | true =>
    rw [← hout]
    refine ⟨⟨fun _ => rfl, fun _ => ⟨mtlFileName, by simp⟩⟩, fun _ => ⟨geometry.1, rfl, hno⟩⟩
  | false =>
    rw [← hout]
    refine ⟨⟨?_, fun h => by cases h⟩, fun h => by cases h⟩
    rintro ⟨file, hmem⟩
    exact absurd hmem (by simpa using hno file)

/-- C10, amended, on `sampleShape` with a material stream that opens. -/
theorem mtllib_reference_witness :
    exportShape sampleEngine sampleShape true "sample.mtl"
      = .ok { failed := 0, dest := Line.mtllib "sample.mtl" :: sampleDoc, mtl := some [] } ∧
    ((∃ file, Line.mtllib file ∈ Line.mtllib "sample.mtl" :: sampleDoc) ↔ true = true) ∧
    (true = true → ∃ geometry,
      Line.mtllib "sample.mtl" :: sampleDoc = Line.mtllib "sample.mtl" :: geometry ∧
      ∀ file, Line.mtllib file ∉ geometry) :=
  ⟨by decide,
   mtllib_reference sampleEngine sampleShape true "sample.mtl"
     { failed := 0, dest := Line.mtllib "sample.mtl" :: sampleDoc, mtl := some [] }
     (by decide)⟩

/-! ## The positions read are the positions that can fault -/

theorem readIndex_ok_iff_lt (indices : List Nat) (pos : Nat) :
    (∃ idx, readIndex indices pos = .ok idx) ↔ pos < indices.length := by
  constructor
  · rintro ⟨idx, h⟩
    rcases Nat.lt_or_ge pos indices.length with hlt | hge
    · exact hlt
    · rw [readIndex_of_le indices pos hge] at h; cases h
  · intro h
    exact ⟨_, readIndex_of_lt indices pos h⟩

theorem triangleLoop_ok_iff (indices : List Nat) (vertOffset stop : Nat) :
    ∀ (n l : Nat), stop - l ≤ n →
      ((∃ faces, triangleLoop indices vertOffset stop l = .ok faces) ↔
        ∀ pos ∈ triangleReads stop l, pos < indices.length) := by
  intro n
  induction n with
  | zero =>
    intro l hn
    rw [triangleLoop, triangleReads, if_neg (by omega), if_neg (by omega)]
    exact ⟨fun _ _ h => (by cases h), fun _ => ⟨[], rfl⟩⟩
  | succ n ih =>
    intro l hn
    by_cases hl : l < stop
    · rw [triangleLoop, triangleReads, if_pos hl, if_pos hl]
      have hrec := ih (l + 3) (by omega)
      constructor
      · rintro ⟨faces, hrun⟩
        obtain ⟨idx0, h0, hrun⟩ := bind_ok hrun
        obtain ⟨idx1, h1, hrun⟩ := bind_ok hrun
        obtain ⟨idx2, h2, hrun⟩ := bind_ok hrun
        obtain ⟨rest, hrest, _⟩ := bind_ok hrun
        intro pos hpos
        simp only [List.mem_cons] at hpos
        rcases hpos with h | h | h | h
        · rw [h]; exact (readIndex_ok_iff_lt _ _).1 ⟨idx0, h0⟩
        · rw [h]; exact (readIndex_ok_iff_lt _ _).1 ⟨idx1, h1⟩
        · rw [h]; exact (readIndex_ok_iff_lt _ _).1 ⟨idx2, h2⟩
        · exact hrec.1 ⟨rest, hrest⟩ pos h
      · intro hall
        obtain ⟨rest, hrest⟩ := hrec.2 (fun pos hpos => hall pos (by simp [hpos]))
        rw [readIndex_of_lt indices (l + 0) (hall _ (by simp)),
          readIndex_of_lt indices (l + 1) (hall _ (by simp)),
          readIndex_of_lt indices (l + 2) (hall _ (by simp)), hrest]
        exact ⟨_, rfl⟩
    · rw [triangleLoop, triangleReads, if_neg hl, if_neg hl]
      exact ⟨fun _ _ h => (by cases h), fun _ => ⟨[], rfl⟩⟩

theorem stripLoop_ok_iff (indices : List Nat) (vertOffset start : Nat) :
    ∀ (ls : List Nat) (st : StripState),
      ((∃ faces, stripLoop indices vertOffset start ls st = .ok faces) ↔
        ∀ l ∈ ls, start + l < indices.length) := by
  intro ls
  induction ls with
  | nil => intro st; exact ⟨fun _ _ h => (by cases h), fun _ => ⟨[], rfl⟩⟩
  | cons l ls ih =>
    intro st
    rw [stripLoop]
    constructor
    · rintro ⟨faces, hrun⟩
      obtain ⟨read, hread, hrun⟩ := bind_ok hrun
      obtain ⟨rest, hrest, _⟩ := bind_ok hrun
      intro l2 hl2
      rcases List.mem_cons.1 hl2 with h | h
      · rw [h]; exact (readIndex_ok_iff_lt _ _).1 ⟨read, hread⟩
      · exact (ih _).1 ⟨rest, hrest⟩ l2 h
    · intro hall
      rw [readIndex_of_lt indices (start + l) (hall l (by simp))]
      obtain ⟨rest, hrest⟩ := (ih (stripStep st (indices.getD (start + l) 0))).2
        (fun l2 hl2 => hall l2 (by simp [hl2]))
      simp only [bind, Except.bind, hrest]
      split <;> exact ⟨_, rfl⟩

/-- The face records of a primitive are produced exactly when every position of
`primitiveReads` is inside the index buffer. -/
theorem primitiveFaces_ok_iff (e : Engine) (indices : List Nat) (vertOffset : Nat)
    (primitive : TSDrawPrimitive) :
    (∃ faces, primitiveFaces e indices vertOffset primitive = .ok faces) ↔
      ∀ pos ∈ primitiveReads e primitive, pos < indices.length := by
  unfold primitiveFaces primitiveReads
  by_cases htag : primitive.matIndex &&& e.TypeMask = e.Triangles
  · rw [if_pos htag, if_pos htag]
    exact triangleLoop_ok_iff indices vertOffset _ _ _ (Nat.le_refl _)
  · rw [if_neg htag, if_neg htag]
    unfold stripFaces
    constructor
    · rintro ⟨faces, hrun⟩
      obtain ⟨idx0, h0, hrun⟩ := bind_ok hrun
      obtain ⟨idx2, h2, hrun⟩ := bind_ok hrun
      intro pos hpos
      simp only [List.mem_cons, List.mem_map] at hpos
      rcases hpos with h | h | ⟨l, hl, h⟩
      · rw [h]; exact (readIndex_ok_iff_lt _ _).1 ⟨idx0, h0⟩
      · rw [h]; exact (readIndex_ok_iff_lt _ _).1 ⟨idx2, h2⟩
      · rw [← h]; exact (stripLoop_ok_iff _ _ _ _ _).1 ⟨faces, hrun⟩ l hl
    · intro hall
      rw [readIndex_of_lt indices _ (hall (primitive.start + 0) (by simp)),
        readIndex_of_lt indices _ (hall (primitive.start + 1) (by simp))]
      exact (stripLoop_ok_iff _ _ _ _ _).2
        (fun l hl => hall (primitive.start + l) (by simp [hl]))

/-- The strip loop entered with `nextIdx` at `idx1` does not depend on the value that
`idx1` holds on entry. -/
theorem stripLoop_idx1_irrelevant (indices : List Nat) (vertOffset start : Nat)
    (ls : List Nat) (idx0 idx1 idx2 : Nat) :
    stripLoop indices vertOffset start ls
        { idx0 := idx0, idx1 := idx1, idx2 := idx2, nextIdx := .toIdx1 }
      = stripLoop indices vertOffset start ls (stripInit idx0 idx2) := by
  cases ls with
  | nil => rfl
  | cons l ls => rfl

/-! ## The remainder of a triangle list -/

/-- A triangle loop whose remaining count is not a multiple of 3 reads a position at
or beyond `stop`. -/
theorem triangleReads_overrun (stop : Nat) :
    ∀ (n l : Nat), stop - l ≤ n → (stop - l) % 3 ≠ 0 →
      ∃ pos ∈ triangleReads stop l, stop ≤ pos := by
  intro n
  induction n with
  | zero =>
    intro l hn hrem
    have h0 : stop - l = 0 := by omega
    rw [h0] at hrem
    exact absurd rfl hrem
  | succ n ih =>
    intro l hn hrem
    have hl : l < stop := by
      rcases Nat.lt_or_ge l stop with h | h
      · exact h
      · have h0 : stop - l = 0 := by omega
        rw [h0] at hrem
        exact absurd rfl hrem
    rw [triangleReads, if_pos hl]
    by_cases hshort : stop ≤ l + 2
    · exact ⟨l + 2, by simp, hshort⟩
    · obtain ⟨pos, hpos, hle⟩ := ih (l + 3) (by omega) (by omega)
      exact ⟨pos, by simp [hpos], hle⟩

/-- A triangle list whose count is not a multiple of 3 and whose run ends with the index
buffer faults: no face record is produced. -/
theorem triangleFaces_remainder_fault (e : Engine) (indices : List Nat) (vertOffset : Nat)
    (primitive : TSDrawPrimitive)
    (htag : primitive.matIndex &&& e.TypeMask = e.Triangles)
    (hrem : primitive.numElements % 3 ≠ 0)
    (hlen : primitive.start + primitive.numElements = indices.length) :
    ¬ ∃ faces, primitiveFaces e indices vertOffset primitive = .ok faces := by
  intro hok
  have hall := (primitiveFaces_ok_iff e indices vertOffset primitive).1 hok
  unfold primitiveReads at hall
  rw [if_pos htag] at hall
  obtain ⟨pos, hpos, hle⟩ := triangleReads_overrun (primitive.start + primitive.numElements)
    _ primitive.start (Nat.le_refl _) (by
      have e1 : primitive.start + primitive.numElements - primitive.start
          = primitive.numElements := by omega
      rw [e1]; exact hrem)
  have := hall pos hpos
  omega

/-- C7, the code at a triangle list of count 4.  On the buffer `[0,1,2,3]` (with
`start + count` equal to the buffer length) the second pass of the loop reads position
4, outside the buffer; on the buffer `[0,1,2,3,4,5]` it writes a second record from the
positions 3, 4, 5, two of them outside the run `[0,4)`. -/
theorem triangle_remainder_overrun :
    primitiveFaces sampleEngine [0, 1, 2, 3] 1 ⟨0, 4, 0⟩ = .error (.indices 4) ∧
    primitiveFaces sampleEngine [0, 1, 2, 3, 4, 5] 1 ⟨0, 4, 0⟩
      = .ok [faceRecord 1 0 1 2, faceRecord 1 3 4 5] ∧
    primitiveReads sampleEngine ⟨0, 4, 0⟩ = [0, 1, 2, 3, 4, 5] := by
  decide

/-! ## The streams that fail to open -/

theorem exportShape_eq (e : Engine) (tss : TSShape) (mtlOpens : Bool) (mtlFileName : String) :
    exportShape e tss mtlOpens mtlFileName
      = (exportGeometry e tss).map (fun geometry =>
          { failed := if mtlOpens then 0 else 1,
            dest := (if mtlOpens then [Line.mtllib mtlFileName] else []) ++ geometry.1,
            mtl := if mtlOpens then some (writeMaterials e tss.materialNames) else none }) := by
  unfold exportShape
  cases exportGeometry e tss <;> rfl

/-- C11 as stated fails: with an input that opens, a geometry output that opens and a
material library that fails to open, `TorqueMain` returns 1 and not 0. -/
theorem mtl_open_failure_counterexample :
    TorqueMain (samplePlatform sampleShape true true false) sampleEngine ["dts2obj", "model.dts"]
      = .ok { status := 1, usagePrinted := false,
              opened := ["model.dts", "model.obj", "model.mtl"],
              dest := some sampleDoc, mtl := none } ∧
    ¬ (∃ out, TorqueMain (samplePlatform sampleShape true true false) sampleEngine
        ["dts2obj", "model.dts"] = .ok out ∧ out.status = 0) := by
  refine ⟨by decide, ?_⟩
  rintro ⟨out, hrun, hstatus⟩
  have h : TorqueMain (samplePlatform sampleShape true true false) sampleEngine
      ["dts2obj", "model.dts"]
      = .ok { status := 1, usagePrinted := false,
              opened := ["model.dts", "model.obj", "model.mtl"],
              dest := some sampleDoc, mtl := none } := by decide
  rw [h] at hrun
  cases hrun
  cases hstatus

/-- C11, amended.  When the arguments are accepted, the input opens, the geometry
output opens and the material library fails to open, the geometry export still
proceeds: the geometry document holds exactly the records of the object loop (all
groups, attributes and faces), without a `mtllib` record, and no material document is
written; the failure indicator is set and `TorqueMain` returns 1. -/
theorem mtl_open_failure (P : Platform) (e : Engine) (argv : List String) (tss : TSShape)
    (hargs : ¬ usageError P argv)
    (hsrc : P.srcStreamRead (srcPath P argv) = some tss)
    (hdest : P.destStreamOpens (destPath P argv) = true)
    (hmtl : P.mtlStreamOpens (mtlPath P argv) = false) :
    TorqueMain P e argv
      = (exportGeometry e tss).map (fun geometry =>
          { status := 1, usagePrinted := false,
            opened := [srcPath P argv, destPath P argv, mtlPath P argv],
            dest := some geometry.1, mtl := none }) ∧
    (∀ geometry, exportGeometry e tss = .ok geometry →
      ∀ file, Line.mtllib file ∉ geometry.1) := by
  constructor
  · unfold TorqueMain
    rw [if_neg hargs, hsrc]
    simp only [hdest, if_true, hmtl, exportShape_eq]
    cases exportGeometry e tss <;> rfl
  · intro geometry hgeo
    exact exportGeometry_no_mtllib e tss geometry.1 geometry.2 hgeo

/-- C11, amended, on `sampleShape` read from `model.dts`. -/
theorem mtl_open_failure_witness :
    TorqueMain (samplePlatform sampleShape true true false) sampleEngine ["dts2obj", "model.dts"]
      = (exportGeometry sampleEngine sampleShape).map (fun geometry =>
          { status := 1, usagePrinted := false,
            opened := [srcPath (samplePlatform sampleShape true true false)
                ["dts2obj", "model.dts"],
              destPath (samplePlatform sampleShape true true false) ["dts2obj", "model.dts"],
              mtlPath (samplePlatform sampleShape true true false) ["dts2obj", "model.dts"]],
            dest := some geometry.1, mtl := none }) ∧
    (∀ geometry, exportGeometry sampleEngine sampleShape = .ok geometry →
      ∀ file, Line.mtllib file ∉ geometry.1) :=
  mtl_open_failure (samplePlatform sampleShape true true false) sampleEngine
    ["dts2obj", "model.dts"] sampleShape (by decide) (by decide) (by decide) (by decide)

/-- C12. `TorqueMain` returns -1, after `printUsage`, when the test of line 83 finds no
valid input path; it returns 1 when the input fails to open for reading and when the
geometry output fails to open for writing.  In these three cases no record is written
to either document and the material library is not opened.  The three values -1, 1
and 0 are distinct, 0 being what a run whose three streams open returns. -/
theorem fatal_failures (P : Platform) (e : Engine) (argv : List String) :
    (usageError P argv →
      TorqueMain P e argv = .ok { status := -1, usagePrinted := true, opened := [],
                                  dest := none, mtl := none }) ∧
    (¬ usageError P argv → P.srcStreamRead (srcPath P argv) = none →
      TorqueMain P e argv = .ok { status := 1, usagePrinted := false,
                                  opened := [srcPath P argv], dest := none, mtl := none }) ∧
    (¬ usageError P argv → ∀ tss, P.srcStreamRead (srcPath P argv) = some tss →
      P.destStreamOpens (destPath P argv) = false →
      TorqueMain P e argv = .ok { status := 1, usagePrinted := false,
                                  opened := [srcPath P argv, destPath P argv],
                                  dest := none, mtl := none }) ∧
    (¬ usageError P argv → ∀ tss, P.srcStreamRead (srcPath P argv) = some tss →
      P.destStreamOpens (destPath P argv) = true →
      P.mtlStreamOpens (mtlPath P argv) = true →
      ∀ out, TorqueMain P e argv = .ok out → out.status = 0) ∧
    ((-1 : Int) ≠ 1 ∧ (-1 : Int) ≠ 0 ∧ (1 : Int) ≠ 0) := by
  refine ⟨?_, ?_, ?_, ?_, by decide⟩
  · intro h
    unfold TorqueMain
    rw [if_pos h]
    rfl
  · intro h hsrc
    unfold TorqueMain
    rw [if_neg h, hsrc]
    rfl
  · intro h tss hsrc hdest
    unfold TorqueMain
    rw [if_neg h, hsrc]
    simp only [hdest]
    rfl
  · intro h tss hsrc hdest hmtl out hrun
    unfold TorqueMain at hrun
    rw [if_neg h, hsrc] at hrun
    simp only [hdest, if_true, hmtl, exportShape_eq] at hrun
    cases hgeo : exportGeometry e tss with
    | error err => rw [hgeo] at hrun; cases hrun
    | ok geometry =>
      rw [hgeo] at hrun
      cases hrun
      rfl

/-- C12 on three runs: no `.dts` argument, an input that does not open, a geometry
output that does not open. -/
theorem fatal_failures_witness :
    TorqueMain (samplePlatform sampleShape true true true) sampleEngine ["dts2obj", "model.obj"]
      = .ok { status := -1, usagePrinted := true, opened := [], dest := none, mtl := none } ∧
    TorqueMain (samplePlatform sampleShape false true true) sampleEngine ["dts2obj", "model.dts"]
      = .ok { status := 1, usagePrinted := false, opened := ["model.dts"],
              dest := none, mtl := none } ∧
    TorqueMain (samplePlatform sampleShape true false true) sampleEngine ["dts2obj", "model.dts"]
      = .ok { status := 1, usagePrinted := false, opened := ["model.dts", "model.obj"],
              dest := none, mtl := none } ∧
    TorqueMain (samplePlatform sampleShape true true true) sampleEngine ["dts2obj", "model.dts"]
      = .ok { status := 0, usagePrinted := false,
              opened := ["model.dts", "model.obj", "model.mtl"],
              dest := some (Line.mtllib "model.mtl" :: sampleDoc), mtl := some [] } ∧
    TorqueMain (samplePlatform sampleShape true true true) sampleEngine ["dts2obj"]
      = .ok { status := -1, usagePrinted := true, opened := [], dest := none, mtl := none } :=
  ⟨by decide, by decide, by decide, by decide,
   (fatal_failures (samplePlatform sampleShape true true true) sampleEngine ["dts2obj"]).1
     (by decide)⟩

/-! ## The material library -/

theorem writeMaterials_eq (e : Engine) :
    ∀ (materialNames : List String),
      writeMaterials e materialNames
        = (foundMaterials e materialNames).flatMap (fun m => fiveLines m.1 m.2) := by
  intro materialNames
  induction materialNames with
  | nil => rfl
  | cons name rest ih =>
    rw [writeMaterials, ih]
    unfold foundMaterials materialRecord
    cases h : e.sFindFile name with
    | none =>
      rw [@List.filterMap_cons_none _ _
        (fun name => (e.sFindFile name).map (fun file => (name, file))) name rest
        (by simp only [h, Option.map_none'])]
      rfl
    | some file =>
      rw [@List.filterMap_cons_some _ _
        (fun name => (e.sFindFile name).map (fun file => (name, file))) name rest (name, file)
        (by simp only [h, Option.map_some'])]
      rfl

theorem foundMaterials_length (e : Engine) :
    ∀ (materialNames : List String),
      (foundMaterials e materialNames).length
        = (materialNames.filter (fun name => (e.sFindFile name).isSome)).length := by
  intro materialNames
  induction materialNames with
  | nil => rfl
  | cons name rest ih =>
    unfold foundMaterials at ih ⊢
    cases h : e.sFindFile name with
    | none =>
      rw [@List.filterMap_cons_none _ _
        (fun name => (e.sFindFile name).map (fun file => (name, file))) name rest
        (by simp only [h, Option.map_none']),
        List.filter_cons_of_neg (by simp [h])]
      exact ih
    | some file =>
      rw [@List.filterMap_cons_some _ _
        (fun name => (e.sFindFile name).map (fun file => (name, file))) name rest (name, file)
        (by simp only [h, Option.map_some']),
        List.filter_cons_of_pos (by simp [h])]
      simp only [List.length_cons, ih]

theorem flatMap_fiveLines_length :
    ∀ (found : List (String × String)),
      (found.flatMap (fun m => fiveLines m.1 m.2)).length = 5 * found.length := by
  intro found
  induction found with
  | nil => rfl
  | cons m rest ih =>
    rw [List.flatMap_cons, List.length_append, ih]
    simp only [fiveLines, List.length_cons, List.length_nil]
    omega

/-- C13. When the material-library output opens, its document is the concatenation,
over the material names in list order, of one record for each name whose image
lookup succeeds and nothing for the others; a record is the five lines `newmtl` with
the name, `Ka 1.000 1.000 1.000`, `Kd 1.000 1.000 1.000`, `map_Ka` and `map_Kd` with the
one resolved file name; the number of records is the number of names whose lookup
succeeds. -/
theorem material_library_contents (e : Engine) (tss : TSShape) (mtlFileName : String) :
    (∀ out, exportShape e tss true mtlFileName = .ok out →
      out.mtl = some (writeMaterials e tss.materialNames)) ∧
    writeMaterials e tss.materialNames
      = (foundMaterials e tss.materialNames).flatMap (fun m =>
          ["newmtl " ++ m.1 ++ "\r\n",
           "Ka 1.000 1.000 1.000\r\n",
           "Kd 1.000 1.000 1.000\r\n",
           "map_Ka " ++ m.2 ++ "\r\n",
           "map_Kd " ++ m.2 ++ "\r\n"]) ∧
    (∀ name file, (name, file) ∈ foundMaterials e tss.materialNames ↔
      name ∈ tss.materialNames ∧ e.sFindFile name = some file) ∧
    (foundMaterials e tss.materialNames).length
      = (tss.materialNames.filter (fun name => (e.sFindFile name).isSome)).length ∧
    (writeMaterials e tss.materialNames).length
      = 5 * (tss.materialNames.filter (fun name => (e.sFindFile name).isSome)).length := by
  refine ⟨?_, ?_, ?_, ?_, ?_⟩
  · intro out hrun
    rw [exportShape_eq] at hrun
    cases hgeo : exportGeometry e tss with
    | error err => rw [hgeo] at hrun; cases hrun
    | ok geometry =>
      rw [hgeo] at hrun
      cases hrun
      rfl
  · exact writeMaterials_eq e tss.materialNames
  · intro name file
    unfold foundMaterials
    rw [List.mem_filterMap]
    constructor
    · rintro ⟨a, ha, hmap⟩
      cases hf : e.sFindFile a with
      | none => rw [hf] at hmap; cases hmap
      | some f =>
        rw [hf] at hmap
        simp only [Option.map_some', Option.some.injEq, Prod.mk.injEq] at hmap
        obtain ⟨h1, h2⟩ := hmap
        subst h1; subst h2
        exact ⟨ha, hf⟩
    · rintro ⟨hmem, hf⟩
      exact ⟨name, hmem, by simp only [hf, Option.map_some']⟩
  · exact foundMaterials_length e tss.materialNames
  · rw [writeMaterials_eq, flatMap_fiveLines_length, foundMaterials_length]

/-- C13 on the material names `stone`, `wood`, `stone` with an engine that finds the
image of `stone` only: two records of five lines, none for `wood`. -/
theorem material_library_contents_witness :
    exportShape pickyEngine materialShape true "sample.mtl"
      = .ok { failed := 0, dest := Line.mtllib "sample.mtl" :: sampleDoc,
              mtl := some
                ["newmtl stone\r\n", "Ka 1.000 1.000 1.000\r\n", "Kd 1.000 1.000 1.000\r\n",
                 "map_Ka stone.png\r\n", "map_Kd stone.png\r\n",
                 "newmtl stone\r\n", "Ka 1.000 1.000 1.000\r\n", "Kd 1.000 1.000 1.000\r\n",
                 "map_Ka stone.png\r\n", "map_Kd stone.png\r\n"] } ∧
    foundMaterials pickyEngine materialShape.materialNames
      = [("stone", "stone.png"), ("stone", "stone.png")] ∧
    (writeMaterials pickyEngine materialShape.materialNames).length
      = 5 * (materialShape.materialNames.filter
          (fun name => (pickyEngine.sFindFile name).isSome)).length :=
  ⟨by decide, by decide,
   (material_library_contents pickyEngine materialShape "sample.mtl").2.2.2.2⟩

/-! ## The order of the records of a mesh -/

/-- The primitive loop writes the records of its primitives one after the other. -/
theorem primitiveLoop_parts (e : Engine) (materialNames : List String) (indices : List Nat)
    (vertOffset : Nat) :
    ∀ (primitives : List TSDrawPrimitive) (lines : List Line),
      primitiveLoop e materialNames indices vertOffset primitives = .ok lines →
      ∃ parts : List (List Line), lines = parts.flatten ∧
        List.Forall₂ (fun primitive part =>
          exportPrimitive e materialNames indices vertOffset primitive = .ok part)
          primitives parts := by
  intro primitives
  induction primitives with
  | nil =>
    intro lines hrun
    rw [primitiveLoop] at hrun
    exact ⟨[], by rw [← pure_ok hrun]; rfl, List.Forall₂.nil⟩
  | cons primitive rest ih =>
    intro lines hrun
    rw [primitiveLoop] at hrun
    obtain ⟨here, hhere, hrun⟩ := bind_ok hrun
    obtain ⟨later, hlater, hrun⟩ := bind_ok hrun
    obtain ⟨parts, hparts, hall⟩ := ih later hlater
    refine ⟨here :: parts, ?_, List.Forall₂.cons hhere hall⟩
    rw [← pure_ok hrun, hparts]
    rfl

theorem BlocksFrom_forall₂ (e : Engine) (materialNames : List String) :
    ∀ (ms : List (e.MatrixF × TSMesh)) (blocks : List (List Line)) (vertOffset : Nat),
      BlocksFrom e materialNames vertOffset ms blocks →
      List.Forall₂ (fun m block =>
        ∃ vo, exportMesh e materialNames m.1 vo m.2 = .ok block) ms blocks := by
  intro ms
  induction ms with
  | nil =>
    intro blocks vertOffset h
    cases blocks with
    | nil => exact List.Forall₂.nil
    | cons b bs => simp [BlocksFrom] at h
  | cons m ms ih =>
    intro blocks vertOffset h
    cases blocks with
    | nil => simp [BlocksFrom] at h
    | cons b bs =>
      simp only [BlocksFrom] at h
      exact List.Forall₂.cons ⟨vertOffset, h.1⟩ (ih bs _ h.2)

/-- The object loop writes, for each object in order, its `g` record and then the blocks
of the meshes of its own range. -/
theorem objectLoop_groups (e : Engine) (tss : TSShape) :
    ∀ (objects : List Object) (vertOffset : Nat) (doc : List Line) (final : Nat),
      objectLoop e tss vertOffset objects = .ok (doc, final) →
      ∃ groups : List (String × List (List Line)),
        doc = renderGroups groups ∧
        List.Forall₂ (fun object group => tss.names[object.nameIndex]? = some group.1 ∧
          List.Forall₂ (fun m block =>
            ∃ vo, exportMesh e tss.materialNames m.1 vo m.2 = .ok block)
            (objectMeshes e tss object) group.2) objects groups := by
  intro objects
  induction objects with
  | nil =>
    intro vertOffset doc final hrun
    rw [objectLoop] at hrun
    have h := pure_ok hrun
    simp only [Prod.mk.injEq] at h
    exact ⟨[], by simp [renderGroups, h.1], List.Forall₂.nil⟩
  | cons object rest ih =>
    intro vertOffset doc final hrun
    rw [objectLoop] at hrun
    obtain ⟨name, hname, hrun⟩ := bind_ok hrun
    obtain ⟨here, hhere, hrun⟩ := bind_ok hrun
    obtain ⟨later, hlater, hrun⟩ := bind_ok hrun
    have h := pure_ok hrun
    simp only [Prod.mk.injEq] at h
    obtain ⟨blocks, hb, hl, _⟩ := meshLoop_blocks e tss _ _ _ here.1 here.2 hhere
    obtain ⟨groups, hdoc, hall⟩ := ih here.2 later.1 later.2 hlater
    have hnm : tss.names[object.nameIndex]? = some name := by
      unfold readName at hname
      cases hk : tss.names[object.nameIndex]? with
      | none => rw [hk] at hname; cases hname
      | some s => rw [hk] at hname; cases hname; rfl
    refine ⟨(name, blocks) :: groups, ?_, List.Forall₂.cons ⟨hnm, ?_⟩ hall⟩
    · rw [← h.1, hl, hdoc]
      simp [renderGroups]
    · exact BlocksFrom_forall₂ e _ _ _ _ hb

/-- C14. The geometry document is, for each object in shape order, the `g` record of
its name and then one block for each mesh of its range that is not `NULL`, in range
order.  A block is: one `v` record for each vertex position, in order, holding the
position after `mulP` with the world transform of the object; then one `vt` record
for each texture coordinate; then one `vn` record for each normal, with the
components as stored; then the records of the primitives, primitive by primitive in
primitive order. -/
theorem mesh_block_order (e : Engine) (tss : TSShape) (doc : List Line) (final : Nat)
    (hrun : exportGeometry e tss = .ok (doc, final)) :
    ∃ groups : List (String × List (List Line)),
      doc = groups.flatMap (fun group => Line.g group.1 :: group.2.flatten) ∧
      List.Forall₂ (fun object group =>
        tss.names[object.nameIndex]? = some group.1 ∧
        List.Forall₂ (fun (m : e.MatrixF × TSMesh) block =>
          m.1 = e.getNodeWorldTransform tss object.nodeIndex ∧
          ∃ (vertOffset : Nat) (parts : List (List Line)),
            block =
              m.2.verts.map (fun vert =>
                Line.v (e.mulP m.1 vert).x (e.mulP m.1 vert).y (e.mulP m.1 vert).z)
              ++ m.2.tverts.map (fun tvert => Line.vt tvert.x (F32.oneMinus tvert.y))
              ++ m.2.norms.map (fun norm => Line.vn norm.x norm.y norm.z)
              ++ parts.flatten ∧
            List.Forall₂ (fun primitive part =>
              exportPrimitive e tss.materialNames m.2.indices vertOffset primitive = .ok part)
              m.2.primitives parts)
          (objectMeshes e tss object) group.2)
        tss.objects groups := by
  unfold exportGeometry at hrun
  obtain ⟨groups, hdoc, hall⟩ := objectLoop_groups e tss _ _ _ _ hrun
  refine ⟨groups, hdoc, ?_⟩
  refine hall.imp ?_
  intro object group hg
  refine ⟨hg.1, ?_⟩
  have hmat : ∀ m ∈ objectMeshes e tss object,
      m.1 = e.getNodeWorldTransform tss object.nodeIndex := by
    intro m hm
    unfold objectMeshes at hm
    rw [List.mem_filterMap] at hm
    obtain ⟨j, _, hj⟩ := hm
    cases hs : tss.meshes.getD j none with
    | none => rw [hs] at hj; cases hj
    | some mesh =>
      rw [hs] at hj
      simp only [Option.map_some', Option.some.injEq] at hj
      rw [← hj]
  have hmem : List.Forall₂ (fun (m : e.MatrixF × TSMesh) (block : List Line) =>
      m ∈ objectMeshes e tss object ∧
        ∃ vo, exportMesh e tss.materialNames m.1 vo m.2 = .ok block)
      (objectMeshes e tss object) group.2 := by
    have hgen : ∀ (ms : List (e.MatrixF × TSMesh)) (bs : List (List Line)),
        List.Forall₂ (fun m block =>
          ∃ vo, exportMesh e tss.materialNames m.1 vo m.2 = .ok block) ms bs →
        List.Forall₂ (fun (m : e.MatrixF × TSMesh) (block : List Line) =>
          m ∈ ms ∧ ∃ vo, exportMesh e tss.materialNames m.1 vo m.2 = .ok block) ms bs := by
      intro ms bs h
      induction h with
      | nil => exact List.Forall₂.nil
      | cons hhead _ ih =>
        refine List.Forall₂.cons ⟨by simp, hhead⟩ (ih.imp ?_)
        intro m block hmb
        exact ⟨List.mem_cons_of_mem _ hmb.1, hmb.2⟩
    exact hgen _ _ hg.2
  refine hmem.imp ?_
  intro m block hmb
  obtain ⟨hm, vo, hexp⟩ := hmb
  refine ⟨hmat m hm, vo, ?_⟩
  unfold exportMesh at hexp
  obtain ⟨faces, hfaces, hexp⟩ := bind_ok hexp
  obtain ⟨parts, hparts, hallp⟩ := primitiveLoop_parts e _ _ _ _ faces hfaces
  refine ⟨parts, ?_, hallp⟩
  rw [← pure_ok hexp, hparts]
  rfl

/-- C14 on `alignedShape`: one group `both` with the blocks of its two meshes, each
block being its `v`, `vt`, `vn` records and then the records of its primitive. -/
theorem mesh_block_order_witness :
    exportGeometry sampleEngine alignedShape = .ok (alignedDoc, 6) ∧
    ∃ groups : List (String × List (List Line)),
      alignedDoc = groups.flatMap (fun group => Line.g group.1 :: group.2.flatten) ∧
      List.Forall₂ (fun object group =>
        alignedShape.names[object.nameIndex]? = some group.1 ∧
        List.Forall₂ (fun (m : sampleEngine.MatrixF × TSMesh) block =>
          m.1 = sampleEngine.getNodeWorldTransform alignedShape object.nodeIndex ∧
          ∃ (vertOffset : Nat) (parts : List (List Line)),
            block =
              m.2.verts.map (fun vert =>
                Line.v (sampleEngine.mulP m.1 vert).x (sampleEngine.mulP m.1 vert).y (sampleEngine.mulP m.1 vert).z)
              ++ m.2.tverts.map (fun tvert => Line.vt tvert.x (F32.oneMinus tvert.y))
              ++ m.2.norms.map (fun norm => Line.vn norm.x norm.y norm.z)
              ++ parts.flatten ∧
            List.Forall₂ (fun primitive part =>
              exportPrimitive sampleEngine alignedShape.materialNames m.2.indices vertOffset primitive = .ok part)
              m.2.primitives parts)
          (objectMeshes sampleEngine alignedShape object) group.2)
        alignedShape.objects groups :=
  ⟨by decide, mesh_block_order sampleEngine alignedShape alignedDoc 6 (by decide)⟩

/-! ## The closed form of the strip loop -/

/-- The candidates of a strip whose two first elements and whose run lie in the buffer. -/
theorem stripCandidates_reference (indices : List Nat) (primitive : TSDrawPrimitive)
    (hlen : primitive.start + primitive.numElements ≤ indices.length)
    (htwo : primitive.start + 2 ≤ indices.length) :
    stripCandidates indices primitive
      = .ok (referenceCandidates indices primitive.start primitive.numElements) := by
  unfold stripCandidates stripRange referenceCandidates
  rw [readIndex_of_lt indices (primitive.start + 0) (by omega),
    readIndex_of_lt indices (primitive.start + 1) (by omega)]
  simp only [bind, Except.bind]
  exact stripCandidatesLoop_closed indices primitive.start _ 2 _ (Nat.le_refl 2) (by omega)
    (by simp [stripInit]) (by intro _; exact ⟨rfl, by simp [stripInit]⟩)
    (by intro h; omega)

/-- C15. For a strip/fan primitive whose run lies in the index buffer, the slot machine
of lines 236 to 252 equals the reference: the candidate of step `l`, for
`l = 2, ..., n - 1`, is `(I[s+l-2], I[s+l-1], I[s+l])` for even `l` and
`(I[s+l-1], I[s+l-2], I[s+l])` for odd `l`, and the records written are those of the
candidates with pairwise distinct indices, in step order.  The code returns them
whenever the two reads in front of the loop are inside the buffer, which holds from
count 2 on, and whatever it returns is the reference.  So at most `n - 2` records are
written, none when `n < 3`, and the candidate of a step depends on the step and the
buffer only, not on the candidates skipped before. -/
theorem strip_closed_form (e : Engine) (indices : List Nat) (vertOffset : Nat)
    (primitive : TSDrawPrimitive)
    (htag : primitive.matIndex &&& e.TypeMask ≠ e.Triangles)
    (hlen : primitive.start + primitive.numElements ≤ indices.length) :
    (primitive.start + 2 ≤ indices.length →
      stripCandidates indices primitive
        = .ok (referenceCandidates indices primitive.start primitive.numElements) ∧
      primitiveFaces e indices vertOffset primitive
        = .ok (referenceStrip indices vertOffset primitive.start primitive.numElements)) ∧
    (2 ≤ primitive.numElements →
      primitiveFaces e indices vertOffset primitive
        = .ok (referenceStrip indices vertOffset primitive.start primitive.numElements)) ∧
    (∀ faces, primitiveFaces e indices vertOffset primitive = .ok faces →
      faces = referenceStrip indices vertOffset primitive.start primitive.numElements) ∧
    (referenceStrip indices vertOffset primitive.start primitive.numElements).length
      ≤ primitive.numElements - 2 ∧
    (primitive.numElements < 3 →
      referenceStrip indices vertOffset primitive.start primitive.numElements = []) ∧
    (∀ l, 2 ≤ l → l < primitive.numElements →
      (referenceCandidates indices primitive.start primitive.numElements)[l - 2]?
        = some (if l % 2 = 0 then
            (indices.getD (primitive.start + l - 2) 0, indices.getD (primitive.start + l - 1) 0,
              indices.getD (primitive.start + l) 0)
          else
            (indices.getD (primitive.start + l - 1) 0, indices.getD (primitive.start + l - 2) 0,
              indices.getD (primitive.start + l) 0))) := by
  have hfirst : primitive.start + 2 ≤ indices.length →
      stripCandidates indices primitive
        = .ok (referenceCandidates indices primitive.start primitive.numElements) ∧
      primitiveFaces e indices vertOffset primitive
        = .ok (referenceStrip indices vertOffset primitive.start primitive.numElements) := by
    intro htwo
    have hc := stripCandidates_reference indices primitive hlen htwo
    refine ⟨hc, ?_⟩
    unfold primitiveFaces
    rw [if_neg htag, stripFaces_eq_candidates, hc]
    rfl
  refine ⟨hfirst, ?_, ?_, ?_, ?_, ?_⟩
  · intro hn
    exact (hfirst (by omega)).2
  · intro faces hrun
    have hall := (primitiveFaces_ok_iff e indices vertOffset primitive).1 ⟨faces, hrun⟩
    unfold primitiveReads at hall
    rw [if_neg htag] at hall
    have h1 := hall (primitive.start + 1) (by simp)
    have h := (hfirst (by omega)).2
    rw [h] at hrun
    cases hrun
    rfl
  · unfold referenceStrip referenceCandidates
    rw [List.length_map]
    refine Nat.le_trans (List.length_filter_le _ _) ?_
    simp
  · intro hn
    have h0 : primitive.numElements - 2 = 0 := by omega
    unfold referenceStrip referenceCandidates
    rw [h0]
    rfl
  · intro l hl hn
    have hk : l - 2 < primitive.numElements - 2 := by omega
    have e1 : 2 + (l - 2) = l := by omega
    unfold referenceCandidates
    rw [List.getElem?_map, List.getElem?_range' _ _ hk]
    simp only [Nat.one_mul, e1, Option.map_some', candidateAt]

/-- C15 on the strip `[10,11,12,12,14,15]`: the candidates of steps 3 and 4 are
skipped and the candidate of step 5 keeps the winding of an odd step. -/
theorem strip_closed_form_witness :
    referenceCandidates [10, 11, 12, 12, 14, 15] 0 6
      = [(10, 11, 12), (12, 11, 12), (12, 12, 14), (14, 12, 15)] ∧
    primitiveFaces sampleEngine [10, 11, 12, 12, 14, 15] 1 ⟨0, 6, 0x40000000⟩
      = .ok [faceRecord 1 10 11 12, faceRecord 1 14 12 15] ∧
    primitiveFaces sampleEngine [10, 11, 12, 12, 14, 15] 1 ⟨0, 6, 0x40000000⟩
      = .ok (referenceStrip [10, 11, 12, 12, 14, 15] 1 0 6) :=
  ⟨by decide, by decide,
   (strip_closed_form sampleEngine [10, 11, 12, 12, 14, 15] 1 ⟨0, 6, 0x40000000⟩
     (by decide) (by decide)).2.1 (by decide)⟩

/-! ## The reads in front of the strip loop -/

/-- From count 2 on, a strip reads inside its run only. -/
theorem stripReads_in_run (e : Engine) (primitive : TSDrawPrimitive)
    (htag : primitive.matIndex &&& e.TypeMask ≠ e.Triangles)
    (hn : 2 ≤ primitive.numElements) :
    ∀ pos ∈ primitiveReads e primitive,
      primitive.start ≤ pos ∧ pos < primitive.start + primitive.numElements := by
  intro pos hpos
  unfold primitiveReads at hpos
  rw [if_neg htag] at hpos
  simp only [List.mem_cons, List.mem_map, stripRange, List.mem_range'_1] at hpos
  rcases hpos with h | h | ⟨l, hl, h⟩ <;> omega

/-- A strip of count 0 or 1 reads the positions `start` and `start + 1`, of which
`start + 1` is outside the run; when the run ends with the buffer the read faults. -/
theorem stripReads_short (e : Engine) (indices : List Nat) (vertOffset : Nat)
    (primitive : TSDrawPrimitive)
    (htag : primitive.matIndex &&& e.TypeMask ≠ e.Triangles)
    (hn : primitive.numElements < 2)
    (hlen : primitive.start + primitive.numElements = indices.length) :
    primitive.start + 1 ∈ primitiveReads e primitive ∧
    ¬ (primitive.start + 1 < primitive.start + primitive.numElements) ∧
    ¬ ∃ faces, primitiveFaces e indices vertOffset primitive = .ok faces := by
  have hmem : primitive.start + 1 ∈ primitiveReads e primitive := by
    unfold primitiveReads
    rw [if_neg htag]
    simp
  refine ⟨hmem, by omega, ?_⟩
  intro hok
  have := (primitiveFaces_ok_iff e indices vertOffset primitive).1 hok _ hmem
  omega

/-- C16, the code at strips of count 1 and 0 whose run lies in the buffer.  On the
buffer `[7]` with start 0 and count 1 the code reads position 1, outside the run and
outside the buffer; on the empty buffer with count 0 it reads position 0; on the buffer
`[5,6,7]` with start 1 and count 0 it reads the positions 1 and 2, outside the empty
run. -/
theorem strip_reads_outside_run :
    (0 + 1 ≤ [7].length ∧
      primitiveFaces sampleEngine [7] 1 ⟨0, 1, 0x40000000⟩ = .error (.indices 1) ∧
      primitiveReads sampleEngine ⟨0, 1, 0x40000000⟩ = [0, 1]) ∧
    (0 + 0 ≤ ([] : List Nat).length ∧
      primitiveFaces sampleEngine [] 1 ⟨0, 0, 0x40000000⟩ = .error (.indices 0) ∧
      primitiveReads sampleEngine ⟨0, 0, 0x40000000⟩ = [0, 1]) ∧
    (1 + 0 ≤ [5, 6, 7].length ∧
      primitiveFaces sampleEngine [5, 6, 7] 1 ⟨1, 0, 0x40000000⟩ = .ok [] ∧
      primitiveReads sampleEngine ⟨1, 0, 0x40000000⟩ = [1, 2]) := by
  decide

/-! ## The argument scan -/

theorem argLoop_output (P : Platform) (argv : List String) (i : Nat) (d : P.Path)
    (hi : i + 1 < argv.length) (heq : P.dStrEqual (argv.getD i "") "--output" = true) :
    argLoop P argv i d = argLoop P argv (i + 2) (P.makeFullPath (argv.getD (i + 1) "")) := by
  rw [argLoop, if_pos hi, if_pos heq]

theorem argLoop_other (P : Platform) (argv : List String) (i : Nat) (d : P.Path)
    (hi : i + 1 < argv.length) (hne : P.dStrEqual (argv.getD i "") "--output" = false) :
    argLoop P argv i d = argLoop P argv (i + 1) d := by
  rw [argLoop, if_pos hi, if_neg (by rw [hne]; decide)]

theorem argLoop_done (P : Platform) (argv : List String) (i : Nat) (d : P.Path)
    (hi : ¬ i + 1 < argv.length) : argLoop P argv i d = (i, d) := by
  rw [argLoop, if_neg hi]

/-- The argument loop ends at the last argument or just beyond it. -/
theorem argLoop_stop (P : Platform) (argv : List String) :
    ∀ (n i : Nat) (d : P.Path), argv.length - i ≤ n →
      ¬ ((argLoop P argv i d).1 + 1 < argv.length) ∧ i ≤ (argLoop P argv i d).1 ∧
      (i ≤ argv.length → (argLoop P argv i d).1 ≤ argv.length) := by
  intro n
  induction n with
  | zero =>
    intro i d hn
    rw [argLoop_done P argv i d (by omega)]
    exact ⟨by simp only; omega, Nat.le_refl _, fun h => h⟩
  | succ n ih =>
    intro i d hn
    by_cases hi : i + 1 < argv.length
    · cases heq : P.dStrEqual (argv.getD i "") "--output" with
      | true =>
        rw [argLoop_output P argv i d hi heq]
        have h := ih (i + 2) (P.makeFullPath (argv.getD (i + 1) "")) (by omega)
        exact ⟨h.1, by omega, fun _ => h.2.2 (by omega)⟩
      | false =>
        rw [argLoop_other P argv i d hi heq]
        have h := ih (i + 1) d (by omega)
        exact ⟨h.1, by omega, fun _ => h.2.2 (by omega)⟩
    · rw [argLoop_done P argv i d hi]
      exact ⟨hi, Nat.le_refl _, fun h => h⟩

/-- When the loop ends beyond the last argument, that argument was taken as the value
of an `--output` in front of it. -/
theorem argLoop_consumed (P : Platform) (argv : List String) :
    ∀ (n i : Nat) (d : P.Path), argv.length - i ≤ n → i < argv.length →
      (argLoop P argv i d).1 = argv.length →
      i + 2 ≤ argv.length ∧
      P.dStrEqual (argv.getD (argv.length - 2) "") "--output" = true ∧
      (argLoop P argv i d).2 = P.makeFullPath (argv.getD (argv.length - 1) "") := by
  intro n
  induction n with
  | zero => intro i d hn hi; omega
  | succ n ih =>
    intro i d hn hi hend
    by_cases hg : i + 1 < argv.length
    · cases heq : P.dStrEqual (argv.getD i "") "--output" with
      | true =>
        rw [argLoop_output P argv i d hg heq] at hend ⊢
        by_cases hlast : i + 2 < argv.length
        · have h := ih (i + 2) _ (by omega) hlast hend
          exact ⟨by omega, h.2.1, h.2.2⟩
        · have e2 : argv.length - 2 = i := by omega
          have e1 : argv.length - 1 = i + 1 := by omega
          rw [argLoop_done P argv (i + 2) _ (by omega), e2, e1]
          exact ⟨by omega, heq, rfl⟩
      | false =>
        rw [argLoop_other P argv i d hg heq] at hend ⊢
        have h := ih (i + 1) d (by omega) hg hend
        exact ⟨by omega, h.2.1, h.2.2⟩
    · rw [argLoop_done P argv i d hg] at hend
      simp only at hend
      omega

/-- Without `--output` among the arguments scanned, `destPath` is left as it was. -/
theorem argLoop_no_output (P : Platform) (argv : List String) :
    ∀ (n i : Nat) (d : P.Path), argv.length - i ≤ n →
      (∀ j, i ≤ j → j + 1 < argv.length → P.dStrEqual (argv.getD j "") "--output" = false) →
      (argLoop P argv i d).2 = d := by
  intro n
  induction n with
  | zero =>
    intro i d hn _
    rw [argLoop_done P argv i d (by omega)]
  | succ n ih =>
    intro i d hn hno
    by_cases hg : i + 1 < argv.length
    · rw [argLoop_other P argv i d hg (hno i (Nat.le_refl _) hg)]
      exact ih (i + 1) d (by omega) (fun j hj hlt => hno j (by omega) hlt)
    · rw [argLoop_done P argv i d hg]

theorem TorqueMain_usage (P : Platform) (e : Engine) (argv : List String)
    (h : usageError P argv) :
    TorqueMain P e argv
      = .ok { status := -1, usagePrinted := true, opened := [], dest := none, mtl := none } := by
  unfold TorqueMain
  rw [if_pos h]
  rfl

theorem exportShape_failed (e : Engine) (tss : TSShape) (mtlOpens : Bool)
    (mtlFileName : String) (out : Exported)
    (hrun : exportShape e tss mtlOpens mtlFileName = .ok out) :
    out.failed = 0 ∨ out.failed = 1 := by
  rw [exportShape_eq] at hrun
  cases hgeo : exportGeometry e tss with
  | error err => rw [hgeo] at hrun; cases hrun
  | ok geometry =>
    rw [hgeo] at hrun
    cases hrun
    cases mtlOpens
    · exact Or.inr rfl
    · exact Or.inl rfl

/-- C17. The scan starts at `i = 1` with an empty `destPath`; while `i < argc - 1` it
takes `argv[i+1]` as the output path and moves on by two when `argv[i]` is `--output`,
and moves on by one otherwise.  It ends at the last argument or, with `i >= argc`,
beyond it: then `argc < 2` or the last argument was taken as the value of `--output`.
`TorqueMain` returns -1 exactly when the scan ends with `i >= argc` or the argument at
which it ends does not end with `.dts`; an input path that is accepted is the last
argument.  Without `--output` among the arguments scanned (and when a path that is
default-constructed is empty) the output path is the input path with the extension
`obj`; the material-library path is the output path with the extension `mtl`. -/
theorem argument_scanning (P : Platform) (e : Engine) (argv : List String) :
    scanArgs P argv = argLoop P argv 1 P.emptyPath ∧
    (∀ i d, i + 1 < argv.length → P.dStrEqual (argv.getD i "") "--output" = true →
      argLoop P argv i d = argLoop P argv (i + 2) (P.makeFullPath (argv.getD (i + 1) ""))) ∧
    (∀ i d, i + 1 < argv.length → P.dStrEqual (argv.getD i "") "--output" = false →
      argLoop P argv i d = argLoop P argv (i + 1) d) ∧
    (∀ i d, ¬ i + 1 < argv.length → argLoop P argv i d = (i, d)) ∧
    ((scanArgs P argv).1 < argv.length → (scanArgs P argv).1 = argv.length - 1) ∧
    (argv.length < 2 → argv.length ≤ (scanArgs P argv).1) ∧
    (argv.length ≤ (scanArgs P argv).1 → argv.length < 2 ∨
      ((scanArgs P argv).1 = argv.length ∧
        P.dStrEqual (argv.getD (argv.length - 2) "") "--output" = true ∧
        (scanArgs P argv).2 = P.makeFullPath (argv.getD (argv.length - 1) ""))) ∧
    ((∃ out, TorqueMain P e argv = .ok out ∧ out.status = -1) ↔
      (argv.length ≤ (scanArgs P argv).1 ∨
        P.dStrEndsWith (argv.getD (scanArgs P argv).1 "") ".dts" = false)) ∧
    (¬ (argv.length ≤ (scanArgs P argv).1 ∨
        P.dStrEndsWith (argv.getD (scanArgs P argv).1 "") ".dts" = false) →
      srcPath P argv = P.makeFullPath (argv.getD (argv.length - 1) "") ∧
      P.dStrEndsWith (argv.getD (argv.length - 1) "") ".dts" = true) ∧
    (P.isEmpty P.emptyPath = true →
      (∀ j, 1 ≤ j → j + 1 < argv.length → P.dStrEqual (argv.getD j "") "--output" = false) →
      destPath P argv = P.setExtension (srcPath P argv) "obj") ∧
    mtlPath P argv = P.setExtension (destPath P argv) "mtl" := by
  have hstop := argLoop_stop P argv _ 1 P.emptyPath (Nat.le_refl _)
  have hlast : (scanArgs P argv).1 < argv.length → (scanArgs P argv).1 = argv.length - 1 := by
    intro h
    unfold scanArgs at h ⊢
    omega
  refine ⟨rfl, ?_, ?_, ?_, hlast, ?_, ?_, ?_, ?_, ?_, rfl⟩
  · intro i d hi heq
    exact argLoop_output P argv i d hi heq
  · intro i d hi hne
    exact argLoop_other P argv i d hi hne
  · intro i d hi
    exact argLoop_done P argv i d hi
  · intro h
    unfold scanArgs
    omega
  · intro h
    rcases Nat.lt_or_ge argv.length 2 with h2 | h2
    · exact Or.inl h2
    · right
      have hle := hstop.2.2 (by omega)
      have heq : (argLoop P argv 1 P.emptyPath).1 = argv.length := by
        unfold scanArgs at h
        omega
      have hc := argLoop_consumed P argv _ 1 P.emptyPath (Nat.le_refl _) (by omega) heq
      exact ⟨heq, hc.2.1, hc.2.2⟩
  · constructor
    · rintro ⟨out, hrun, hstatus⟩
      by_contra hno
      have hno2 : ¬ usageError P argv := hno
      unfold TorqueMain at hrun
      rw [if_neg hno2] at hrun
      cases hsrc : P.srcStreamRead (srcPath P argv) with
      | none =>
        rw [hsrc] at hrun
        cases hrun
        cases hstatus
      | some tss =>
        rw [hsrc] at hrun
        cases hdest : P.destStreamOpens (destPath P argv) with
        | false =>
          simp only [hdest] at hrun
          cases hrun
          cases hstatus
        | true =>
          simp only [hdest, if_true] at hrun
          obtain ⟨exported, hexp, hrun⟩ := bind_ok hrun
          have hout := pure_ok hrun
          rw [← hout] at hstatus
          simp only at hstatus
          rcases exportShape_failed e tss _ _ exported hexp with h | h <;>
            rw [h] at hstatus <;> cases hstatus
    · intro h
      have h2 : usageError P argv := h
      exact ⟨_, ((TorqueMain_usage P e argv) h2), rfl⟩
  · intro hno
    have hlt : (scanArgs P argv).1 < argv.length := by
      rcases Nat.lt_or_ge (scanArgs P argv).1 argv.length with h | h
      · exact h
      · exact absurd (Or.inl h) hno
    have hends : P.dStrEndsWith (argv.getD (scanArgs P argv).1 "") ".dts" = true := by
      cases hd : P.dStrEndsWith (argv.getD (scanArgs P argv).1 "") ".dts" with
      | true => rfl
      | false => exact absurd (Or.inr hd) hno
    unfold srcPath
    rw [hlast hlt] at hends ⊢
    exact ⟨rfl, hends⟩
  · intro hempty hnone
    have hd : (scanArgs P argv).2 = P.emptyPath :=
      argLoop_no_output P argv _ 1 P.emptyPath (Nat.le_refl _) hnone
    unfold destPath
    rw [hd, hempty]
    rfl

/-- C17 on four command lines: an input alone, an input after `--output`, an input in
front of `--output` (refused: the scan ends beyond the last argument), no argument. -/
theorem argument_scanning_witness :
    (scanArgs (samplePlatform sampleShape true true true) ["dts2obj", "model.dts"]
        = (1, "") ∧
      destPath (samplePlatform sampleShape true true true) ["dts2obj", "model.dts"]
        = "model.obj" ∧
      mtlPath (samplePlatform sampleShape true true true) ["dts2obj", "model.dts"]
        = "model.mtl") ∧
    (scanArgs (samplePlatform sampleShape true true true)
        ["dts2obj", "--output", "out.obj", "model.dts"] = (3, "out.obj") ∧
      TorqueMain (samplePlatform sampleShape true true true) sampleEngine
        ["dts2obj", "--output", "out.obj", "model.dts"]
        = .ok { status := 0, usagePrinted := false,
                opened := ["model.dts", "out.obj", "out.mtl"],
                dest := some (Line.mtllib "out.mtl" :: sampleDoc), mtl := some [] }) ∧
    (scanArgs (samplePlatform sampleShape true true true)
        ["dts2obj", "model.dts", "--output", "out.obj"] = (4, "out.obj") ∧
      TorqueMain (samplePlatform sampleShape true true true) sampleEngine
        ["dts2obj", "model.dts", "--output", "out.obj"]
        = .ok { status := -1, usagePrinted := true, opened := [], dest := none,
                mtl := none }) ∧
    (2 ≤ ["dts2obj", "model.dts", "--output", "out.obj"].length →
      ["dts2obj", "model.dts", "--output", "out.obj"].length
        ≤ (scanArgs (samplePlatform sampleShape true true true)
            ["dts2obj", "model.dts", "--output", "out.obj"]).1 →
      (scanArgs (samplePlatform sampleShape true true true)
          ["dts2obj", "model.dts", "--output", "out.obj"]).2 = "out.obj") ∧
    destPath (samplePlatform sampleShape true true true) ["dts2obj", "model.dts"]
      = (samplePlatform sampleShape true true true).setExtension
          (srcPath (samplePlatform sampleShape true true true) ["dts2obj", "model.dts"]) "obj" :=
  ⟨by decide, by decide, by decide, fun _ _ => by decide,
   (argument_scanning (samplePlatform sampleShape true true true) sampleEngine
     ["dts2obj", "model.dts"]).2.2.2.2.2.2.2.2.2.1 (by decide)
     (fun j h1 h2 => absurd h2 (by simp only [List.length_cons, List.length_nil]; omega))⟩

/-! ## The export of a shape of `2^31` vertices -/

theorem hugeVerts_length : hugeVerts.length = 2147483646 := by
  unfold hugeVerts
  exact List.length_replicate _ _

theorem hugeTVerts_length : hugeTVerts.length = 2147483646 := by
  unfold hugeTVerts
  exact List.length_replicate _ _

theorem hugeMesh_verts_length : hugeMesh.verts.length = 2147483646 := hugeVerts_length

theorem hugeMesh_offset : 1 + hugeMesh.verts.length = 2147483647 := by
  rw [hugeMesh_verts_length]

theorem exportMesh_no_primitives (e : Engine) (materialNames : List String) (mat : e.MatrixF)
    (vertOffset : Nat) (mesh : TSMesh) (h : mesh.primitives = []) :
    exportMesh e materialNames mat vertOffset mesh
      = .ok (mesh.verts.map (vertLine e mat) ++ mesh.tverts.map tvertLine
          ++ mesh.norms.map normLine ++ []) := by
  unfold exportMesh
  rw [h]
  rfl

theorem meshLoop_some (e : Engine) (tss : TSShape) (mat : e.MatrixF) (vertOffset j : Nat)
    (js : List Nat) (mesh : TSMesh) (here : List Line) (later : List Line × Nat)
    (hj : tss.meshes[j]? = some (some mesh))
    (hhere : exportMesh e tss.materialNames mat vertOffset mesh = .ok here)
    (hlater : meshLoop e tss mat (vertOffset + mesh.verts.length) js = .ok later) :
    meshLoop e tss mat vertOffset (j :: js) = .ok (here ++ later.1, later.2) := by
  rw [meshLoop]
  unfold readMesh
  rw [hj]
  simp only [bind, Except.bind, hhere, hlater]
  rfl

/-- The geometry of `hugeShape`: the records of `hugeMesh` and then `lastBlock`, the
records of `lastMesh` at `vertOffset = 2147483647`. -/
theorem hugeShape_export :
    exportGeometry sampleEngine hugeShape = .ok (hugeDoc, 2147483649) := by
  have h1 := exportMesh_no_primitives sampleEngine hugeShape.materialNames () 1 hugeMesh rfl
  have h2 : exportMesh sampleEngine hugeShape.materialNames () 2147483647 lastMesh
      = .ok lastBlock := by decide
  have h3 : meshLoop sampleEngine hugeShape () (2147483647 + lastMesh.verts.length) []
      = .ok ([], 2147483649) := rfl
  have h4 := meshLoop_some sampleEngine hugeShape () 2147483647 1 [] lastMesh _ _ rfl h2 h3
  rw [← hugeMesh_offset] at h4
  have h5 := meshLoop_some sampleEngine hugeShape () 1 0 [1] hugeMesh _ _ rfl h1 h4
  unfold exportGeometry
  show objectLoop sampleEngine hugeShape 1 [⟨0, 0, 0, 2⟩] = _
  rw [objectLoop]
  have hname : readName hugeShape.names 0 = .ok "huge" := rfl
  have hrange : meshRange ⟨0, 0, 0, 2⟩ = [0, 1] := rfl
  simp only [hname, hrange, bind, Except.bind]
  have hmat : sampleEngine.getNodeWorldTransform hugeShape 0 = () := rfl
  rw [hmat, h5]
  simp only [objectLoop, pure, Except.pure, List.append_nil, List.append_assoc, hugeDoc]

/-! ## Vertex offsets and the numbers written -/

theorem printedIndex_of_lt (x : Nat) (h : x < 2147483648) : printedIndex x = (x : Int) := by
  unfold printedIndex
  have hm : x % 4294967296 = x := Nat.mod_eq_of_lt (by omega)
  rw [hm, if_pos h]

/-- A triangle loop over a whole number of triangles reads inside its run only. -/
theorem triangleReads_whole :
    ∀ (m l : Nat), ∀ pos ∈ triangleReads (l + 3 * m) l, l ≤ pos ∧ pos < l + 3 * m := by
  intro m
  induction m with
  | zero =>
    intro l pos hpos
    rw [triangleReads, if_neg (by omega)] at hpos
    cases hpos
  | succ m ih =>
    intro l pos hpos
    rw [triangleReads, if_pos (by omega)] at hpos
    simp only [List.mem_cons] at hpos
    rcases hpos with h | h | h | h
    · omega
    · omega
    · omega
    · have e1 : l + 3 * (m + 1) = (l + 3) + 3 * m := by omega
      rw [e1] at h
      have := ih (l + 3) pos h
      omega

/-- A strip of count 0 or 1 writes no face record. -/
theorem stripFaces_short (indices : List Nat) (vertOffset : Nat) (primitive : TSDrawPrimitive)
    (faces : List Line) (hn : primitive.numElements < 2)
    (hrun : stripFaces indices vertOffset primitive = .ok faces) : faces = [] := by
  unfold stripFaces at hrun
  obtain ⟨idx0, _, hrun⟩ := bind_ok hrun
  obtain ⟨idx2, _, hrun⟩ := bind_ok hrun
  have hr : stripRange primitive.numElements = [] := by
    unfold stripRange
    have h0 : primitive.numElements - 2 = 0 := by omega
    rw [h0]
    rfl
  rw [hr, stripLoop] at hrun
  exact (pure_ok hrun).symm

/-- The face records of a primitive whose triangle list, if it is one, is whole carry
buffer values of its run. -/
theorem primitiveFaces_values_run (e : Engine) (indices : List Nat) (vertOffset : Nat)
    (P : Nat → Prop) (primitive : TSDrawPrimitive) (faces : List Line)
    (hrun : primitiveFaces e indices vertOffset primitive = .ok faces)
    (hwhole : primitive.matIndex &&& e.TypeMask = e.Triangles → 3 ∣ primitive.numElements)
    (hvals : ∀ pos, primitive.start ≤ pos → pos < primitive.start + primitive.numElements →
      ∀ idx, indices[pos]? = some idx → P idx) :
    ∀ line ∈ faces, ∃ a b c, line = faceRecord vertOffset a b c ∧ P a ∧ P b ∧ P c := by
  by_cases htag : primitive.matIndex &&& e.TypeMask = e.Triangles
  · obtain ⟨m, hm⟩ := hwhole htag
    refine primitiveFaces_values e indices vertOffset P primitive faces hrun ?_
    intro pos hpos idx hidx
    unfold primitiveReads at hpos
    rw [if_pos htag, hm] at hpos
    have hin := triangleReads_whole m primitive.start pos hpos
    exact hvals pos hin.1 (by omega) idx hidx
  · by_cases hn : 2 ≤ primitive.numElements
    · refine primitiveFaces_values e indices vertOffset P primitive faces hrun ?_
      intro pos hpos idx hidx
      have hin := stripReads_in_run e primitive htag hn pos hpos
      exact hvals pos hin.1 hin.2 idx hidx
    · unfold primitiveFaces at hrun
      rw [if_neg htag] at hrun
      have hnil := stripFaces_short indices vertOffset primitive faces (by omega) hrun
      intro line hline
      rw [hnil] at hline
      cases hline

theorem primitiveLoop_mem_run (e : Engine) (materialNames : List String) (indices : List Nat)
    (vertOffset : Nat) (P : Nat → Prop) :
    ∀ (primitives : List TSDrawPrimitive) (lines : List Line),
      primitiveLoop e materialNames indices vertOffset primitives = .ok lines →
      (∀ primitive ∈ primitives, primitive.matIndex &&& e.TypeMask = e.Triangles →
        3 ∣ primitive.numElements) →
      (∀ primitive ∈ primitives, ∀ pos, primitive.start ≤ pos →
        pos < primitive.start + primitive.numElements → ∀ idx,
        indices[pos]? = some idx → P idx) →
      ∀ line ∈ lines, (∃ name, line = Line.usemtl name) ∨
        ∃ a b c, line = faceRecord vertOffset a b c ∧ P a ∧ P b ∧ P c := by
  intro primitives
  induction primitives with
  | nil =>
    intro lines hrun _ _ line hline
    rw [primitiveLoop] at hrun
    rw [← pure_ok hrun] at hline
    cases hline
  | cons primitive rest ih =>
    intro lines hrun hwhole hvals line hline
    rw [primitiveLoop] at hrun
    obtain ⟨here, hhere, hrun⟩ := bind_ok hrun
    obtain ⟨later, hlater, hrun⟩ := bind_ok hrun
    rw [← pure_ok hrun] at hline
    rcases List.mem_append.1 hline with h | h
    · unfold exportPrimitive at hhere
      obtain ⟨material, hmat, hhere⟩ := bind_ok hhere
      obtain ⟨faces, hfaces, hhere⟩ := bind_ok hhere
      rw [← pure_ok hhere] at h
      rcases List.mem_append.1 h with h | h
      · exact Or.inl (materialLines_mem e materialNames primitive material hmat line h)
      · exact Or.inr (primitiveFaces_values_run e indices vertOffset P primitive faces hfaces
          (hwhole primitive (by simp)) (hvals primitive (by simp)) line h)
    · exact ih later hlater (fun q hq => hwhole q (by simp [hq]))
        (fun q hq => hvals q (by simp [hq])) line h

/-- With whole triangle lists and run values below the vertex count, every field of
every face record written for a mesh lies between `vertOffset` and
`vertOffset + numVerts - 1`. -/
theorem exportMesh_face_range_run (e : Engine) (materialNames : List String) (mat : e.MatrixF)
    (vertOffset : Nat) (mesh : TSMesh) (block : List Line)
    (hrun : exportMesh e materialNames mat vertOffset mesh = .ok block)
    (hwhole : TriangleListsWhole e mesh) (hruns : RunIndicesInRange mesh) :
    ∀ v0 t0 n0 v1 t1 n1 v2 t2 n2, Line.f v0 t0 n0 v1 t1 n1 v2 t2 n2 ∈ block →
      ∀ x ∈ [v0, t0, n0, v1, t1, n1, v2, t2, n2],
        vertOffset ≤ x ∧ x ≤ vertOffset + mesh.verts.length - 1 := by
  intro v0 t0 n0 v1 t1 n1 v2 t2 n2 hline x hx
  unfold exportMesh at hrun
  obtain ⟨faces, hfaces, hrun⟩ := bind_ok hrun
  rw [← pure_ok hrun] at hline
  simp only [List.mem_append, List.mem_map, vertLine, tvertLine, normLine] at hline
  have hmem : Line.f v0 t0 n0 v1 t1 n1 v2 t2 n2 ∈ faces := by
    rcases hline with ((⟨_, _, h⟩ | ⟨_, _, h⟩) | ⟨_, _, h⟩) | h
    · cases h
    · cases h
    · cases h
    · exact h
  rcases primitiveLoop_mem_run e materialNames mesh.indices vertOffset
      (fun idx => idx < mesh.verts.length) mesh.primitives faces hfaces hwhole hruns _ hmem with
    ⟨name, h⟩ | ⟨a, b, c, h, ha, hb, hc⟩
  · cases h
  · unfold faceRecord at h
    injection h with e0 e1 e2 e3 e4 e5 e6 e7 e8
    simp only [List.mem_cons, List.mem_singleton, List.not_mem_nil, or_false] at hx
    rcases hx with h | h | h | h | h | h | h | h | h <;> subst h <;> omega

theorem numVertsSum_take_le (e : Engine) (ms : List (e.MatrixF × TSMesh)) (k : Nat) :
    numVertsSum e (ms.take k) ≤ numVertsSum e ms := by
  have h := numVertsSum_append e (ms.take k) (ms.drop k)
  rw [List.take_append_drop] at h
  omega

/-- The offset after mesh `i` is the offset before it plus its vertex count, and is at
most the final offset. -/
theorem offsetBefore_succ (e : Engine) (ms : List (e.MatrixF × TSMesh)) (i : Nat)
    (m : e.MatrixF × TSMesh) (hm : ms[i]? = some m) :
    offsetBefore e ms (i + 1) = offsetBefore e ms i + m.2.verts.length ∧
    offsetBefore e ms (i + 1) ≤ offsetBefore e ms ms.length := by
  constructor
  · unfold offsetBefore
    rw [List.take_succ, hm, Option.toList_some, numVertsSum_append, numVertsSum_cons,
      numVertsSum_nil]
    omega
  · unfold offsetBefore
    have h1 := numVertsSum_take_le e ms (i + 1)
    rw [List.take_length]
    omega

/-- The values of the runs are below the vertex count when this holds of the values of
each run taken as a list. -/
theorem RunIndicesInRange_of_runs (mesh : TSMesh)
    (h : ∀ primitive ∈ mesh.primitives,
      ∀ idx ∈ (mesh.indices.drop primitive.start).take primitive.numElements,
        idx < mesh.verts.length) : RunIndicesInRange mesh := by
  intro primitive hp pos h1 h2 idx hidx
  apply h primitive hp
  rw [List.mem_iff_getElem?]
  refine ⟨pos - primitive.start, ?_⟩
  have e1 : primitive.start + (pos - primitive.start) = pos := by omega
  rw [List.getElem?_take_of_lt (by omega), List.getElem?_drop, e1]
  exact hidx

/-- C3 as stated fails in two ways.  With every value of the run below the vertex
count, the triangle list of count 4 of `overrunMesh` (4 vertices) still writes the
index 100, outside `[1,4]`: its second pass reads behind the run.  And `lastMesh`
(2 vertices, values 0 and 1) is processed with `vertOffset = 2147483647` after the
`2^31 - 2` vertices of `hugeMesh`: the sum for local index 1 is `2147483648` and the
number written is `-2147483648`, outside `[2147483647, 2147483648]`. -/
theorem vertex_offset_ranges_counterexample :
    (RunIndicesInRange overrunMesh ∧
      exportGeometry sampleEngine overrunShape = .ok (overrunDoc, 5) ∧
      Line.f 4 4 4 100 100 100 100 100 100 ∈ overrunDoc ∧
      printedIndex 100 = 100 ∧ ¬ ((100 : Int) ≤ 1 + 4 - 1)) ∧
    (RunIndicesInRange lastMesh ∧ TriangleListsWhole sampleEngine lastMesh ∧
      1 + hugeMesh.verts.length = 2147483647 ∧
      exportMesh sampleEngine [] () 2147483647 lastMesh = .ok lastBlock ∧
      (exportGeometry sampleEngine hugeShape = .ok (hugeDoc, 2147483649) ∧
        Line.f 2147483647 2147483647 2147483647 2147483648 2147483648 2147483648
          2147483647 2147483647 2147483647 ∈ hugeDoc) ∧
      printedIndex 2147483648 = -2147483648 ∧
      ¬ ((2147483647 : Int) ≤ -2147483648)) := by
  refine ⟨⟨?_, by decide, by decide, by decide, by decide⟩,
    ⟨?_, ?_, hugeMesh_offset, by decide, ?_, by decide, by decide⟩⟩
  · exact RunIndicesInRange_of_runs _ (by decide)
  · exact RunIndicesInRange_of_runs _ (by decide)
  · unfold TriangleListsWhole
    decide
  · exact ⟨hugeShape_export, by simp [hugeDoc, lastBlock]⟩

/-- C3, amended. In an export whose final `vertOffset` is below `2^31`: `vertOffset`
starts at 1.  The geometry document consists, for each object in order, of its `g`
record and one block for each mesh of its range that is not `NULL`; block `i` is what
`exportMesh` writes with `vertOffset` equal to 1 plus the vertex counts of the meshes
processed before; the next range starts where this one ends, the final `vertOffset` is
1 plus all the vertex counts, and every value that `vertOffset` takes is below `2^31`.
For a mesh whose triangle lists have counts that are multiples of 3 and whose runs
`[start, start + numElements)` hold values below its vertex count, every index of the
face records of its block is written as it stands and lies in
`[vertOffset, vertOffset + numVerts - 1]`. -/
theorem vertex_offset_ranges (e : Engine) (tss : TSShape) (doc : List Line) (final : Nat)
    (hrun : exportGeometry e tss = .ok (doc, final)) (hfit : final < 2147483648) :
    ∃ groups : List (String × List (List Line)),
      doc = renderGroups groups ∧
      List.Forall₂ (fun object group => group.2.length = (objectMeshes e tss object).length)
        tss.objects groups ∧
      final = offsetBefore e (processedMeshes e tss tss.objects)
        (processedMeshes e tss tss.objects).length ∧
      offsetBefore e (processedMeshes e tss tss.objects) 0 = 1 ∧
      ∀ i m, (processedMeshes e tss tss.objects)[i]? = some m →
        offsetBefore e (processedMeshes e tss tss.objects) (i + 1)
          = offsetBefore e (processedMeshes e tss tss.objects) i + m.2.verts.length ∧
        offsetBefore e (processedMeshes e tss tss.objects) (i + 1) < 2147483648 ∧
        ∃ block, (groups.flatMap (fun group => group.2))[i]? = some block ∧
          exportMesh e tss.materialNames m.1
            (offsetBefore e (processedMeshes e tss tss.objects) i) m.2 = .ok block ∧
          (TriangleListsWhole e m.2 → RunIndicesInRange m.2 →
            ∀ v0 t0 n0 v1 t1 n1 v2 t2 n2, Line.f v0 t0 n0 v1 t1 n1 v2 t2 n2 ∈ block →
              ∀ x ∈ [v0, t0, n0, v1, t1, n1, v2, t2, n2],
                printedIndex x = (x : Int) ∧
                offsetBefore e (processedMeshes e tss tss.objects) i ≤ x ∧
                x ≤ offsetBefore e (processedMeshes e tss tss.objects) i
                  + m.2.verts.length - 1) := by
  unfold exportGeometry at hrun
  obtain ⟨groups, hdoc, hall, hblocks, hfinal⟩ := objectLoop_layout e tss _ _ _ _ hrun
  have hlast : final = offsetBefore e (processedMeshes e tss tss.objects)
      (processedMeshes e tss tss.objects).length := by
    rw [hfinal]; simp [offsetBefore]
  refine ⟨groups, hdoc, ?_, hlast, ?_, ?_⟩
  · exact hall.imp (fun _ _ h => h.2)
  · simp [offsetBefore, numVertsSum_nil]
  · intro i m hm
    obtain ⟨block, hb, hexp⟩ := BlocksFrom_get e _ _ _ _ hblocks i m hm
    have hsucc := offsetBefore_succ e _ i m hm
    have hone : 1 ≤ offsetBefore e (processedMeshes e tss tss.objects) i := by
      unfold offsetBefore
      omega
    refine ⟨hsucc.1, by omega, block, hb, hexp, ?_⟩
    intro hwhole hruns v0 t0 n0 v1 t1 n1 v2 t2 n2 hline x hx
    have hrange : offsetBefore e (processedMeshes e tss tss.objects) i ≤ x ∧
        x ≤ offsetBefore e (processedMeshes e tss tss.objects) i + m.2.verts.length - 1 :=
      exportMesh_face_range_run e _ _ _ _ block hexp hwhole hruns
        v0 t0 n0 v1 t1 n1 v2 t2 n2 hline x hx
    exact ⟨printedIndex_of_lt x (by omega), hrange.1, hrange.2⟩

/-- C3 at two meshes of 10 and 7 vertices (with a `NULL` slot between them), both with
run values below their vertex counts and no triangle list with a remainder: the face
records of the first carry indices in `[1,10]`, those of the second in `[11,17]`, and
the final `vertOffset` is 18. -/
theorem vertex_offset_ranges_witness :
    exportGeometry sampleEngine sampleShape = .ok (sampleDoc, 18) ∧
    offsetBefore sampleEngine sampleMeshes 1 = 11 ∧
    (∀ mesh ∈ [sampleMesh10, sampleMesh7],
      TriangleListsWhole sampleEngine mesh ∧ RunIndicesInRange mesh) ∧
    ∃ groups : List (String × List (List Line)),
      sampleDoc = renderGroups groups ∧
      List.Forall₂ (fun object group =>
          group.2.length = (objectMeshes sampleEngine sampleShape object).length)
        sampleShape.objects groups ∧
      18 = offsetBefore sampleEngine sampleMeshes sampleMeshes.length ∧
      offsetBefore sampleEngine sampleMeshes 0 = 1 ∧
      ∀ i m, sampleMeshes[i]? = some m →
        offsetBefore sampleEngine sampleMeshes (i + 1)
          = offsetBefore sampleEngine sampleMeshes i + m.2.verts.length ∧
        offsetBefore sampleEngine sampleMeshes (i + 1) < 2147483648 ∧
        ∃ block, (groups.flatMap (fun group => group.2))[i]? = some block ∧
          exportMesh sampleEngine sampleShape.materialNames m.1
            (offsetBefore sampleEngine sampleMeshes i) m.2 = .ok block ∧
          (TriangleListsWhole sampleEngine m.2 → RunIndicesInRange m.2 →
            ∀ v0 t0 n0 v1 t1 n1 v2 t2 n2, Line.f v0 t0 n0 v1 t1 n1 v2 t2 n2 ∈ block →
              ∀ x ∈ [v0, t0, n0, v1, t1, n1, v2, t2, n2],
                printedIndex x = (x : Int) ∧
                offsetBefore sampleEngine sampleMeshes i ≤ x ∧
                x ≤ offsetBefore sampleEngine sampleMeshes i + m.2.verts.length - 1) :=
  ⟨by decide, by decide,
   by
    intro mesh hmesh
    simp only [List.mem_cons, List.mem_singleton, List.not_mem_nil, or_false] at hmesh
    rcases hmesh with h | h <;> subst h
    · exact ⟨by unfold TriangleListsWhole; decide,
        RunIndicesInRange_of_runs _ (by decide)⟩
    · exact ⟨by unfold TriangleListsWhole; decide,
        RunIndicesInRange_of_runs _ (by decide)⟩,
   vertex_offset_ranges sampleEngine sampleShape sampleDoc 18 (by decide) (by decide)⟩

/-! ## Alignment and the numbers written -/

/-- Every record of the primitive loop is a material switch or a face record of one of
the primitives, made of buffer values at positions that this primitive reads. -/
theorem primitiveLoop_faces_reads (e : Engine) (materialNames : List String)
    (indices : List Nat) (vertOffset : Nat) :
    ∀ (primitives : List TSDrawPrimitive) (lines : List Line),
      primitiveLoop e materialNames indices vertOffset primitives = .ok lines →
      ∀ line ∈ lines, (∃ name, line = Line.usemtl name) ∨
        ∃ primitive ∈ primitives, ∃ a b c, line = faceRecord vertOffset a b c ∧
          ∀ t ∈ [a, b, c], ∃ pos ∈ primitiveReads e primitive, indices[pos]? = some t := by
  intro primitives
  induction primitives with
  | nil =>
    intro lines hrun line hline
    rw [primitiveLoop] at hrun
    rw [← pure_ok hrun] at hline
    cases hline
  | cons primitive rest ih =>
    intro lines hrun line hline
    rw [primitiveLoop] at hrun
    obtain ⟨here, hhere, hrun⟩ := bind_ok hrun
    obtain ⟨later, hlater, hrun⟩ := bind_ok hrun
    rw [← pure_ok hrun] at hline
    rcases List.mem_append.1 hline with h | h
    · unfold exportPrimitive at hhere
      obtain ⟨material, hmat, hhere⟩ := bind_ok hhere
      obtain ⟨faces, hfaces, hhere⟩ := bind_ok hhere
      rw [← pure_ok hhere] at h
      rcases List.mem_append.1 h with h | h
      · exact Or.inl (materialLines_mem e materialNames primitive material hmat line h)
      · obtain ⟨a, b, c, hl, ha, hb, hc⟩ := primitiveFaces_values e indices vertOffset
          (fun t => ∃ pos ∈ primitiveReads e primitive, indices[pos]? = some t)
          primitive faces hfaces (fun pos hpos idx hidx => ⟨pos, hpos, hidx⟩) line h
        refine Or.inr ⟨primitive, by simp, a, b, c, hl, ?_⟩
        intro t ht
        simp only [List.mem_cons, List.mem_singleton, List.not_mem_nil, or_false] at ht
        rcases ht with h | h | h <;> subst h <;> assumption
    · rcases ih later hlater line h with h | ⟨q, hq, rest2⟩
      · exact Or.inl h
      · exact Or.inr ⟨q, by simp [hq], rest2⟩

/-- Every face record of a mesh block is written by `faceRecord` at its `vertOffset`
from buffer values at positions that one primitive of the mesh reads. -/
theorem exportMesh_faces_reads (e : Engine) (materialNames : List String) (mat : e.MatrixF)
    (vertOffset : Nat) (mesh : TSMesh) (block : List Line)
    (hrun : exportMesh e materialNames mat vertOffset mesh = .ok block) :
    ∀ v0 t0 n0 v1 t1 n1 v2 t2 n2, Line.f v0 t0 n0 v1 t1 n1 v2 t2 n2 ∈ block →
      ∃ primitive ∈ mesh.primitives, ∃ a b c,
        (∀ t ∈ [a, b, c], ∃ pos ∈ primitiveReads e primitive, mesh.indices[pos]? = some t) ∧
        Line.f v0 t0 n0 v1 t1 n1 v2 t2 n2 = faceRecord vertOffset a b c := by
  intro v0 t0 n0 v1 t1 n1 v2 t2 n2 hline
  unfold exportMesh at hrun
  obtain ⟨faces, hfaces, hrun⟩ := bind_ok hrun
  rw [← pure_ok hrun] at hline
  simp only [List.mem_append, List.mem_map, vertLine, tvertLine, normLine] at hline
  have hmem : Line.f v0 t0 n0 v1 t1 n1 v2 t2 n2 ∈ faces := by
    rcases hline with ((⟨_, _, h⟩ | ⟨_, _, h⟩) | ⟨_, _, h⟩) | h
    · cases h
    · cases h
    · cases h
    · exact h
  rcases primitiveLoop_faces_reads e materialNames mesh.indices vertOffset mesh.primitives
      faces hfaces _ hmem with ⟨name, h⟩ | ⟨primitive, hp, a, b, c, hl, hreads⟩
  · cases h
  · exact ⟨primitive, hp, a, b, c, hreads, hl⟩

/-- The `v` records of `hugeDoc`: those of `hugeMesh` and the two of `lastMesh`. -/
theorem hugeDoc_filter_isV :
    hugeDoc.filter Line.isV
      = hugeMesh.verts.map (vertLine sampleEngine ())
        ++ [Line.v F32.zero F32.zero F32.zero, Line.v F32.zero F32.zero F32.zero] := by
  unfold hugeDoc
  rw [List.filter_cons_of_neg (by decide), List.filter_append, List.filter_append,
    List.filter_append, filter_map_all _ _ _ (fun _ => rfl),
    filter_map_none _ _ _ (fun _ => rfl), filter_map_none _ _ _ (fun _ => rfl)]
  rfl

/-- C4 as stated fails on `hugeShape`, whose meshes have as many texture coordinates
and normals as positions: local index 1 of `lastMesh` is a position of the mesh, its
record is the `v` record of ordinal `2147483648` of the document, and the face record
of the mesh carries for it the sum `1 + 2147483647`, which is written as
`-2147483648`. -/
theorem global_index_alignment_counterexample :
    (∀ mesh ∈ [hugeMesh, lastMesh],
      mesh.tverts.length = mesh.verts.length ∧ mesh.norms.length = mesh.verts.length) ∧
    exportGeometry sampleEngine hugeShape = .ok (hugeDoc, 2147483649) ∧
    lastMesh.verts[1]? = some originVert ∧
    (hugeDoc.filter Line.isV)[2147483648 - 1]? = some (vertLine sampleEngine () originVert) ∧
    Line.f 2147483647 2147483647 2147483647 (1 + 2147483647) (1 + 2147483647)
      (1 + 2147483647) 2147483647 2147483647 2147483647 ∈ hugeDoc ∧
    printedIndex (1 + 2147483647) = -2147483648 ∧
    printedIndex (1 + 2147483647) ≠ 2147483648 := by
  refine ⟨?_, hugeShape_export, rfl, ?_, by simp [hugeDoc, lastBlock], by decide, by decide⟩
  · intro mesh hmesh
    simp only [List.mem_cons, List.mem_singleton, List.not_mem_nil, or_false] at hmesh
    rcases hmesh with h | h <;> subst h
    · exact ⟨by rw [hugeMesh_verts_length]; exact hugeTVerts_length,
        by rw [hugeMesh_verts_length]; exact hugeVerts_length⟩
    · exact ⟨rfl, rfl⟩
  · rw [hugeDoc_filter_isV, List.getElem?_append_right (by
      rw [List.length_map, hugeMesh_verts_length]; decide)]
    rw [List.length_map, hugeMesh_verts_length]
    rfl

/-- C4, amended. In an export whose final `vertOffset` is below `2^31`: every face
record of a mesh block has the form `a/a/a b/b/b c/c/c`, each field being the sum of the
`vertOffset` of the block and a buffer value at a position that one primitive of the
mesh reads; the sum for a local index `t` that is a position of the mesh is written as
it stands and is the 1-based ordinal, among all `v` records of the document, of the
record of position `t` of that mesh; and when every processed mesh has as many texture
coordinates and normals as positions, the same holds among the `vt` records and among
the `vn` records. -/
theorem global_index_alignment (e : Engine) (tss : TSShape) (doc : List Line) (final : Nat)
    (hrun : exportGeometry e tss = .ok (doc, final)) (hfit : final < 2147483648) :
    ∃ groups : List (String × List (List Line)),
      doc = renderGroups groups ∧
      (groups.flatMap (fun group => group.2)).length
        = (processedMeshes e tss tss.objects).length ∧
      ∀ i m, (processedMeshes e tss tss.objects)[i]? = some m →
        ∃ block, (groups.flatMap (fun group => group.2))[i]? = some block ∧
          (∀ v0 t0 n0 v1 t1 n1 v2 t2 n2, Line.f v0 t0 n0 v1 t1 n1 v2 t2 n2 ∈ block →
            ∃ primitive ∈ m.2.primitives, ∃ a b c,
              (∀ t ∈ [a, b, c], ∃ pos ∈ primitiveReads e primitive,
                m.2.indices[pos]? = some t) ∧
              Line.f v0 t0 n0 v1 t1 n1 v2 t2 n2
                = Line.f
                  (a + offsetBefore e (processedMeshes e tss tss.objects) i)
                  (a + offsetBefore e (processedMeshes e tss tss.objects) i)
                  (a + offsetBefore e (processedMeshes e tss tss.objects) i)
                  (b + offsetBefore e (processedMeshes e tss tss.objects) i)
                  (b + offsetBefore e (processedMeshes e tss tss.objects) i)
                  (b + offsetBefore e (processedMeshes e tss tss.objects) i)
                  (c + offsetBefore e (processedMeshes e tss tss.objects) i)
                  (c + offsetBefore e (processedMeshes e tss tss.objects) i)
                  (c + offsetBefore e (processedMeshes e tss tss.objects) i)) ∧
          (∀ t vert, m.2.verts[t]? = some vert →
            printedIndex (t + offsetBefore e (processedMeshes e tss tss.objects) i)
              = ((t + offsetBefore e (processedMeshes e tss tss.objects) i : Nat) : Int) ∧
            1 ≤ t + offsetBefore e (processedMeshes e tss tss.objects) i ∧
            (doc.filter Line.isV)[t + offsetBefore e (processedMeshes e tss tss.objects) i - 1]?
              = some (vertLine e m.1 vert)) ∧
          ((∀ m2 ∈ processedMeshes e tss tss.objects,
              m2.2.tverts.length = m2.2.verts.length ∧
              m2.2.norms.length = m2.2.verts.length) →
            (∀ t tvert, m.2.tverts[t]? = some tvert →
              printedIndex (t + offsetBefore e (processedMeshes e tss tss.objects) i)
                = ((t + offsetBefore e (processedMeshes e tss tss.objects) i : Nat) : Int) ∧
              1 ≤ t + offsetBefore e (processedMeshes e tss tss.objects) i ∧
              (doc.filter Line.isVt)[t
                  + offsetBefore e (processedMeshes e tss tss.objects) i - 1]?
                = some (tvertLine tvert)) ∧
            (∀ t norm, m.2.norms[t]? = some norm →
              printedIndex (t + offsetBefore e (processedMeshes e tss tss.objects) i)
                = ((t + offsetBefore e (processedMeshes e tss tss.objects) i : Nat) : Int) ∧
              1 ≤ t + offsetBefore e (processedMeshes e tss tss.objects) i ∧
              (doc.filter Line.isVn)[t
                  + offsetBefore e (processedMeshes e tss tss.objects) i - 1]?
                = some (normLine norm))) := by
  unfold exportGeometry at hrun
  obtain ⟨groups, hdoc, _, hblocks, hfinal⟩ := objectLoop_layout e tss _ _ _ _ hrun
  have hlast : final = offsetBefore e (processedMeshes e tss tss.objects)
      (processedMeshes e tss tss.objects).length := by
    rw [hfinal]; simp [offsetBefore]
  refine ⟨groups, hdoc, BlocksFrom_length e _ _ _ _ hblocks, ?_⟩
  intro i m hm
  obtain ⟨block, hb, hexp⟩ := BlocksFrom_get e _ _ _ _ hblocks i m hm
  have hsucc := offsetBefore_succ e _ i m hm
  have hmem : m ∈ processedMeshes e tss tss.objects := List.mem_iff_getElem?.2 ⟨i, hm⟩
  have hfits : ∀ t, t < m.2.verts.length →
      printedIndex (t + offsetBefore e (processedMeshes e tss tss.objects) i)
          = ((t + offsetBefore e (processedMeshes e tss tss.objects) i : Nat) : Int) ∧
        1 ≤ t + offsetBefore e (processedMeshes e tss tss.objects) i := by
    intro t ht
    refine ⟨printedIndex_of_lt _ (by omega), ?_⟩
    unfold offsetBefore
    omega
  have hoff : offsetBefore e (processedMeshes e tss tss.objects) i
      = 1 + numVertsSum e ((processedMeshes e tss tss.objects).take i) := rfl
  refine ⟨block, hb, ?_, ?_, ?_⟩
  · intro v0 t0 n0 v1 t1 n1 v2 t2 n2 hline
    exact exportMesh_faces_reads e _ _ _ _ block hexp v0 t0 n0 v1 t1 n1 v2 t2 n2 hline
  · intro t vert hvert
    have ht : t < m.2.verts.length := by
      rcases Nat.lt_or_ge t m.2.verts.length with h | h
      · exact h
      · rw [List.getElem?_eq_none h] at hvert; cases hvert
    refine ⟨(hfits t ht).1, (hfits t ht).2, ?_⟩
    rw [hoff]
    have hV : doc.filter Line.isV = (processedMeshes e tss tss.objects).flatMap
        (fun m => m.2.verts.map (vertLine e m.1)) := by
      rw [hdoc, renderGroups_filter Line.isV (fun _ => rfl)]
      exact BlocksFrom_filter e _ Line.isV _
        (fun mat vo mesh blk h => (exportMesh_attributes e _ mat vo mesh blk h).1) _ _ _ hblocks
    have h := getElem?_flatMap_offset (fun m : e.MatrixF × TSMesh =>
      m.2.verts.map (vertLine e m.1)) _ i m t (vertLine e m.1 vert) hm
      (by simp [List.getElem?_map, hvert])
    rw [hV]
    have e1 : t + (1 + numVertsSum e ((processedMeshes e tss tss.objects).take i)) - 1
        = (((processedMeshes e tss tss.objects).take i).map
            (fun a => (a.2.verts.map (vertLine e a.1)).length)).sum + t := by
      simp only [numVertsSum, List.length_map]
      omega
    rw [e1]
    exact h
  · intro hcount
    have hT : ((processedMeshes e tss tss.objects).take i).map
          (fun a => (a.2.tverts.map tvertLine).length)
        = ((processedMeshes e tss tss.objects).take i).map (fun a => a.2.verts.length) := by
      apply List.map_congr_left
      intro a ha
      simp only [List.length_map]
      exact (hcount a (List.mem_of_mem_take ha)).1
    have hN : ((processedMeshes e tss tss.objects).take i).map
          (fun a => (a.2.norms.map normLine).length)
        = ((processedMeshes e tss tss.objects).take i).map (fun a => a.2.verts.length) := by
      apply List.map_congr_left
      intro a ha
      simp only [List.length_map]
      exact (hcount a (List.mem_of_mem_take ha)).2
    refine ⟨?_, ?_⟩
    · intro t tvert htvert
      have ht : t < m.2.verts.length := by
        rw [← (hcount m hmem).1]
        rcases Nat.lt_or_ge t m.2.tverts.length with h | h
        · exact h
        · rw [List.getElem?_eq_none h] at htvert; cases htvert
      refine ⟨(hfits t ht).1, (hfits t ht).2, ?_⟩
      rw [hoff]
      have hVt : doc.filter Line.isVt = (processedMeshes e tss tss.objects).flatMap
          (fun m => m.2.tverts.map tvertLine) := by
        rw [hdoc, renderGroups_filter Line.isVt (fun _ => rfl)]
        exact BlocksFrom_filter e _ Line.isVt _
          (fun mat vo mesh blk h => (exportMesh_attributes e _ mat vo mesh blk h).2.1)
          _ _ _ hblocks
      have h := getElem?_flatMap_offset (fun m : e.MatrixF × TSMesh =>
        m.2.tverts.map tvertLine) _ i m t (tvertLine tvert) hm
        (by simp [List.getElem?_map, htvert])
      rw [hVt]
      have e1 : t + (1 + numVertsSum e ((processedMeshes e tss tss.objects).take i)) - 1
          = (((processedMeshes e tss tss.objects).take i).map
              (fun a => (a.2.tverts.map tvertLine).length)).sum + t := by
        rw [hT]
        simp only [numVertsSum]
        omega
      rw [e1]
      exact h
    · intro t norm hnorm
      have ht : t < m.2.verts.length := by
        rw [← (hcount m hmem).2]
        rcases Nat.lt_or_ge t m.2.norms.length with h | h
        · exact h
        · rw [List.getElem?_eq_none h] at hnorm; cases hnorm
      refine ⟨(hfits t ht).1, (hfits t ht).2, ?_⟩
      rw [hoff]
      have hVn : doc.filter Line.isVn = (processedMeshes e tss tss.objects).flatMap
          (fun m => m.2.norms.map normLine) := by
        rw [hdoc, renderGroups_filter Line.isVn (fun _ => rfl)]
        exact BlocksFrom_filter e _ Line.isVn _
          (fun mat vo mesh blk h => (exportMesh_attributes e _ mat vo mesh blk h).2.2)
          _ _ _ hblocks
      have h := getElem?_flatMap_offset (fun m : e.MatrixF × TSMesh =>
        m.2.norms.map normLine) _ i m t (normLine norm) hm
        (by simp [List.getElem?_map, hnorm])
      rw [hVn]
      have e1 : t + (1 + numVertsSum e ((processedMeshes e tss tss.objects).take i)) - 1
          = (((processedMeshes e tss tss.objects).take i).map
              (fun a => (a.2.norms.map normLine).length)).sum + t := by
        rw [hN]
        simp only [numVertsSum]
        omega
      rw [e1]
      exact h

/-- C4 at a shape of two meshes with 3 and 2 vertices, each with as many texture
coordinates and normals as positions: the records `f 1/1/1 2/2/2 3/3/3` and
`f 5/5/5 4/4/4 5/5/5` refer to the `v`, `vt` and `vn` records of their own mesh. -/
theorem global_index_alignment_witness :
    exportGeometry sampleEngine alignedShape = .ok (alignedDoc, 6) ∧
    (∀ m2 ∈ alignedMeshes,
      m2.2.tverts.length = m2.2.verts.length ∧ m2.2.norms.length = m2.2.verts.length) ∧
    ∃ groups : List (String × List (List Line)),
      alignedDoc = renderGroups groups ∧
      (groups.flatMap (fun group => group.2)).length
        = alignedMeshes.length ∧
      ∀ i m, alignedMeshes[i]? = some m →
        ∃ block, (groups.flatMap (fun group => group.2))[i]? = some block ∧
          (∀ v0 t0 n0 v1 t1 n1 v2 t2 n2, Line.f v0 t0 n0 v1 t1 n1 v2 t2 n2 ∈ block →
            ∃ primitive ∈ m.2.primitives, ∃ a b c,
              (∀ t ∈ [a, b, c], ∃ pos ∈ primitiveReads sampleEngine primitive,
                m.2.indices[pos]? = some t) ∧
              Line.f v0 t0 n0 v1 t1 n1 v2 t2 n2
                = Line.f
                  (a + offsetBefore sampleEngine alignedMeshes i)
                  (a + offsetBefore sampleEngine alignedMeshes i)
                  (a + offsetBefore sampleEngine alignedMeshes i)
                  (b + offsetBefore sampleEngine alignedMeshes i)
                  (b + offsetBefore sampleEngine alignedMeshes i)
                  (b + offsetBefore sampleEngine alignedMeshes i)
                  (c + offsetBefore sampleEngine alignedMeshes i)
                  (c + offsetBefore sampleEngine alignedMeshes i)
                  (c + offsetBefore sampleEngine alignedMeshes i)) ∧
          (∀ t vert, m.2.verts[t]? = some vert →
            printedIndex (t + offsetBefore sampleEngine alignedMeshes i)
              = ((t + offsetBefore sampleEngine alignedMeshes i : Nat) : Int) ∧
            1 ≤ t + offsetBefore sampleEngine alignedMeshes i ∧
            (alignedDoc.filter Line.isV)[t + offsetBefore sampleEngine alignedMeshes i - 1]?
              = some (vertLine sampleEngine m.1 vert)) ∧
          ((∀ m2 ∈ alignedMeshes,
              m2.2.tverts.length = m2.2.verts.length ∧
              m2.2.norms.length = m2.2.verts.length) →
            (∀ t tvert, m.2.tverts[t]? = some tvert →
              printedIndex (t + offsetBefore sampleEngine alignedMeshes i)
                = ((t + offsetBefore sampleEngine alignedMeshes i : Nat) : Int) ∧
              1 ≤ t + offsetBefore sampleEngine alignedMeshes i ∧
              (alignedDoc.filter Line.isVt)[t
                  + offsetBefore sampleEngine alignedMeshes i - 1]?
                = some (tvertLine tvert)) ∧
            (∀ t norm, m.2.norms[t]? = some norm →
              printedIndex (t + offsetBefore sampleEngine alignedMeshes i)
                = ((t + offsetBefore sampleEngine alignedMeshes i : Nat) : Int) ∧
              1 ≤ t + offsetBefore sampleEngine alignedMeshes i ∧
              (alignedDoc.filter Line.isVn)[t
                  + offsetBefore sampleEngine alignedMeshes i - 1]?
                = some (normLine norm))) :=
  ⟨by decide, by decide,
   global_index_alignment sampleEngine alignedShape alignedDoc 6 (by decide) (by decide)⟩

end Dts2Obj
